import Mathlib

/-!
# ProxDDP solver: shallow embedding of `solver-proxddp.hxx`

Scalars are exact rationals (the source is templated on `Scalar`; rounding is not modelled).
`std::vector<VectorXs>` is `List (List ℚ)`.  Loop counters are `std::size_t`; they are only
incremented below a cap, so they never wrap and are modelled by `ℕ`.

The first part embeds the control flow of `run`, `innerLoop` and `computeInfeasibilities`.
The numerical routines called inside the inner loop and the collaborators that are not part of
`solver-proxddp.hxx` (problem evaluation, merit function, line search, tolerance schedule) are
taken as parameters, typed by the members they write.

The second part embeds the dense linear algebra of `computeTerminalValue` and `computeGains`
on block-indexed matrices.
-/

namespace ProxDDP

/-! ## Data model -/

abbrev Scalar := ℚ

abbrev VectorXs := List ℚ

/-- Dense dynamic matrix (`MatrixXs`): dimensions and coefficient map. -/
structure MatrixXs where
  rows : ℕ
  cols : ℕ
  coeff : ℕ → ℕ → ℚ

/-- The helper `math::infty_norm`: largest absolute value of a coefficient, `0` for an empty
vector. -/
def infty_norm (v : VectorXs) : ℚ :=
  v.foldl (fun m a => max m |a|) 0

/-- Member `ConstraintSetBase::normalConeProjection` (virtual in the source). -/
structure ConstraintSetBase where
  normalConeProjection : VectorXs → VectorXs

/-- Sum `x + y` of two dense vectors of the same size. -/
def vecAdd (x y : VectorXs) : VectorXs :=
  List.zipWith (fun a b => a + b) x y

/-- Product `alpha * v` of a scalar and a dense vector. -/
def vecScale (alpha : ℚ) (v : VectorXs) : VectorXs :=
  v.map (fun a => alpha * a)

/-- The members of `StageModel` read by `run`, `tryStep` and `computeInfeasibilities`:
the constraint sets of the stage in constraint order (`constraints_.getConstraintSet(j)`,
`numConstraints()`), the neutral elements `xspace().neutral()`, `uspace().neutral()`, and the
retractions `xspace_->integrate`, `uspace_->integrate`, `xspace_next_->integrate` (vector
addition unless stated otherwise), and the tangent dimension `ndx1()` read by
`computeDirection`. -/
structure StageModel where
  constraints_ : List ConstraintSetBase
  xspace_neutral : VectorXs
  uspace_neutral : VectorXs
  xspace_integrate : VectorXs → VectorXs → VectorXs := vecAdd
  uspace_integrate : VectorXs → VectorXs → VectorXs := vecAdd
  xspace_next_integrate : VectorXs → VectorXs → VectorXs := vecAdd
  ndx1 : ℕ := 0

/-- The members of `TrajOptProblemTpl` read here: `stages_`, the optional terminal constraint
set, and the dimension `term_constraint_->func_->ndx1` read by `computeDirection`. -/
structure TrajOptProblem where
  stages_ : List StageModel
  term_constraint_ : Option ConstraintSetBase
  term_ndx1 : ℕ := 0

/-- Method `TrajOptProblemTpl::numSteps`. -/
def TrajOptProblem.numSteps (problem : TrajOptProblem) : ℕ :=
  problem.stages_.length

/-- Function data: only `value_` is read by the routines embedded here. -/
structure FunctionData where
  value_ : VectorXs

structure StageData where
  constraint_data : List FunctionData

/-- Problem data `TrajOptDataTpl`: per-stage data (`getData(step)`) and terminal constraint data. -/
structure TrajOptData where
  stage_data : List StageData
  term_cstr_data : Option FunctionData

/-- Results holder `ResultsBaseTpl` (solver-results.hpp). -/
structure Results where
  num_iters : ℕ
  conv : Bool
  traj_cost_ : ℚ
  merit_value_ : ℚ
  primal_infeasibility : ℚ
  dual_infeasibility : ℚ
  gains_ : List MatrixXs
  xs_ : List VectorXs
  us_ : List VectorXs
  lams_ : List VectorXs

/-- Workspace.  The members that `run`, `innerLoop` and `computeInfeasibilities` read or write
by name are fields; every other buffer (value and Q stores, KKT buffers, proximal data, steps,
per-stage scoreboards of the backward pass, trial problem data) is gathered in `scratch`. -/
structure Workspace (S : Type) where
  problem_data : TrajOptData
  prev_xs_ : List VectorXs
  prev_us_ : List VectorXs
  prev_lams_ : List VectorXs
  lams_plus_ : List VectorXs
  lams_pdal_ : List VectorXs
  trial_xs_ : List VectorXs
  trial_us_ : List VectorXs
  trial_lams_ : List VectorXs
  inner_criterion : ℚ
  primal_infeas_by_stage : VectorXs
  scratch : S

inductive MultiplierUpdateMode
  | NEWTON
  | PRIMAL
  | PRIMAL_DUAL
  deriving DecidableEq, Repr

structure BCLParams where
  rho_update_factor : ℚ

/-- Solver object.  `workspace_` and `results_` are the owning pointers (`none` is the null
pointer). -/
structure SolverProxDDP (S : Type) where
  target_tolerance : ℚ
  inner_tol0 : ℚ
  prim_tol0 : ℚ
  inner_tol_ : ℚ
  prim_tol_ : ℚ
  mu_ : ℚ
  mu_inverse_ : ℚ
  rho_ : ℚ
  xreg_ : ℚ
  bcl_params : BCLParams
  mul_update_mode : MultiplierUpdateMode
  MAX_ITERS : ℕ
  MAX_AL_ITERS : ℕ
  workspace_ : Option (Workspace S)
  results_ : Option Results

/-- The solver members written by the tolerance and penalty schedule. -/
structure ALSchedule where
  inner_tol_ : ℚ
  prim_tol_ : ℚ
  mu_ : ℚ
  mu_inverse_ : ℚ

def SolverProxDDP.setSchedule {S : Type} (sv : SolverProxDDP S) (a : ALSchedule) :
    SolverProxDDP S :=
  { sv with inner_tol_ := a.inner_tol_, prim_tol_ := a.prim_tol_, mu_ := a.mu_,
            mu_inverse_ := a.mu_inverse_ }

/-! ## Collaborators -/

/-- Output of `problem.evaluate`, `problem.computeDerivatives`, `evaluateProx` and
`evaluateProxDerivatives` at the current iterate. -/
structure EvalOut (S : Type) where
  problem_data : TrajOptData
  scratch : S

/-- Members written by `backwardPass`. -/
structure BackwardOut (S : Type) where
  problem_data : TrajOptData
  scratch : S
  lams_plus_ : List VectorXs
  lams_pdal_ : List VectorXs
  inner_criterion : ℚ
  gains_ : List MatrixXs
  dual_infeasibility : ℚ

/-- Members written by `merit_fun.evaluate` at the current iterate (returned value `phi0`). -/
structure MeritOut (S : Type) where
  scratch : S
  lams_plus_ : List VectorXs
  lams_pdal_ : List VectorXs
  phi0 : ℚ

/-- Members written by `computeDirection`. -/
structure DirectionOut (S : Type) where
  scratch : S
  lams_plus_ : List VectorXs
  lams_pdal_ : List VectorXs

/-- Members written by the line search (`merit_eval_fun` calls `tryStep`, `problem.evaluate`,
`evaluateProx` and the merit function), with the merit members copied into the results. -/
structure LinesearchOut (S : Type) where
  scratch : S
  lams_plus_ : List VectorXs
  lams_pdal_ : List VectorXs
  trial_xs_ : List VectorXs
  trial_us_ : List VectorXs
  trial_lams_ : List VectorXs
  traj_cost : ℚ
  merit_value : ℚ

/-- Routines called by `innerLoop` and `run` whose effect on the loop is through the members
listed in their output type.  The three schedule hooks are declared in the solver header. -/
structure Kernel (S : Type) where
  evaluate : SolverProxDDP S → TrajOptProblem → Workspace S → Results → EvalOut S
  backwardPass : SolverProxDDP S → TrajOptProblem → Workspace S → Results → BackwardOut S
  meritEvaluate : SolverProxDDP S → TrajOptProblem → Workspace S → Results → MeritOut S
  computeDirection : SolverProxDDP S → TrajOptProblem → Workspace S → Results → DirectionOut S
  linesearch : SolverProxDDP S → TrajOptProblem → Workspace S → Results → ℚ → LinesearchOut S
  updateTolerancesOnSuccess : SolverProxDDP S → ALSchedule
  updateTolerancesOnFailure : SolverProxDDP S → ALSchedule
  updateALPenalty : SolverProxDDP S → ALSchedule

/-! ## `computeInfeasibilities` -/

/-- Inner loop over the constraints `j` of one stage: projects each value in place and
accumulates `infeas_over_j`. -/
def stageInfeas : List ConstraintSetBase → List FunctionData → ℚ → List FunctionData × ℚ
  | c :: cs, d :: ds, acc =>
    let v := c.normalConeProjection d.value_
    let r := stageInfeas cs ds (max acc (infty_norm v))
    ({ d with value_ := v } :: r.1, r.2)
  | _, ds, acc => (ds, acc)

/-- Outer loop over `step < nsteps`, writing `primal_infeas_by_stage(step)`. -/
def computeInfeasLoop :
    List StageModel → List StageData → ℕ → VectorXs → List StageData × VectorXs
  | st :: sts, sd :: sds, step, pis =>
    let r := stageInfeas st.constraints_ sd.constraint_data 0
    let rest := computeInfeasLoop sts sds (step + 1) (pis.set step r.2)
    ({ sd with constraint_data := r.1 } :: rest.1, rest.2)
  | _, sds, _, pis => (sds, pis)

/-- Method `SolverProxDDP::computeInfeasibilities`. -/
def computeInfeasibilities {S : Type} (problem : TrajOptProblem) (workspace : Workspace S)
    (results : Results) : Workspace S × Results :=
  let r := computeInfeasLoop problem.stages_ workspace.problem_data.stage_data 0
    workspace.primal_infeas_by_stage
  ({ workspace with
      problem_data := { workspace.problem_data with stage_data := r.1 },
      primal_infeas_by_stage := r.2 },
   { results with primal_infeasibility := infty_norm r.2 })

/-! ## `innerLoop` -/

/-- Lines 410-419 of `innerLoop`: evaluation of the problem and of the proximal terms,
`backwardPass`, merit value `phi0`, `computeInfeasibilities`.  Returns the value `phi0`. -/
def innerAssess {S : Type} (K : Kernel S) (sv : SolverProxDDP S) (problem : TrajOptProblem)
    (ws : Workspace S) (rs : Results) : (Workspace S × Results) × ℚ :=
  let e := K.evaluate sv problem ws rs
  let ws1 := { ws with problem_data := e.problem_data, scratch := e.scratch }
  let b := K.backwardPass sv problem ws1 rs
  let ws2 := { ws1 with problem_data := b.problem_data, scratch := b.scratch,
                        lams_plus_ := b.lams_plus_, lams_pdal_ := b.lams_pdal_,
                        inner_criterion := b.inner_criterion }
  let rs2 := { rs with gains_ := b.gains_, dual_infeasibility := b.dual_infeasibility }
  let m := K.meritEvaluate sv problem ws2 rs2
  let ws3 := { ws2 with scratch := m.scratch, lams_plus_ := m.lams_plus_,
                        lams_pdal_ := m.lams_pdal_ }
  (computeInfeasibilities problem ws3 rs2, m.phi0)

/-- Lines 446-484 of `innerLoop`: `computeDirection`, line search, acceptance of the trial
point and increment of `k = results.num_iters`. -/
def innerStep {S : Type} (K : Kernel S) (sv : SolverProxDDP S) (problem : TrajOptProblem)
    (ws : Workspace S) (rs : Results) (phi0 : ℚ) : Workspace S × Results :=
  let d := K.computeDirection sv problem ws rs
  let ws1 := { ws with scratch := d.scratch, lams_plus_ := d.lams_plus_,
                       lams_pdal_ := d.lams_pdal_ }
  let l := K.linesearch sv problem ws1 rs phi0
  let ws2 := { ws1 with scratch := l.scratch, lams_plus_ := l.lams_plus_,
                        lams_pdal_ := l.lams_pdal_, trial_xs_ := l.trial_xs_,
                        trial_us_ := l.trial_us_, trial_lams_ := l.trial_lams_ }
  (ws2, { rs with traj_cost_ := l.traj_cost, merit_value_ := l.merit_value,
                  xs_ := ws2.trial_xs_, us_ := ws2.trial_us_, lams_ := ws2.trial_lams_,
                  num_iters := rs.num_iters + 1 })

/-- The loop `while (k < MAX_ITERS)` of `innerLoop`; the first argument bounds the number of
loop bodies. -/
def innerLoopAux {S : Type} (K : Kernel S) (sv : SolverProxDDP S) (problem : TrajOptProblem) :
    ℕ → Workspace S → Results → Workspace S × Results
  | 0, ws, rs => (ws, rs)
  | fuel + 1, ws, rs =>
    if rs.num_iters < sv.MAX_ITERS then
      let a := innerAssess K sv problem ws rs
      if a.1.1.inner_criterion < sv.inner_tol_ then a.1
      else if a.1.1.inner_criterion < sv.target_tolerance ∧
          a.1.2.primal_infeasibility < sv.target_tolerance then a.1
      else
        let s := innerStep K sv problem a.1.1 a.1.2 a.2
        innerLoopAux K sv problem fuel s.1 s.2
    else (ws, rs)

/-- Method `SolverProxDDP::innerLoop`.  Each loop body that does not leave the loop increments
`k`, so `MAX_ITERS - k` bodies suffice. -/
def innerLoop {S : Type} (K : Kernel S) (sv : SolverProxDDP S) (problem : TrajOptProblem)
    (ws : Workspace S) (rs : Results) : Workspace S × Results :=
  innerLoopAux K sv problem (sv.MAX_ITERS - rs.num_iters) ws rs

/-! ## `run` -/

/-- Local state of the AL loop of `run`: the solver members, the referenced workspace and
results, and the counter `al_iter`. -/
structure ALState (S : Type) where
  solver : SolverProxDDP S
  workspace : Workspace S
  results : Results
  al_iter : ℕ

/-- Lines 370-375: update of `rho_`, clamping of the tolerances, `al_iter++`. -/
def alCycleEnd {S : Type} (sv : SolverProxDDP S) (ws : Workspace S) (rs : Results)
    (al_iter : ℕ) : ALState S :=
  { solver := { sv with rho_ := sv.rho_ * sv.bcl_params.rho_update_factor,
                        inner_tol_ := max sv.inner_tol_ sv.target_tolerance,
                        prim_tol_ := max sv.prim_tol_ sv.target_tolerance },
    workspace := ws, results := rs, al_iter := al_iter + 1 }

/-- State of the results and workspace after lines 337-338 of an AL cycle
(`innerLoop`, then `computeInfeasibilities`). -/
def afterInner {S : Type} (K : Kernel S) (problem : TrajOptProblem) (st : ALState S) :
    Workspace S × Results :=
  let i := innerLoop K st.solver problem st.workspace st.results
  computeInfeasibilities problem i.1 i.2

/-- The switch on `mul_update_mode` (lines 347-359). -/
def updateMultipliers {S : Type} (mode : MultiplierUpdateMode) (ws : Workspace S)
    (rs : Results) : Workspace S :=
  match mode with
  | .NEWTON => { ws with prev_lams_ := rs.lams_ }
  | .PRIMAL => { ws with prev_lams_ := ws.lams_plus_ }
  | .PRIMAL_DUAL => { ws with prev_lams_ := ws.lams_pdal_ }

/-- One body of the AL loop (lines 337-375).  The Boolean is `true` when the body is left
through `conv = true; break;`. -/
def alCycle {S : Type} (K : Kernel S) (problem : TrajOptProblem) (st : ALState S) :
    Bool × ALState S :=
  let a := afterInner K problem st
  let ws := { a.1 with prev_xs_ := a.2.xs_, prev_us_ := a.2.us_ }
  let rs := a.2
  if rs.primal_infeasibility ≤ st.solver.prim_tol_ then
    let sv := st.solver.setSchedule (K.updateTolerancesOnSuccess st.solver)
    let ws1 := updateMultipliers sv.mul_update_mode ws rs
    if max rs.primal_infeasibility rs.dual_infeasibility ≤ sv.target_tolerance then
      (true, { solver := sv, workspace := ws1, results := { rs with conv := true },
               al_iter := st.al_iter })
    else (false, alCycleEnd sv ws1 rs st.al_iter)
  else
    let sv1 := st.solver.setSchedule (K.updateALPenalty st.solver)
    let sv2 := sv1.setSchedule (K.updateTolerancesOnFailure sv1)
    (false, alCycleEnd sv2 ws rs st.al_iter)

/-- State at the exit of the AL loop.  `declared` records that the loop was left through the
`break` of line 364 and `heads` lists, in order, the state at the head of every loop body
that was executed; neither is a program variable. -/
structure LoopExit (S : Type) where
  state : ALState S
  declared : Bool
  heads : List (ALState S)

/-- The loop `while ((al_iter < MAX_AL_ITERS) && (results.num_iters < MAX_ITERS))`; the first
argument bounds the number of loop bodies, the last lists the heads of the bodies executed so
far. -/
def alLoop {S : Type} (K : Kernel S) (problem : TrajOptProblem) :
    ℕ → ALState S → List (ALState S) → LoopExit S
  | 0, st, hs => { state := st, declared := false, heads := hs }
  | fuel + 1, st, hs =>
    if st.al_iter < st.solver.MAX_AL_ITERS ∧ st.results.num_iters < st.solver.MAX_ITERS then
      let r := alCycle K problem st
      if r.1 then { state := r.2, declared := true, heads := hs ++ [st] }
      else alLoop K problem fuel r.2 (hs ++ [st])
    else { state := st, declared := false, heads := hs }

/-- Failures of `run`.  The first three are the `proxddp_runtime_error`s of lines 282, 295
and 307.  The last one is a read of `problem.stages_[i]` past the end of the vector, which
has no defined behaviour in the source. -/
inductive RunError
  | notAllocated
  | xsWrongSize
  | usWrongSize
  | stageIndexOutOfRange (i : ℕ)
  deriving DecidableEq, Repr

/-- Lines 289-292: the loop `for (i = 0; i < nsteps + 1; i++)` writing
`results.xs_[i] = problem.stages_[i]->xspace().neutral()`.  First argument: iterations left. -/
def seedXs (problem : TrajOptProblem) : ℕ → ℕ → List VectorXs → Except RunError (List VectorXs)
  | 0, _, xs => .ok xs
  | n + 1, i, xs =>
    match problem.stages_[i]? with
    | none => .error (.stageIndexOutOfRange i)
    | some sm => seedXs problem n (i + 1) (xs.set i sm.xspace_neutral)

/-- Lines 301-304: the loop `for (i = 0; i < nsteps; i++)` writing
`results.us_[i] = problem.stages_[i]->uspace().neutral()`. -/
def seedUs (problem : TrajOptProblem) : ℕ → ℕ → List VectorXs → Except RunError (List VectorXs)
  | 0, _, us => .ok us
  | n + 1, i, us =>
    match problem.stages_[i]? with
    | none => .error (.stageIndexOutOfRange i)
    | some sm => seedUs problem n (i + 1) (us.set i sm.uspace_neutral)

/-- Lines 288-298: default or warm-started states. -/
def initXs (problem : TrajOptProblem) (xs_init : List VectorXs) (results : Results) :
    Except RunError Results :=
  if xs_init.length = 0 then
    match seedXs problem (problem.numSteps + 1) 0 results.xs_ with
    | .error e => .error e
    | .ok xs => .ok { results with xs_ := xs }
  else if xs_init.length ≠ problem.numSteps + 1 then .error .xsWrongSize
  else .ok { results with xs_ := xs_init }

/-- Lines 300-310: default or warm-started controls. -/
def initUs (problem : TrajOptProblem) (us_init : List VectorXs) (results : Results) :
    Except RunError Results :=
  if us_init.length = 0 then
    match seedUs problem problem.numSteps 0 results.us_ with
    | .error e => .error e
    | .ok us => .ok { results with us_ := us }
  else if us_init.length ≠ problem.numSteps then .error .usWrongSize
  else .ok { results with us_ := us_init }

/-- Lines 312-325: proximal centres, initial tolerances, `al_iter = 0`. -/
def runInit {S : Type} (K : Kernel S) (sv : SolverProxDDP S) (workspace : Workspace S)
    (results : Results) : ALState S :=
  let ws := { workspace with prev_xs_ := results.xs_, prev_us_ := results.us_,
                             prev_lams_ := results.lams_ }
  let sv1 := { sv with inner_tol_ := sv.inner_tol0, prim_tol_ := sv.prim_tol0 }
  let sv2 := sv1.setSchedule (K.updateTolerancesOnFailure sv1)
  let sv3 := { sv2 with inner_tol_ := max sv2.inner_tol_ sv2.target_tolerance,
                        prim_tol_ := max sv2.prim_tol_ sv2.target_tolerance }
  { solver := sv3, workspace := ws, results := results, al_iter := 0 }

/-- What `run` leaves behind: the returned Boolean, the solver object (with the workspace and
results it owns), the final value of the local `al_iter`, and the two bookkeeping values of
`LoopExit`. -/
structure RunOutcome (S : Type) where
  ret : Bool
  solver : SolverProxDDP S
  workspace : Workspace S
  results : Results
  al_iter : ℕ
  declared : Bool
  heads : List (ALState S)

/-- Number of AL cycles (loop bodies) executed by the call. -/
def RunOutcome.cycles {S : Type} (out : RunOutcome S) : ℕ :=
  out.heads.length

/-- Lines 312-387 of `run`.  `al_iter` starts at `0` and every loop body that does not leave
the loop increments it, so `MAX_AL_ITERS` bodies suffice.  Printing and `invokeCallbacks`
(observers of the workspace and results) are not modelled. -/
def runLoop {S : Type} (K : Kernel S) (problem : TrajOptProblem) (sv : SolverProxDDP S)
    (workspace : Workspace S) (results : Results) : RunOutcome S :=
  let st0 := runInit K sv workspace results
  let x := alLoop K problem st0.solver.MAX_AL_ITERS st0 []
  { ret := x.state.results.conv,
    solver := { x.state.solver with workspace_ := some x.state.workspace,
                                    results_ := some x.state.results },
    workspace := x.state.workspace,
    results := x.state.results,
    al_iter := x.state.al_iter,
    declared := x.declared,
    heads := x.heads }

/-- Method `SolverProxDDP::run`. -/
def run {S : Type} (K : Kernel S) (sv : SolverProxDDP S) (problem : TrajOptProblem)
    (xs_init us_init : List VectorXs) : Except RunError (RunOutcome S) :=
  match sv.workspace_, sv.results_ with
  | some workspace, some results =>
    match initXs problem xs_init results with
    | .error e => .error e
    | .ok r1 =>
      match initUs problem us_init r1 with
      | .error e => .error e
      | .ok r2 => .ok (runLoop K problem sv workspace r2)
  | _, _ => .error .notAllocated

/-! ## A one-stage problem on the real line

State and control are scalars, the stage cost is `(x² + u²)/2`, the terminal cost `x²/2`,
the dynamics `x₁ = x₀ + u₀` is the single (equality) constraint of the stage, the initial
state is `0`, and the terminal constraint is the equality `c(x) = 0` for the constant
residual `c(x) = 1`, which no state satisfies.  At the iterate `x = (0, 0)`, `u = (0)`,
`λ = 0` every gradient vanishes and the dynamics residual is `0`. -/

/-- Equality constraint set: the normal-cone projection is the identity. -/
def equalitySet : ConstraintSetBase :=
  { normalConeProjection := fun z => z }

def scalarStage : StageModel :=
  { constraints_ := [equalitySet], xspace_neutral := [0], uspace_neutral := [0], ndx1 := 1 }

def scalarProblem : TrajOptProblem :=
  { stages_ := [scalarStage], term_constraint_ := some equalitySet, term_ndx1 := 1 }

/-- Problem data at the iterate above: dynamics residual `0`, terminal residual `1`. -/
def scalarData : TrajOptData :=
  { stage_data := [{ constraint_data := [{ value_ := [0] }] }],
    term_cstr_data := some { value_ := [1] } }

/-- The routines on `scalarProblem` at the stationary iterate, with penalty `mu = 1`:
the right-hand sides assembled by the backward pass are zero, hence `inner_criterion = 0`
and `dual_infeasibility = 0`.  `computeTerminalValue` writes the terminal multiplier estimate
`lams_plus_[2] = 0 + 1/mu = 1` (and no entry of `lams_pdal_`), `computeGains` writes
`lams_plus_[1] = 0` and `lams_pdal_[1] = 2 * 0 - 0 = 0`.  With
`mu = 1` the tolerance schedule leaves the tolerances where they are (success) or resets
them to their initial values (failure). -/
def stationaryKernel : Kernel Unit where
  evaluate _ _ _ _ := { problem_data := scalarData, scratch := () }
  backwardPass _ _ ws rs :=
    { problem_data := ws.problem_data, scratch := (),
      lams_plus_ := (ws.lams_plus_.set 2 [1]).set 1 [0],
      lams_pdal_ := ws.lams_pdal_.set 1 [0], inner_criterion := 0, gains_ := rs.gains_,
      dual_infeasibility := 0 }
  meritEvaluate _ _ ws _ :=
    { scratch := (), lams_plus_ := ws.lams_plus_, lams_pdal_ := ws.lams_pdal_, phi0 := 1 / 2 }
  computeDirection _ _ ws _ :=
    { scratch := (), lams_plus_ := ws.lams_plus_, lams_pdal_ := ws.lams_pdal_ }
  linesearch _ _ ws rs phi0 :=
    { scratch := (), lams_plus_ := ws.lams_plus_, lams_pdal_ := ws.lams_pdal_,
      trial_xs_ := rs.xs_, trial_us_ := rs.us_, trial_lams_ := rs.lams_,
      traj_cost := 0, merit_value := phi0 }
  updateTolerancesOnSuccess sv :=
    { inner_tol_ := sv.inner_tol_, prim_tol_ := sv.prim_tol_, mu_ := sv.mu_,
      mu_inverse_ := sv.mu_inverse_ }
  updateTolerancesOnFailure sv :=
    { inner_tol_ := sv.inner_tol0, prim_tol_ := sv.prim_tol0, mu_ := sv.mu_,
      mu_inverse_ := sv.mu_inverse_ }
  updateALPenalty sv :=
    { inner_tol_ := sv.inner_tol_, prim_tol_ := sv.prim_tol_, mu_ := sv.mu_,
      mu_inverse_ := sv.mu_inverse_ }

/-- Workspace as allocated for `scalarProblem`. -/
def freshWorkspace : Workspace Unit :=
  { problem_data := scalarData, prev_xs_ := [[0], [0]], prev_us_ := [[0]],
    prev_lams_ := [[0], [0], [0]], lams_plus_ := [[0], [0], [0]],
    lams_pdal_ := [[0], [0], [0]], trial_xs_ := [[0], [0]], trial_us_ := [[0]],
    trial_lams_ := [[0], [0], [0]], inner_criterion := 0, primal_infeas_by_stage := [0],
    scratch := () }

/-- Results as allocated for `scalarProblem` (member initialisers of `ResultsBaseTpl`). -/
def freshResults : Results :=
  { num_iters := 0, conv := false, traj_cost_ := 0, merit_value_ := 0,
    primal_infeasibility := 0, dual_infeasibility := 0, gains_ := [],
    xs_ := [[0], [0]], us_ := [[0]], lams_ := [[0], [0], [0]] }

/-- A solver with `target_tolerance = 1/100`, `mu = 1`, `rho = 1`, `rho_update_factor = 2`. -/
def freshSolver : SolverProxDDP Unit :=
  { target_tolerance := 1 / 100, inner_tol0 := 1, prim_tol0 := 1, inner_tol_ := 1,
    prim_tol_ := 1, mu_ := 1, mu_inverse_ := 1, rho_ := 1, xreg_ := 0,
    bcl_params := { rho_update_factor := 2 }, mul_update_mode := .NEWTON,
    MAX_ITERS := 100, MAX_AL_ITERS := 10, workspace_ := some freshWorkspace,
    results_ := some freshResults }

/-- Results left behind by an earlier call of `run` that converged after one inner
iteration. -/
def convergedResults : Results :=
  { freshResults with num_iters := 1, conv := true }

/-- The solver of that earlier call, with the inner iteration budget `MAX_ITERS = 1`. -/
def reusedSolver : SolverProxDDP Unit :=
  { freshSolver with MAX_ITERS := 1, results_ := some convergedResults }

/-- Violation `‖normalConeProjection(c_kj)‖_∞` of every constraint `j` of a stage, in
constraint order, at the constraint values held in the stage data. -/
def constraintViolations (stage : StageModel) (sd : StageData) : List ℚ :=
  List.zipWith (fun c d => infty_norm (c.normalConeProjection d.value_))
    stage.constraints_ sd.constraint_data

/-- The call `run(scalarProblem, {0, 0}, {0})` on the fresh solver: state at the loop head. -/
def scalarHead : ALState Unit :=
  runInit stationaryKernel freshSolver freshWorkspace freshResults

/-! ## Dense linear algebra of the backward pass -/

/-- Position of a row (or column) index inside an Eigen matrix whose rows are grouped in
consecutive blocks. -/
class EigenIndex (ι : Type) where
  size : ℕ
  pos : ι → ℕ
  pos_lt : ∀ i, pos i < size
  pos_inj : Function.Injective pos

instance (n : ℕ) : EigenIndex (Fin n) where
  size := n
  pos := fun i => i.val
  pos_lt := fun i => i.isLt
  pos_inj := Fin.val_injective

instance : EigenIndex Unit where
  size := 1
  pos := fun _ => 0
  pos_lt := fun _ => Nat.one_pos
  pos_inj := fun _ _ _ => rfl

instance (α β : Type) [EigenIndex α] [EigenIndex β] : EigenIndex (α ⊕ β) where
  size := EigenIndex.size α + EigenIndex.size β
  pos := Sum.elim EigenIndex.pos (fun j => EigenIndex.size α + EigenIndex.pos j)
  pos_lt := by
    rintro (i | j)
    · exact Nat.lt_add_right _ (EigenIndex.pos_lt i)
    · exact Nat.add_lt_add_left (EigenIndex.pos_lt j) _
  pos_inj := by
    rintro (i | j) (i2 | j2) h
    · exact congrArg _ (EigenIndex.pos_inj h)
    · have := EigenIndex.pos_lt i
      simp only [Sum.elim_inl, Sum.elim_inr] at h
      omega
    · have := EigenIndex.pos_lt i2
      simp only [Sum.elim_inl, Sum.elim_inr] at h
      omega
    · simp only [Sum.elim_inr] at h
      exact congrArg _ (EigenIndex.pos_inj (by omega))

/-- Dense value of `A.selfadjointView<Eigen::Lower>()`: the lower triangle of `A` mirrored
onto the upper triangle. -/
def selfadjointLower {ι : Type} [EigenIndex ι] (A : Matrix ι ι ℚ) : Matrix ι ι ℚ :=
  fun i j => if EigenIndex.pos j ≤ EigenIndex.pos i then A i j else A j i

/-- Modelled from the spec: the layout of `value_store_t`, whose declaration is in the
workspace header: a symmetric `(ndx+1)×(ndx+1)` matrix whose blocks are the scalar value `v`
(first row and column), the gradient `Vx` and the Hessian `Vxx`. -/
abbrev ValueIdx (ndx : ℕ) := Unit ⊕ Fin ndx

/-- Primal unknowns `(u, y)` of a stage KKT system, `nprim = nu + ndx2`. -/
abbrev PrimalIdx (nu ndx2 : ℕ) := Fin nu ⊕ Fin ndx2

/-- Modelled from the spec: the layout of `q_store_t`, whose declaration is in the workspace
header: a symmetric `(ndx1+nu+ndx2+1)`-sized matrix carrying `q`, the gradient and the Hessian
partitioned along `(x, u, y)`. -/
abbrev QIdx (ndx1 nu ndx2 : ℕ) := Unit ⊕ (Fin ndx1 ⊕ PrimalIdx nu ndx2)

/-- Rows of the view `getKktView(nprim, ndual)`: primal block, then dual block. -/
abbrev KktIdx (nu ndx2 ndual : ℕ) := PrimalIdx nu ndx2 ⊕ Fin ndual

/-- The factorise-and-solve routine of the linear algebra library (`ldlt().solve`,
`solveInPlace`), applied to a square matrix and a right-hand side. -/
structure LdltSolver where
  solve : {n m : Type} → [Fintype n] → [DecidableEq n] →
    Matrix n n ℚ → Matrix n m ℚ → Matrix n m ℚ

/-- Exact arithmetic: on an invertible matrix the routine returns a solution. -/
def LdltSolver.Exact (ldlt : LdltSolver) : Prop :=
  ∀ (n m : Type) [Fintype n] [DecidableEq n] (K : Matrix n n ℚ) (B : Matrix n m ℚ),
    IsUnit K.det → K * ldlt.solve K B = B

/-- An exact solver, by Cramer's rule. -/
def cramerLdlt : LdltSolver where
  solve := fun K B => (K.det)⁻¹ • (K.adjugate * B)

/-- Line 157: `term_value.storage = term_value.storage.selfadjointView<Lower>()`, applied to
the storage left by lines 118-155. -/
def computeTerminalValue {ndx : ℕ} (storage : Matrix (ValueIdx ndx) (ValueIdx ndx) ℚ) :
    Matrix (ValueIdx ndx) (ValueIdx ndx) ℚ :=
  selfadjointLower storage

/-- Buffers of one stage when line 237 of `computeGains` is reached: `qparam.storage`, the
views `kkt_mat` and `kkt_rhs` of the KKT buffers (with the blocks written by the loop over the
constraints and whatever the buffers held elsewhere), and the multiplier vectors. -/
structure GainsBuffers (ndx1 nu ndx2 ndual : ℕ) where
  qstorage : Matrix (QIdx ndx1 nu ndx2) (QIdx ndx1 nu ndx2) ℚ
  kkt_mat : Matrix (KktIdx nu ndx2 ndual) (KktIdx nu ndx2 ndual) ℚ
  kkt_rhs : Matrix (KktIdx nu ndx2 ndual) (ValueIdx ndx1) ℚ
  lamplus : Fin ndual → ℚ
  lam_inn : Fin ndual → ℚ

/-- The view `kkt_rhs` after lines 240-244. -/
def kktRhsFinal {ndx1 nu ndx2 ndual : ℕ} (mu : ℚ) (b : GainsBuffers ndx1 nu ndx2 ndual) :
    Matrix (KktIdx nu ndx2 ndual) (ValueIdx ndx1) ℚ :=
  let q := selfadjointLower b.qstorage
  Matrix.fromBlocks
    (fun i _ => q (Sum.inr (Sum.inr i)) (Sum.inl ()))
    (q.toBlocks₂₂.toBlocks₁₂).transpose
    (fun i _ => mu * (b.lamplus i - b.lam_inn i))
    b.kkt_rhs.toBlocks₂₂

/-- The view `kkt_mat` after lines 247-250. -/
def kktMatFinal {ndx1 nu ndx2 ndual : ℕ} (xreg mu : ℚ) (b : GainsBuffers ndx1 nu ndx2 ndual) :
    Matrix (KktIdx nu ndx2 ndual) (KktIdx nu ndx2 ndual) ℚ :=
  let q := selfadjointLower b.qstorage
  Matrix.fromBlocks
    (q.toBlocks₂₂.toBlocks₂₂ + xreg • (1 : Matrix (PrimalIdx nu ndx2) (PrimalIdx nu ndx2) ℚ))
    b.kkt_mat.toBlocks₁₂
    b.kkt_mat.toBlocks₂₁
    (fun i j => if i = j then -mu else b.kkt_mat.toBlocks₂₂ i j)

/-- The matrix that is factorised: `kkt_mat.selfadjointView<Lower>()` (line 265). -/
def kktView {ndx1 nu ndx2 ndual : ℕ} (xreg mu : ℚ) (b : GainsBuffers ndx1 nu ndx2 ndual) :
    Matrix (KktIdx nu ndx2 ndual) (KktIdx nu ndx2 ndual) ℚ :=
  selfadjointLower (kktMatFinal xreg mu b)

/-- The leading `(ndx1+1)`-sized corner of the Q storage. -/
def valueInQ {ndx1 nu ndx2 : ℕ} : ValueIdx ndx1 → QIdx ndx1 nu ndx2 :=
  Sum.map id Sum.inl

structure GainsOut (ndx1 nu ndx2 ndual : ℕ) where
  qstorage : Matrix (QIdx ndx1 nu ndx2) (QIdx ndx1 nu ndx2) ℚ
  kkt_mat : Matrix (KktIdx nu ndx2 ndual) (KktIdx nu ndx2 ndual) ℚ
  kkt_rhs : Matrix (KktIdx nu ndx2 ndual) (ValueIdx ndx1) ℚ
  gains : Matrix (KktIdx nu ndx2 ndual) (ValueIdx ndx1) ℚ
  vcurr : Matrix (ValueIdx ndx1) (ValueIdx ndx1) ℚ

/-- Lines 237-274 of `computeGains`, without the two scoreboard entries of lines 252-262. -/
def computeGains {ndx1 nu ndx2 ndual : ℕ} (ldlt : LdltSolver) (xreg mu : ℚ)
    (b : GainsBuffers ndx1 nu ndx2 ndual) : GainsOut ndx1 nu ndx2 ndual :=
  let q := selfadjointLower b.qstorage
  let rhs := kktRhsFinal mu b
  let G := ldlt.solve (kktView xreg mu b) (-rhs)
  { qstorage := q,
    kkt_mat := kktMatFinal xreg mu b,
    kkt_rhs := rhs,
    gains := G,
    vcurr := q.submatrix valueInQ valueInQ + rhs.transpose * G }

/-- The part of a problem seen by the backward pass from a node of tangent dimension `ndx`
on: either the terminal node, with the storage left by lines 118-155 of
`computeTerminalValue`, or a stage with its dimensions and the buffers that lines 185-235 of
`computeGains` leave for a given next value storage, followed by the later nodes. -/
inductive Horizon : ℕ → Type
  | terminal {ndx : ℕ} (storage : Matrix (ValueIdx ndx) (ValueIdx ndx) ℚ) : Horizon ndx
  | stage {ndx1 : ℕ} (nu ndx2 ndual : ℕ)
      (fill : Matrix (ValueIdx ndx2) (ValueIdx ndx2) ℚ → GainsBuffers ndx1 nu ndx2 ndual)
      (rest : Horizon ndx2) : Horizon ndx1

/-- A stored square matrix together with its index type. -/
structure StoredMatrix where
  ι : Type
  mat : Matrix ι ι ℚ

def StoredMatrix.IsSymm (A : StoredMatrix) : Prop :=
  A.mat.transpose = A.mat

/-- Stores written by the backward pass from a node on: the value storage of that node,
`value_params` for that node and the later ones, `q_params` for the stages from it on. -/
structure BackwardStores (ndx : ℕ) where
  head : Matrix (ValueIdx ndx) (ValueIdx ndx) ℚ
  value_params : List StoredMatrix
  q_params : List StoredMatrix

/-- Lines 96-101 of `backwardPass`: `computeTerminalValue`, then `computeGains` for the stages
from the last to the first. -/
def backwardPass (ldlt : LdltSolver) (xreg mu : ℚ) :
    {ndx : ℕ} → Horizon ndx → BackwardStores ndx
  | _, .terminal storage =>
    let v := computeTerminalValue storage
    { head := v, value_params := [⟨_, v⟩], q_params := [] }
  | _, .stage _ _ _ fill rest =>
    let r := backwardPass ldlt xreg mu rest
    let g := computeGains ldlt xreg mu (fill r.head)
    { head := g.vcurr, value_params := ⟨_, g.vcurr⟩ :: r.value_params,
      q_params := ⟨_, g.qstorage⟩ :: r.q_params }

/-- Every KKT matrix factorised during the backward pass is invertible. -/
def KktInvertible (ldlt : LdltSolver) (xreg mu : ℚ) : {ndx : ℕ} → Horizon ndx → Prop
  | _, .terminal _ => True
  | _, .stage _ _ _ fill rest =>
    IsUnit (kktView xreg mu (fill (backwardPass ldlt xreg mu rest).head)).det ∧
      KktInvertible ldlt xreg mu rest

/-- Number of stages of a horizon. -/
def Horizon.numSteps : {ndx : ℕ} → Horizon ndx → ℕ
  | _, .terminal _ => 0
  | _, .stage _ _ _ _ rest => rest.numSteps + 1

/-- The `(u, y)` block `H` of the symmetrised Q Hessian. -/
def stageHess {ndx1 nu ndx2 ndual : ℕ} (b : GainsBuffers ndx1 nu ndx2 ndual) :
    Matrix (PrimalIdx nu ndx2) (PrimalIdx nu ndx2) ℚ :=
  (selfadjointLower b.qstorage).toBlocks₂₂.toBlocks₂₂

/-- The block `J` written by the loop over the constraints into `kkt_jac`. -/
def stageJac {ndx1 nu ndx2 ndual : ℕ} (b : GainsBuffers ndx1 nu ndx2 ndual) :
    Matrix (Fin ndual) (PrimalIdx nu ndx2) ℚ :=
  b.kkt_mat.toBlocks₂₁

/-- A stage with zero cost Hessian and the constraint Jacobian `J = [1, -1]` of the dynamics
`y = x + u` with respect to `(u, y)`; the KKT buffer holds nothing else. -/
def zeroCostStage : GainsBuffers 1 1 1 1 where
  qstorage := 0
  kkt_mat := Matrix.fromBlocks 0 0 (fun _ => Sum.elim (fun _ => 1) (fun _ => -1)) 0
  kkt_rhs := 0
  lamplus := 0
  lam_inn := 0

/-- A stage with identity cost Hessian and the same constraint Jacobian `J = [1, -1]`. -/
def regularStage : GainsBuffers 1 1 1 1 where
  qstorage := 1
  kkt_mat := Matrix.fromBlocks 0 0 (fun _ => Sum.elim (fun _ => 1) (fun _ => -1)) 0
  kkt_rhs := 0
  lamplus := 0
  lam_inn := 0

/-- One stage with the buffers of `regularStage`, followed by a terminal node. -/
def regularHorizon : Horizon 1 :=
  .stage 1 1 1 (fun _ => regularStage) (.terminal 1)

/-! ## `tryStep` -/

/-- The trial buffers `trial_xs_`, `trial_us_`, `trial_lams_` of the workspace. -/
structure TrialBuffers where
  trial_xs_ : List VectorXs
  trial_us_ : List VectorXs
  trial_lams_ : List VectorXs

/-- Lines 75-76: the loop `for (i = 0; i <= nsteps; i++)` writing
`trial_lams_[i] = lams_[i] + alpha * dlams_[i]`.  First argument: iterations left.  A read
past the end of `lams_` or `dlams_` gives `none`. -/
def tryStepLams (lams dlams : List VectorXs) (alpha : ℚ) :
    ℕ → ℕ → List VectorXs → Option (List VectorXs)
  | 0, _, tl => some tl
  | n + 1, i, tl =>
    match lams[i]?, dlams[i]? with
    | some l, some d =>
      tryStepLams lams dlams alpha n (i + 1) (tl.set i (vecAdd l (vecScale alpha d)))
    | _, _ => none

/-- Lines 78-84: the loop `for (i = 0; i < nsteps; i++)` over the stages. -/
def tryStepStages (problem : TrajOptProblem) (xs us dxs dus : List VectorXs) (alpha : ℚ) :
    ℕ → ℕ → List VectorXs → List VectorXs → Option (List VectorXs × List VectorXs)
  | 0, _, txs, tus => some (txs, tus)
  | n + 1, i, txs, tus =>
    match problem.stages_[i]?, xs[i]?, dxs[i]?, us[i]?, dus[i]? with
    | some stage, some x, some dx, some u, some du =>
      tryStepStages problem xs us dxs dus alpha n (i + 1)
        (txs.set i (stage.xspace_integrate x (vecScale alpha dx)))
        (tus.set i (stage.uspace_integrate u (vecScale alpha du)))
    | _, _, _, _, _ => none

/-- Method `SolverProxDDP::tryStep`, on the members it reads (`results.xs_`, `us_`, `lams_`,
`workspace.dxs_`, `dus_`, `dlams_`) and writes (the trial buffers).  `none` stands for a read
past the end of a container. -/
def tryStep (problem : TrajOptProblem) (results : Results) (dxs dus dlams : List VectorXs)
    (trial : TrialBuffers) (alpha : ℚ) : Option TrialBuffers :=
  let nsteps := problem.numSteps
  match tryStepLams results.lams_ dlams alpha (nsteps + 1) 0 trial.trial_lams_ with
  | none => none
  | some tl =>
    match tryStepStages problem results.xs_ results.us_ dxs dus alpha nsteps 0
        trial.trial_xs_ trial.trial_us_ with
    | none => none
    | some (txs, tus) =>
      match problem.stages_[nsteps - 1]?, results.xs_[nsteps]?, dxs[nsteps]? with
      | some stage, some x, some dx =>
        some { trial_xs_ := txs.set nsteps (stage.xspace_next_integrate x (vecScale alpha dx)),
               trial_us_ := tus, trial_lams_ := tl }
      | _, _, _ => none

/-! ## `computeTerminalValue`, lines 118-155 -/

/-- Cost data at the terminal node: value, gradient `Lx_` and Hessian `Lxx_` with respect to
the state (used for `term_cost_data` and for `prox_datas[nsteps]`). -/
structure TerminalCostData (ndx : ℕ) where
  value_ : ℚ
  Lx_ : Fin ndx → ℚ
  Lxx_ : Matrix (Fin ndx) (Fin ndx) ℚ

/-- The two members of `ConstraintSetBase` called by the backward pass, on a codomain of
dimension `nr` and Jacobians with `ndx` columns. -/
structure DenseConstraintSet (nr ndx : ℕ) where
  normalConeProjection : (Fin nr → ℚ) → (Fin nr → ℚ)
  applyNormalConeProjectionJacobian :
    (Fin nr → ℚ) → Matrix (Fin nr) (Fin ndx) ℚ → Matrix (Fin nr) (Fin ndx) ℚ

/-- Terminal constraint: its set, its data (`value_`, `Jx_`, `Hxx_`) and the multipliers
`prev_lams_[nsteps + 1]` and `lams_[nsteps + 1]`. -/
structure TerminalConstraint (ndx nr : ℕ) where
  set_ : DenseConstraintSet nr ndx
  value_ : Fin nr → ℚ
  Jx_ : Matrix (Fin nr) (Fin ndx) ℚ
  Hxx_ : Matrix (Fin ndx) (Fin ndx) ℚ
  lamprev : Fin nr → ℚ
  lamin : Fin nr → ℚ

/-- Members written by `computeTerminalValue`: `value_params[nsteps].storage`,
`results.gains_[nsteps]`, `lams_plus_[nsteps + 1]` and the constraint Jacobian `Jx_`
(projected in place). -/
structure TerminalStores (ndx nr : ℕ) where
  storage : Matrix (ValueIdx ndx) (ValueIdx ndx) ℚ
  gains : Matrix (Fin nr) (ValueIdx ndx) ℚ
  lamplus : Fin nr → ℚ
  Jx_ : Matrix (Fin nr) (Fin ndx) ℚ

/-- Assembly of the value storage from `v_2()`, `Vx_` (first column) and `Vxx_`; the first
row right of the corner is not written. -/
def valueStorage {ndx : ℕ} (v2 : ℚ) (Vx : Fin ndx → ℚ) (Vxx : Matrix (Fin ndx) (Fin ndx) ℚ)
    (prior : Matrix (ValueIdx ndx) (ValueIdx ndx) ℚ) : Matrix (ValueIdx ndx) (ValueIdx ndx) ℚ :=
  Matrix.fromBlocks (fun _ _ => v2) prior.toBlocks₁₂ (fun i _ => Vx i) Vxx

/-- Lines 118-155 of `computeTerminalValue`, from the prior contents of the written members. -/
def terminalValueFill {ndx nr : ℕ} (rho mu_inverse : ℚ) (cost prox : TerminalCostData ndx)
    (cstr : Option (TerminalConstraint ndx nr)) (prior : TerminalStores ndx nr) :
    TerminalStores ndx nr :=
  let v2 := 2 * (cost.value_ + rho * prox.value_)
  let Vx := cost.Lx_ + rho • prox.Lx_
  let Vxx := cost.Lxx_ + rho • prox.Lxx_
  match cstr with
  | none => { prior with storage := valueStorage v2 Vx Vxx prior.storage }
  | some c =>
    let l_expr := c.lamprev + mu_inverse • c.value_
    let cJx := c.set_.applyNormalConeProjectionJacobian l_expr c.Jx_
    let lamplus := c.set_.normalConeProjection l_expr
    let ff := lamplus - c.lamin
    let fb := mu_inverse • cJx
    let Hx := Vx + cJx.transpose.mulVec c.lamin
    let Hxx := Vxx + c.Hxx_
    { storage := valueStorage v2 (Hx + cJx.transpose.mulVec ff) (Hxx + cJx.transpose * fb)
        prior.storage,
      gains := fun i => Sum.elim (fun _ => ff i) (fb i),
      lamplus := lamplus,
      Jx_ := cJx }

/-- Method `SolverProxDDP::computeTerminalValue`: lines 118-155, then the symmetrisation of
line 157. -/
def computeTerminalValueFull {ndx nr : ℕ} (rho mu_inverse : ℚ) (cost prox : TerminalCostData ndx)
    (cstr : Option (TerminalConstraint ndx nr)) (prior : TerminalStores ndx nr) :
    TerminalStores ndx nr :=
  let f := terminalValueFill rho mu_inverse cost prox cstr prior
  { f with storage := computeTerminalValue f.storage }

/-- A terminal equality constraint `x = 1` on the real line at `x_N = 0` (residual `-1`,
Jacobian `1`), with zero multipliers. -/
def scalarTerminalConstraint : TerminalConstraint 1 1 where
  set_ := { normalConeProjection := fun z => z,
            applyNormalConeProjectionJacobian := fun _ J => J }
  value_ := fun _ => -1
  Jx_ := 1
  Hxx_ := 0
  lamprev := 0
  lamin := 0

/-- Terminal cost `x²/2` at `x_N = 0`. -/
def scalarTerminalCost : TerminalCostData 1 where
  value_ := 0
  Lx_ := 0
  Lxx_ := 1

/-- Zero proximal data. -/
def zeroTerminalCost : TerminalCostData 1 where
  value_ := 0
  Lx_ := 0
  Lxx_ := 0

/-- Stores of the terminal node filled with zeros. -/
def zeroTerminalStores : TerminalStores 1 1 where
  storage := 0
  gains := 0
  lamplus := 0
  Jx_ := 0

/-! ## `computeDirection`, node 0 (lines 19-47) -/

/-- Infinity norm (`math::infty_norm`) of a dense vector indexed by a finite type. -/
def denseInftyNorm {ι : Type} [Fintype ι] (v : ι → ℚ) : ℚ :=
  Finset.univ.fold max 0 (fun i => |v i|)

/-- Data read at node 0.  The expression `init_data.Jx_ * lamin0` of line 39, assigned to a
segment of length `ndx0`, is only well-formed when `Jx_` is square, `ndual0 = ndx0 = n`. -/
structure InitialNode (n : ℕ) where
  Vx_ : Fin n → ℚ
  Vxx_ : Matrix (Fin n) (Fin n) ℚ
  Jx_ : Matrix (Fin n) (Fin n) ℚ
  value_ : Fin n → ℚ
  lamin0 : Fin n → ℚ
  prevlam0 : Fin n → ℚ
  prox_Lx_ : Fin n → ℚ
  prox_Lxx_ : Matrix (Fin n) (Fin n) ℚ

/-- Members written at node 0. -/
structure InitialStep (n : ℕ) where
  kkt_mat : Matrix (Fin n ⊕ Fin n) (Fin n ⊕ Fin n) ℚ
  kkt_rhs_0 : Fin n ⊕ Fin n → ℚ
  lams_plus_0 : Fin n → ℚ
  lams_pdal_0 : Fin n → ℚ
  pd_step_0 : Fin n ⊕ Fin n → ℚ
  inner_criterion_by_stage_0 : ℚ
  dual_infeas_by_stage_0 : ℚ

/-- The view `kkt_mat` of node 0 after lines 31-35 (`setZero`, then the three blocks). -/
def initialKktMat {n : ℕ} (rho mu : ℚ) (d : InitialNode n) :
    Matrix (Fin n ⊕ Fin n) (Fin n ⊕ Fin n) ℚ :=
  Matrix.fromBlocks (d.Vxx_ + rho • d.prox_Lxx_) 0 d.Jx_ (-mu • (1 : Matrix (Fin n) (Fin n) ℚ))

/-- The right-hand side `kkt_rhs_0` of node 0 after lines 36-40. -/
def initialKktRhs {n : ℕ} (rho mu mu_inverse : ℚ) (d : InitialNode n) : Fin n ⊕ Fin n → ℚ :=
  let lams_plus_0 := d.prevlam0 + mu_inverse • d.value_
  Sum.elim (d.Vx_ + d.Jx_.mulVec d.lamin0 + rho • d.prox_Lx_)
    (mu • (lams_plus_0 - d.lamin0))

/-- Lines 19-47 of `computeDirection`. -/
def computeDirectionInit {n : ℕ} (ldlt : LdltSolver) (rho mu mu_inverse : ℚ)
    (d : InitialNode n) : InitialStep n :=
  let kkt_mat := initialKktMat rho mu d
  let lams_plus_0 := d.prevlam0 + mu_inverse • d.value_
  let kkt_rhs_0 := initialKktRhs rho mu mu_inverse d
  let sol := ldlt.solve (selfadjointLower kkt_mat) (fun i (_ : Unit) => -kkt_rhs_0 i)
  { kkt_mat := kkt_mat,
    kkt_rhs_0 := kkt_rhs_0,
    lams_plus_0 := lams_plus_0,
    lams_pdal_0 := (2 : ℚ) • lams_plus_0 - d.lamin0,
    pd_step_0 := fun i => sol i (),
    inner_criterion_by_stage_0 := denseInftyNorm kkt_rhs_0,
    dual_infeas_by_stage_0 := denseInftyNorm (fun i : Fin n => kkt_rhs_0 (Sum.inl i)) }

/-- The right-hand side of the node-0 saddle-point system with the multiplier entering
through the transposed Jacobian: `(Vx + Jxᵀ * lam0 + rho * Lx, mu * (lam0+ - lam0))`. -/
def transposedInitialRhs {n : ℕ} (rho mu : ℚ) (d : InitialNode n) : Fin n ⊕ Fin n → ℚ :=
  Sum.elim (d.Vx_ + d.Jx_.transpose.mulVec d.lamin0 + rho • d.prox_Lx_)
    (mu • (d.prevlam0 + mu⁻¹ • d.value_ - d.lamin0))

/-- Node 0 of a planar problem whose initial-state residual has the non-symmetric Jacobian
`Jx = [[1, 1], [0, 1]]`, at `lam0 = prev_lam0 = (1, 0)`, residual `0`, `V0.Vx = 0`,
`V0.Vxx = I`, no proximal term. -/
def skewInitialNode : InitialNode 2 where
  Vx_ := 0
  Vxx_ := 1
  Jx_ := !![1, 1; 0, 1]
  value_ := 0
  lamin0 := ![1, 0]
  prevlam0 := ![1, 0]
  prox_Lx_ := 0
  prox_Lxx_ := 0

/-! ## `computeDirection`, lines 49-64 -/

/-- Modelled from the spec: the view `dxs_[k]` of the state part of `pd_step_[k]`, declared
in the workspace header, as an explicit sub-view descriptor (offset, length). -/
structure StateView where
  offset : ℕ
  length : ℕ

/-- The segment of `pd` seen through the view. -/
def StateView.read (v : StateView) (pd : VectorXs) : VectorXs :=
  (pd.drop v.offset).take v.length

/-- The expression `G.col(0) + G.rightCols(ndx) * dx`. -/
def gainApply (G : MatrixXs) (ndx : ℕ) (dx : VectorXs) : VectorXs :=
  (List.range G.rows).map fun r =>
    G.coeff r 0 + ((List.range ndx).map fun j => G.coeff r (G.cols - ndx + j) * dx.getD j 0).sum

/-- Lines 49-58: the loop `for (i = 0; i < nsteps; i++)` writing `pd_step_[i + 1]` from
`results.gains_[i]` and the view `dxs_[i]` of `pd_step_[i]`.  First argument: iterations
left.  `none` stands for a read past the end of a container. -/
def computeDirectionLoop (problem : TrajOptProblem) (gains : List MatrixXs)
    (dxs_views : List StateView) : ℕ → ℕ → List VectorXs → Option (List VectorXs)
  | 0, _, pd => some pd
  | n + 1, i, pd =>
    match problem.stages_[i]?, gains[i]?, dxs_views[i]?, pd[i]? with
    | some stage, some G, some v, some p =>
      computeDirectionLoop problem gains dxs_views n (i + 1)
        (pd.set (i + 1) (gainApply G stage.ndx1 (v.read p)))
    | _, _, _, _ => none

/-- Steps written by lines 49-64: the vectors `pd_step_` and, with a terminal constraint, the
multiplier step `dlams_[nsteps + 1]`. -/
structure DirectionSteps where
  pd_step_ : List VectorXs
  dlam_term : Option VectorXs

/-- Lines 49-64 of `computeDirection`, from the vectors `pd_step_` in which node 0 has been
written by lines 19-47. -/
def computeDirectionSteps (problem : TrajOptProblem) (gains : List MatrixXs)
    (dxs_views : List StateView) (pd_step : List VectorXs) : Option DirectionSteps :=
  let nsteps := problem.numSteps
  match computeDirectionLoop problem gains dxs_views nsteps 0 pd_step with
  | none => none
  | some pd =>
    match problem.term_constraint_ with
    | none => some { pd_step_ := pd, dlam_term := none }
    | some _ =>
      match gains[nsteps]?, dxs_views[nsteps]?, pd[nsteps]? with
      | some Gterm, some v, some p =>
        some { pd_step_ := pd,
               dlam_term := some (gainApply Gterm problem.term_ndx1 (v.read p)) }
      | _, _, _ => none

/-- Gains of `scalarProblem`: the stage gain has rows `(du, dx', dlam)` and columns
`(feedforward, feedback)`; the terminal gain has one row. -/
def scalarGains : List MatrixXs :=
  [{ rows := 3, cols := 2, coeff := fun r c => if c = 0 then 1 else (r : ℚ) },
   { rows := 1, cols := 2, coeff := fun _ c => if c = 0 then 0 else 2 }]

/-- Views of `scalarProblem`: `dx_0` is the head of `pd_step_[0] = (dx_0, dlam_0)`, `dx_1` the
middle entry of `pd_step_[1] = (du_0, dx_1, dlam_1)`. -/
def scalarViews : List StateView :=
  [{ offset := 0, length := 1 }, { offset := 1, length := 1 }]

/-- A problem with `N = 2` stages and no terminal constraint. -/
def chainProblem : TrajOptProblem :=
  { stages_ := [scalarStage, scalarStage], term_constraint_ := none }

/-- Gains of `chainProblem`: one per stage, none for the terminal node. -/
def chainGains : List MatrixXs :=
  [{ rows := 3, cols := 2, coeff := fun r c => if c = 0 then 1 else (r : ℚ) },
   { rows := 3, cols := 2, coeff := fun r c => if c = 0 then 1 else (r : ℚ) }]

/-- Views of `chainProblem`, one per node: `dx_0` is the head of `pd_step_[0]`, `dx_1` and
`dx_2` the middle entries of `pd_step_[1]` and `pd_step_[2]`. -/
def chainViews : List StateView :=
  [{ offset := 0, length := 1 }, { offset := 1, length := 1 }, { offset := 1, length := 1 }]

/-! ## The reusable KKT matrix buffer -/

/-- Block index of the view `getKktView(nprim, ndual)` lying on row (or column) `r` of the
buffer, if any. -/
def kktIdxOf (nu ndx2 ndual r : ℕ) : Option (KktIdx nu ndx2 ndual) :=
  if h : r < nu then some (Sum.inl (Sum.inl ⟨r, h⟩))
  else if h2 : r - nu < ndx2 then some (Sum.inl (Sum.inr ⟨r - nu, h2⟩))
  else if h3 : r - nu - ndx2 < ndual then some (Sum.inr ⟨r - nu - ndx2, h3⟩)
  else none

/-- Modelled from the spec: `Workspace::getKktView(nprim, ndual)`, declared in the workspace
header: the leading `(nprim + ndual)`-sized corner of the single reusable KKT matrix buffer
(`kktMatrixFull_`), here read as a matrix. -/
def getKktView (nu ndx2 ndual : ℕ) (full : ℕ → ℕ → ℚ) :
    Matrix (KktIdx nu ndx2 ndual) (KktIdx nu ndx2 ndual) ℚ :=
  fun i j => full (EigenIndex.pos i) (EigenIndex.pos j)

/-- The buffer after the coefficients of the view have been replaced by those of `M`. -/
def putKktView {nu ndx2 ndual : ℕ} (full : ℕ → ℕ → ℚ)
    (M : Matrix (KktIdx nu ndx2 ndual) (KktIdx nu ndx2 ndual) ℚ) : ℕ → ℕ → ℚ :=
  fun r c =>
    match kktIdxOf nu ndx2 ndual r, kktIdxOf nu ndx2 ndual c with
    | some i, some j => M i j
    | _, _ => full r c

/-- The view after the loop over the constraints (lines 210-235) has written the block
`kkt_jac = kkt_mat.block(nprim, 0, ndual, nprim)`: the stacked primal columns `J` of the
projected constraint Jacobians; the other blocks hold what the buffer held. -/
def loadKktJacobian {nu ndx2 ndual : ℕ}
    (view : Matrix (KktIdx nu ndx2 ndual) (KktIdx nu ndx2 ndual) ℚ)
    (J : Matrix (Fin ndual) (PrimalIdx nu ndx2) ℚ) :
    Matrix (KktIdx nu ndx2 ndual) (KktIdx nu ndx2 ndual) ℚ :=
  Matrix.fromBlocks view.toBlocks₁₁ view.toBlocks₁₂ J view.toBlocks₂₂

/-- Buffers of a stage at line 237 when the KKT matrix buffer holds `full` at the call of
`computeGains` (zero right-hand side buffer and multipliers). -/
def gainsBuffersFrom {ndx1 nu ndx2 ndual : ℕ} (full : ℕ → ℕ → ℚ)
    (qstorage : Matrix (QIdx ndx1 nu ndx2) (QIdx ndx1 nu ndx2) ℚ)
    (J : Matrix (Fin ndual) (PrimalIdx nu ndx2) ℚ) : GainsBuffers ndx1 nu ndx2 ndual where
  qstorage := qstorage
  kkt_mat := loadKktJacobian (getKktView nu ndx2 ndual full) J
  kkt_rhs := 0
  lamplus := 0
  lam_inn := 0

/-- The KKT matrix buffer when `computeGains` returns (the factorisation works on a copy). -/
def kktBufferAfterGains {ndx1 nu ndx2 ndual : ℕ} (full : ℕ → ℕ → ℚ) (xreg mu : ℚ)
    (b : GainsBuffers ndx1 nu ndx2 ndual) : ℕ → ℕ → ℚ :=
  putKktView full (kktMatFinal xreg mu b)

/-- Last stage of a two-stage problem: two controls, dynamics `y = x + u₁ + u₂` as its only
constraint (`nprim = 3`, `ndual = 1`), identity Q Hessian, zero-initialised KKT buffer. -/
def wideStage : GainsBuffers 1 2 1 1 :=
  gainsBuffersFrom (fun _ _ => 0) 1 (fun _ => Sum.elim (fun _ => 1) (fun _ => -1))

/-- First stage of the problem: one control, dynamics `y = x + u` and a bound on `u` as
constraints (`nprim = 2`, `ndual = 2`), identity Q Hessian; the KKT buffer is the one left
by `computeGains` on `wideStage` with `xreg = 0`, `mu = 1`. -/
def narrowStage : GainsBuffers 1 1 1 2 :=
  gainsBuffersFrom (kktBufferAfterGains (fun _ _ => 0) 0 1 wideStage) 1
    (fun i => if i = 0 then Sum.elim (fun _ => 1) (fun _ => -1)
      else Sum.elim (fun _ => 1) (fun _ => 0))

/-! ## The per-stage scoreboards of the inner criterion -/

/-- Scratch buffers with the two scoreboards `inner_criterion_by_stage` and
`dual_infeas_by_stage` (entry `0` for node 0, entry `k + 1` for stage `k`) singled out. -/
structure Scoreboards (S : Type) where
  inner_criterion_by_stage : VectorXs
  dual_infeas_by_stage : VectorXs
  rest : S

/-- The workspace without its scoreboards. -/
def Workspace.forget {S : Type} (ws : Workspace (Scoreboards S)) : Workspace S :=
  { problem_data := ws.problem_data, prev_xs_ := ws.prev_xs_, prev_us_ := ws.prev_us_,
    prev_lams_ := ws.prev_lams_, lams_plus_ := ws.lams_plus_, lams_pdal_ := ws.lams_pdal_,
    trial_xs_ := ws.trial_xs_, trial_us_ := ws.trial_us_, trial_lams_ := ws.trial_lams_,
    inner_criterion := ws.inner_criterion,
    primal_infeas_by_stage := ws.primal_infeas_by_stage, scratch := ws.scratch.rest }

/-- The solver with its workspace stripped of the scoreboards. -/
def SolverProxDDP.forget {S : Type} (sv : SolverProxDDP (Scoreboards S)) : SolverProxDDP S :=
  { target_tolerance := sv.target_tolerance, inner_tol0 := sv.inner_tol0,
    prim_tol0 := sv.prim_tol0, inner_tol_ := sv.inner_tol_, prim_tol_ := sv.prim_tol_,
    mu_ := sv.mu_, mu_inverse_ := sv.mu_inverse_, rho_ := sv.rho_, xreg_ := sv.xreg_,
    bcl_params := sv.bcl_params, mul_update_mode := sv.mul_update_mode,
    MAX_ITERS := sv.MAX_ITERS, MAX_AL_ITERS := sv.MAX_AL_ITERS,
    workspace_ := sv.workspace_.map Workspace.forget, results_ := sv.results_ }

/-- Members written by `computeTerminalValue` (no scoreboard entry). -/
structure TerminalPassOut (S : Type) where
  problem_data : TrajOptData
  scratch : S
  lams_plus_ : List VectorXs
  gains_ : List MatrixXs

/-- Members written by one call `computeGains(step)`; the two scalars are the values
`infty_norm(kkt_rhs_0)` and `max(dual_res_u, dual_res_y)` that lines 258-261 write to the
entries `step + 1` of the scoreboards. -/
structure StagePassOut (S : Type) where
  problem_data : TrajOptData
  scratch : S
  lams_plus_ : List VectorXs
  lams_pdal_ : List VectorXs
  gains_ : List MatrixXs
  inner_criterion_entry : ℚ
  dual_infeas_entry : ℚ

/-- Members written by `computeDirection`; the two scalars are the values
`infty_norm(kkt_rhs_0)` and `infty_norm(kkt_rhs_0.head(ndx0))` of node 0 that lines 45-46
write to the entries `0` of the scoreboards. -/
structure NodeZeroOut (S : Type) where
  scratch : S
  lams_plus_ : List VectorXs
  lams_pdal_ : List VectorXs
  inner_criterion_entry : ℚ
  dual_infeas_entry : ℚ

/-- The routines called by `innerLoop`, with `backwardPass` split into its calls and the
scoreboard entries of `computeGains` and `computeDirection` exposed. -/
structure ScoredRoutines (S : Type) where
  evaluate : SolverProxDDP S → TrajOptProblem → Workspace S → Results → EvalOut S
  computeTerminalValue :
    SolverProxDDP S → TrajOptProblem → Workspace S → Results → TerminalPassOut S
  computeGains :
    SolverProxDDP S → TrajOptProblem → Workspace S → Results → ℕ → StagePassOut S
  meritEvaluate : SolverProxDDP S → TrajOptProblem → Workspace S → Results → MeritOut S
  computeDirection : SolverProxDDP S → TrajOptProblem → Workspace S → Results → NodeZeroOut S
  linesearch : SolverProxDDP S → TrajOptProblem → Workspace S → Results → ℚ → LinesearchOut S
  updateTolerancesOnSuccess : SolverProxDDP S → ALSchedule
  updateTolerancesOnFailure : SolverProxDDP S → ALSchedule
  updateALPenalty : SolverProxDDP S → ALSchedule

/-- One call `computeGains(problem, workspace, results, step)` on the workspace with
scoreboards. -/
def applyComputeGains {S : Type} (R : ScoredRoutines S) (sv : SolverProxDDP (Scoreboards S))
    (problem : TrajOptProblem) (step : ℕ) (st : Workspace (Scoreboards S) × Results) :
    Workspace (Scoreboards S) × Results :=
  let g := R.computeGains sv.forget problem st.1.forget st.2 step
  ({ st.1 with
      problem_data := g.problem_data,
      lams_plus_ := g.lams_plus_,
      lams_pdal_ := g.lams_pdal_,
      scratch :=
        { inner_criterion_by_stage :=
            st.1.scratch.inner_criterion_by_stage.set (step + 1) g.inner_criterion_entry,
          dual_infeas_by_stage :=
            st.1.scratch.dual_infeas_by_stage.set (step + 1) g.dual_infeas_entry,
          rest := g.scratch } },
   { st.2 with gains_ := g.gains_ })

/-- Lines 99-101: the loop calling `computeGains` for `step = nsteps - 1, …, 0`.  The first
argument is `step + 1`. -/
def backwardGainsLoop {S : Type} (R : ScoredRoutines S) (sv : SolverProxDDP (Scoreboards S))
    (problem : TrajOptProblem) :
    ℕ → Workspace (Scoreboards S) × Results → Workspace (Scoreboards S) × Results
  | 0, st => st
  | step + 1, st => backwardGainsLoop R sv problem step (applyComputeGains R sv problem step st)

/-- Method `SolverProxDDP::backwardPass` (lines 92-105) on the workspace with scoreboards. -/
def backwardPassScored {S : Type} (R : ScoredRoutines S) (sv : SolverProxDDP (Scoreboards S))
    (problem : TrajOptProblem) (ws : Workspace (Scoreboards S)) (rs : Results) :
    BackwardOut (Scoreboards S) :=
  let t := R.computeTerminalValue sv.forget problem ws.forget rs
  let ws1 := { ws with problem_data := t.problem_data, lams_plus_ := t.lams_plus_,
                       scratch := { ws.scratch with rest := t.scratch } }
  let rs1 := { rs with gains_ := t.gains_ }
  let st := backwardGainsLoop R sv problem problem.numSteps (ws1, rs1)
  { problem_data := st.1.problem_data,
    scratch := st.1.scratch,
    lams_plus_ := st.1.lams_plus_,
    lams_pdal_ := st.1.lams_pdal_,
    inner_criterion := infty_norm st.1.scratch.inner_criterion_by_stage,
    gains_ := st.2.gains_,
    dual_infeasibility := infty_norm st.1.scratch.dual_infeas_by_stage }

/-- The routines of `innerLoop` on the workspace with scoreboards: `backwardPass` as above,
`computeDirection` writing the entries `0` (lines 45-46), the other routines leaving the
scoreboards alone. -/
def scoredKernel {S : Type} (R : ScoredRoutines S) : Kernel (Scoreboards S) where
  evaluate sv problem ws rs :=
    let e := R.evaluate sv.forget problem ws.forget rs
    { problem_data := e.problem_data, scratch := { ws.scratch with rest := e.scratch } }
  backwardPass := backwardPassScored R
  meritEvaluate sv problem ws rs :=
    let m := R.meritEvaluate sv.forget problem ws.forget rs
    { scratch := { ws.scratch with rest := m.scratch }, lams_plus_ := m.lams_plus_,
      lams_pdal_ := m.lams_pdal_, phi0 := m.phi0 }
  computeDirection sv problem ws rs :=
    let d := R.computeDirection sv.forget problem ws.forget rs
    { scratch :=
        { inner_criterion_by_stage :=
            ws.scratch.inner_criterion_by_stage.set 0 d.inner_criterion_entry,
          dual_infeas_by_stage := ws.scratch.dual_infeas_by_stage.set 0 d.dual_infeas_entry,
          rest := d.scratch },
      lams_plus_ := d.lams_plus_, lams_pdal_ := d.lams_pdal_ }
  linesearch sv problem ws rs phi0 :=
    let l := R.linesearch sv.forget problem ws.forget rs phi0
    { scratch := { ws.scratch with rest := l.scratch }, lams_plus_ := l.lams_plus_,
      lams_pdal_ := l.lams_pdal_, trial_xs_ := l.trial_xs_, trial_us_ := l.trial_us_,
      trial_lams_ := l.trial_lams_, traj_cost := l.traj_cost, merit_value := l.merit_value }
  updateTolerancesOnSuccess sv := R.updateTolerancesOnSuccess sv.forget
  updateTolerancesOnFailure sv := R.updateTolerancesOnFailure sv.forget
  updateALPenalty sv := R.updateALPenalty sv.forget

/-! ## A warm start off the initial state

The one-stage problem on the real line with stage cost `u²/2`, no terminal cost, dynamics
`x₁ = x₀ + u₀`, initial state `0` and no terminal constraint, warm-started at `x = (2, 2)`,
`u = (0)`, `λ = 0`.  The dynamics residual and every gradient vanish, so the right-hand
side of the stage is zero; the right-hand side of node 0 is `(0, x₀ - 0) = (0, 2)`. -/

def freeProblem : TrajOptProblem :=
  { stages_ := [scalarStage], term_constraint_ := none }

/-- Problem data at the warm start: dynamics residual `0`. -/
def freeData : TrajOptData :=
  { stage_data := [{ constraint_data := [{ value_ := [0] }] }], term_cstr_data := none }

/-- The routines on `freeProblem` at an iterate with `x = (2, 2)`, `u = (0)`, `λ = 0`,
proximal centre `λ = 0`, `mu = 1`, `rho = 0`.  Stage: `lams_plus_[1] = 0 + (2 + 0 - 2) = 0`
and `kkt_rhs_0 = 0`.  Node 0: `lams_plus_[0] = 0 + (2 - 0) = 2`, `lams_pdal_[0] = 4`,
`kkt_rhs_0 = (0, 2)`.  The merit value and the line search are not reached before the
first test. -/
def offsetRoutines : ScoredRoutines Unit where
  evaluate _ _ _ _ := { problem_data := freeData, scratch := () }
  computeTerminalValue _ _ ws rs :=
    { problem_data := ws.problem_data, scratch := (), lams_plus_ := ws.lams_plus_,
      gains_ := rs.gains_ }
  computeGains _ _ ws rs step :=
    { problem_data := ws.problem_data, scratch := (),
      lams_plus_ := ws.lams_plus_.set (step + 1) [0],
      lams_pdal_ := ws.lams_pdal_.set (step + 1) [0], gains_ := rs.gains_,
      inner_criterion_entry := 0, dual_infeas_entry := 0 }
  meritEvaluate _ _ ws _ :=
    { scratch := (), lams_plus_ := ws.lams_plus_, lams_pdal_ := ws.lams_pdal_, phi0 := 2 }
  computeDirection _ _ ws _ :=
    { scratch := (), lams_plus_ := ws.lams_plus_.set 0 [2],
      lams_pdal_ := ws.lams_pdal_.set 0 [4],
      inner_criterion_entry := 2, dual_infeas_entry := 0 }
  linesearch _ _ ws rs phi0 :=
    { scratch := (), lams_plus_ := ws.lams_plus_, lams_pdal_ := ws.lams_pdal_,
      trial_xs_ := rs.xs_, trial_us_ := rs.us_, trial_lams_ := rs.lams_,
      traj_cost := 0, merit_value := phi0 }
  updateTolerancesOnSuccess sv :=
    { inner_tol_ := sv.inner_tol_, prim_tol_ := sv.prim_tol_, mu_ := sv.mu_,
      mu_inverse_ := sv.mu_inverse_ }
  updateTolerancesOnFailure sv :=
    { inner_tol_ := sv.inner_tol0, prim_tol_ := sv.prim_tol0, mu_ := sv.mu_,
      mu_inverse_ := sv.mu_inverse_ }
  updateALPenalty sv :=
    { inner_tol_ := sv.inner_tol_, prim_tol_ := sv.prim_tol_, mu_ := sv.mu_,
      mu_inverse_ := sv.mu_inverse_ }

/-- Workspace as allocated for `freeProblem`, scoreboards filled with zeros. -/
def offsetWorkspace : Workspace (Scoreboards Unit) :=
  { problem_data := freeData, prev_xs_ := [[0], [0]], prev_us_ := [[0]],
    prev_lams_ := [[0], [0]], lams_plus_ := [[0], [0]], lams_pdal_ := [[0], [0]],
    trial_xs_ := [[0], [0]], trial_us_ := [[0]], trial_lams_ := [[0], [0]],
    inner_criterion := 0, primal_infeas_by_stage := [0],
    scratch := { inner_criterion_by_stage := [0, 0], dual_infeas_by_stage := [0, 0],
                 rest := () } }

/-- Results as allocated for `freeProblem`. -/
def offsetResults : Results :=
  { num_iters := 0, conv := false, traj_cost_ := 0, merit_value_ := 0,
    primal_infeasibility := 0, dual_infeasibility := 0, gains_ := [],
    xs_ := [[0], [0]], us_ := [[0]], lams_ := [[0], [0]] }

/-- A solver with `target_tolerance = 1/100`, `inner_tol0 = prim_tol0 = 1`, `mu = 1`. -/
def offsetSolver : SolverProxDDP (Scoreboards Unit) :=
  { target_tolerance := 1 / 100, inner_tol0 := 1, prim_tol0 := 1, inner_tol_ := 1,
    prim_tol_ := 1, mu_ := 1, mu_inverse_ := 1, rho_ := 0, xreg_ := 0,
    bcl_params := { rho_update_factor := 1 }, mul_update_mode := .NEWTON,
    MAX_ITERS := 100, MAX_AL_ITERS := 10, workspace_ := some offsetWorkspace,
    results_ := some offsetResults }

/-- The call `run(freeProblem, {2, 2}, {0})` on that solver: state at the loop head. -/
def offsetHead : ALState (Scoreboards Unit) :=
  runInit (scoredKernel offsetRoutines) offsetSolver offsetWorkspace
    { offsetResults with xs_ := [[2], [2]] }

/-- The first call of `innerLoop` in that run. -/
def offsetExit : Workspace (Scoreboards Unit) × Results :=
  innerLoop (scoredKernel offsetRoutines) offsetHead.solver freeProblem offsetHead.workspace
    offsetHead.results

/-! ## Frame lemmas for the inner loop -/

section Frame

variable {S : Type} (K : Kernel S) (sv : SolverProxDDP S) (problem : TrajOptProblem)

@[simp] theorem computeInfeasibilities_num_iters (ws : Workspace S) (rs : Results) :
    (computeInfeasibilities problem ws rs).2.num_iters = rs.num_iters := rfl

@[simp] theorem computeInfeasibilities_conv (ws : Workspace S) (rs : Results) :
    (computeInfeasibilities problem ws rs).2.conv = rs.conv := rfl

@[simp] theorem computeInfeasibilities_dual (ws : Workspace S) (rs : Results) :
    (computeInfeasibilities problem ws rs).2.dual_infeasibility = rs.dual_infeasibility := rfl

@[simp] theorem computeInfeasibilities_lams (ws : Workspace S) (rs : Results) :
    (computeInfeasibilities problem ws rs).2.lams_ = rs.lams_ := rfl

@[simp] theorem computeInfeasibilities_prev_lams (ws : Workspace S) (rs : Results) :
    (computeInfeasibilities problem ws rs).1.prev_lams_ = ws.prev_lams_ := rfl

@[simp] theorem computeInfeasibilities_lams_plus (ws : Workspace S) (rs : Results) :
    (computeInfeasibilities problem ws rs).1.lams_plus_ = ws.lams_plus_ := rfl

@[simp] theorem computeInfeasibilities_lams_pdal (ws : Workspace S) (rs : Results) :
    (computeInfeasibilities problem ws rs).1.lams_pdal_ = ws.lams_pdal_ := rfl

@[simp] theorem innerAssess_num_iters (ws : Workspace S) (rs : Results) :
    (innerAssess K sv problem ws rs).1.2.num_iters = rs.num_iters := rfl

@[simp] theorem innerAssess_conv (ws : Workspace S) (rs : Results) :
    (innerAssess K sv problem ws rs).1.2.conv = rs.conv := rfl

@[simp] theorem innerAssess_prev_lams (ws : Workspace S) (rs : Results) :
    (innerAssess K sv problem ws rs).1.1.prev_lams_ = ws.prev_lams_ := rfl

@[simp] theorem innerStep_num_iters (ws : Workspace S) (rs : Results) (phi0 : ℚ) :
    (innerStep K sv problem ws rs phi0).2.num_iters = rs.num_iters + 1 := rfl

@[simp] theorem innerStep_conv (ws : Workspace S) (rs : Results) (phi0 : ℚ) :
    (innerStep K sv problem ws rs phi0).2.conv = rs.conv := rfl

@[simp] theorem innerStep_prev_lams (ws : Workspace S) (rs : Results) (phi0 : ℚ) :
    (innerStep K sv problem ws rs phi0).1.prev_lams_ = ws.prev_lams_ := rfl

theorem innerLoopAux_conv (fuel : ℕ) (ws : Workspace S) (rs : Results) :
    (innerLoopAux K sv problem fuel ws rs).2.conv = rs.conv := by
  induction fuel generalizing ws rs with
  | zero => rfl
  | succ n ih =>
    simp only [innerLoopAux]
    split_ifs <;> simp [ih]

theorem innerLoopAux_prev_lams (fuel : ℕ) (ws : Workspace S) (rs : Results) :
    (innerLoopAux K sv problem fuel ws rs).1.prev_lams_ = ws.prev_lams_ := by
  induction fuel generalizing ws rs with
  | zero => rfl
  | succ n ih =>
    simp only [innerLoopAux]
    split_ifs <;> simp [ih]

theorem innerLoopAux_num_iters_ge (fuel : ℕ) (ws : Workspace S) (rs : Results) :
    rs.num_iters ≤ (innerLoopAux K sv problem fuel ws rs).2.num_iters := by
  induction fuel generalizing ws rs with
  | zero => exact le_refl _
  | succ n ih =>
    simp only [innerLoopAux]
    split_ifs
    · simp
    · simp
    · exact le_trans (by simp) (ih _ _)
    · exact le_refl _

theorem innerLoopAux_num_iters_le (fuel : ℕ) (ws : Workspace S) (rs : Results) :
    (innerLoopAux K sv problem fuel ws rs).2.num_iters ≤ max sv.MAX_ITERS rs.num_iters := by
  induction fuel generalizing ws rs with
  | zero => exact le_max_right _ _
  | succ n ih =>
    simp only [innerLoopAux]
    split_ifs with h
    · simp
    · simp
    · refine le_trans (ih _ _) ?_
      simp only [innerStep_num_iters, innerAssess_num_iters]
      omega
    · exact le_max_right _ _

/-- Beyond `MAX_ITERS - k` loop bodies the bound on the number of bodies is never what stops
the inner loop. -/
theorem innerLoopAux_fuel (extra : ℕ) (fuel : ℕ) (ws : Workspace S) (rs : Results)
    (h : sv.MAX_ITERS - rs.num_iters ≤ fuel) :
    innerLoopAux K sv problem (fuel + extra) ws rs = innerLoopAux K sv problem fuel ws rs := by
  induction fuel generalizing ws rs with
  | zero =>
    have hk : ¬ rs.num_iters < sv.MAX_ITERS := by omega
    cases extra with
    | zero => rfl
    | succ e => simp [innerLoopAux, hk]
  | succ n ih =>
    rw [Nat.add_right_comm]
    simp only [innerLoopAux]
    split_ifs with hk
    · rfl
    · rfl
    · apply ih
      simp only [innerStep_num_iters, innerAssess_num_iters]
      omega
    · rfl

end Frame

/-! ## Lemmas on the AL loop -/

section ALLoop

variable {S : Type} (K : Kernel S) (problem : TrajOptProblem)

theorem afterInner_num_iters_ge (st : ALState S) :
    st.results.num_iters ≤ (afterInner K problem st).2.num_iters := by
  simp only [afterInner, computeInfeasibilities_num_iters, innerLoop]
  exact innerLoopAux_num_iters_ge K _ problem _ _ _

theorem afterInner_num_iters_le (st : ALState S) :
    (afterInner K problem st).2.num_iters ≤ max st.solver.MAX_ITERS st.results.num_iters := by
  simp only [afterInner, computeInfeasibilities_num_iters, innerLoop]
  exact innerLoopAux_num_iters_le K _ problem _ _ _

theorem afterInner_conv (st : ALState S) :
    (afterInner K problem st).2.conv = st.results.conv := by
  simp only [afterInner, computeInfeasibilities_conv, innerLoop]
  exact innerLoopAux_conv K _ problem _ _ _

theorem afterInner_prev_lams (st : ALState S) :
    (afterInner K problem st).1.prev_lams_ = st.workspace.prev_lams_ := by
  simp only [afterInner, computeInfeasibilities_prev_lams, innerLoop]
  exact innerLoopAux_prev_lams K _ problem _ _ _

theorem alCycle_results (st : ALState S) :
    (alCycle K problem st).2.results =
      { (afterInner K problem st).2 with
        conv := (alCycle K problem st).1 || (afterInner K problem st).2.conv } := by
  simp only [alCycle]
  split_ifs <;> simp [alCycleEnd]

theorem alCycle_consts (st : ALState S) :
    (alCycle K problem st).2.solver.MAX_AL_ITERS = st.solver.MAX_AL_ITERS ∧
    (alCycle K problem st).2.solver.MAX_ITERS = st.solver.MAX_ITERS ∧
    (alCycle K problem st).2.solver.target_tolerance = st.solver.target_tolerance ∧
    (alCycle K problem st).2.solver.bcl_params = st.solver.bcl_params ∧
    (alCycle K problem st).2.solver.mul_update_mode = st.solver.mul_update_mode := by
  simp only [alCycle]
  split_ifs <;> simp [alCycleEnd, SolverProxDDP.setSchedule]

/-- A body that is not left through `break` runs lines 370-375. -/
theorem alCycle_continue (st : ALState S) (h : (alCycle K problem st).1 = false) :
    (alCycle K problem st).2.al_iter = st.al_iter + 1 ∧
    (alCycle K problem st).2.solver.rho_ = st.solver.rho_ * st.solver.bcl_params.rho_update_factor ∧
    st.solver.target_tolerance ≤ (alCycle K problem st).2.solver.prim_tol_ ∧
    st.solver.target_tolerance ≤ (alCycle K problem st).2.solver.inner_tol_ := by
  revert h
  simp only [alCycle]
  split_ifs <;> simp [alCycleEnd, SolverProxDDP.setSchedule]

/-- A body left through `break` skips lines 370-375. -/
theorem alCycle_break (st : ALState S) (h : (alCycle K problem st).1 = true) :
    (alCycle K problem st).2.al_iter = st.al_iter ∧
    (alCycle K problem st).2.solver.rho_ = st.solver.rho_ ∧
    (alCycle K problem st).2.results.conv = true ∧
    (alCycle K problem st).2.results.primal_infeasibility ≤ st.solver.target_tolerance ∧
    (alCycle K problem st).2.results.dual_infeasibility ≤ st.solver.target_tolerance := by
  revert h
  simp only [alCycle]
  split_ifs with h1 h2
  · intro _
    simp only [SolverProxDDP.setSchedule] at h2
    simp only [SolverProxDDP.setSchedule, true_and]
    exact ⟨le_trans (le_max_left _ _) h2, le_trans (le_max_right _ _) h2⟩
  · simp
  · simp

theorem alLoop_consts (fuel : ℕ) (st : ALState S) (hs : List (ALState S)) :
    (alLoop K problem fuel st hs).state.solver.MAX_AL_ITERS = st.solver.MAX_AL_ITERS ∧
    (alLoop K problem fuel st hs).state.solver.MAX_ITERS = st.solver.MAX_ITERS ∧
    (alLoop K problem fuel st hs).state.solver.target_tolerance = st.solver.target_tolerance ∧
    (alLoop K problem fuel st hs).state.solver.bcl_params = st.solver.bcl_params := by
  induction fuel generalizing st hs with
  | zero => simp [alLoop]
  | succ n ih =>
    obtain ⟨c1, c2, c3, c4, _⟩ := alCycle_consts K problem st
    simp only [alLoop]
    split_ifs with hg hb
    · exact ⟨c1, c2, c3, c4⟩
    · obtain ⟨i1, i2, i3, i4⟩ := ih (alCycle K problem st).2 (hs ++ [st])
      exact ⟨i1.trans c1, i2.trans c2, i3.trans c3, i4.trans c4⟩
    · simp

/-- The AL loop is left through `break` or with its guard false, never by the bound on the
number of bodies, once that bound is at least `MAX_AL_ITERS - al_iter`. -/
theorem alLoop_exit (fuel : ℕ) (st : ALState S) (hs : List (ALState S))
    (h : st.solver.MAX_AL_ITERS - st.al_iter ≤ fuel) :
    (alLoop K problem fuel st hs).declared = true ∨
    st.solver.MAX_AL_ITERS ≤ (alLoop K problem fuel st hs).state.al_iter ∨
    st.solver.MAX_ITERS ≤ (alLoop K problem fuel st hs).state.results.num_iters := by
  induction fuel generalizing st hs with
  | zero =>
    right; left
    simp only [alLoop]
    omega
  | succ n ih =>
    simp only [alLoop]
    split_ifs with hg hb
    · left; rfl
    · obtain ⟨c1, c2, _⟩ := alCycle_consts K problem st
      have hc := alCycle_continue K problem st (by simpa using hb)
      have := ih (alCycle K problem st).2 (hs ++ [st]) (by rw [c1, hc.1]; omega)
      rw [c1, c2] at this
      exact this
    · right
      dsimp only
      rw [not_and_or] at hg
      rcases hg with hg | hg
      · left; omega
      · right; omega

theorem alLoop_fuel (extra fuel : ℕ) (st : ALState S) (hs : List (ALState S))
    (h : st.solver.MAX_AL_ITERS - st.al_iter ≤ fuel) :
    alLoop K problem (fuel + extra) st hs = alLoop K problem fuel st hs := by
  induction fuel generalizing st hs with
  | zero =>
    have hk : ¬ st.al_iter < st.solver.MAX_AL_ITERS := by omega
    cases extra with
    | zero => rfl
    | succ e => simp [alLoop, hk]
  | succ n ih =>
    rw [Nat.add_right_comm]
    simp only [alLoop]
    split_ifs with hg hb
    · rfl
    · obtain ⟨c1, _⟩ := alCycle_consts K problem st
      have hc := alCycle_continue K problem st (by simpa using hb)
      exact ih _ _ (by rw [c1, hc.1]; omega)
    · rfl

/-- Counter bookkeeping: `al_iter` counts the bodies that were not left through `break`. -/
theorem alLoop_heads_length (fuel : ℕ) (st : ALState S) (hs : List (ALState S)) :
    (alLoop K problem fuel st hs).heads.length + st.al_iter =
      hs.length + (alLoop K problem fuel st hs).state.al_iter +
        (alLoop K problem fuel st hs).declared.toNat ∧
    st.al_iter ≤ (alLoop K problem fuel st hs).state.al_iter ∧
    (alLoop K problem fuel st hs).state.al_iter ≤ max st.solver.MAX_AL_ITERS st.al_iter ∧
    ((alLoop K problem fuel st hs).declared = true →
      (alLoop K problem fuel st hs).state.al_iter < st.solver.MAX_AL_ITERS) := by
  induction fuel generalizing st hs with
  | zero => simp [alLoop]
  | succ n ih =>
    simp only [alLoop]
    split_ifs with hg hb
    · have hc := alCycle_break K problem st hb
      simp only [List.length_append, List.length_singleton, Bool.toNat_true, hc.1]
      refine ⟨by omega, le_refl _, le_max_right _ _, fun _ => hg.1⟩
    · obtain ⟨c1, _⟩ := alCycle_consts K problem st
      have hc := alCycle_continue K problem st (by simpa using hb)
      obtain ⟨i1, i2, i3, i4⟩ := ih (alCycle K problem st).2 (hs ++ [st])
      rw [c1, hc.1] at i3
      rw [c1] at i4
      rw [hc.1] at i1 i2
      simp only [List.length_append, List.length_singleton] at i1
      refine ⟨by omega, by omega, ?_, i4⟩
      have := hg.1
      rw [max_def] at i3 ⊢
      split_ifs at i3 ⊢ <;> omega
    · simp

theorem alLoop_num_iters (fuel : ℕ) (st : ALState S) (hs : List (ALState S)) :
    st.results.num_iters ≤ (alLoop K problem fuel st hs).state.results.num_iters ∧
    (alLoop K problem fuel st hs).state.results.num_iters ≤
      max st.solver.MAX_ITERS st.results.num_iters := by
  induction fuel generalizing st hs with
  | zero => simp [alLoop]
  | succ n ih =>
    have h1 := afterInner_num_iters_ge K problem st
    have h2 := afterInner_num_iters_le K problem st
    have hr : (alCycle K problem st).2.results.num_iters =
        (afterInner K problem st).2.num_iters := by rw [alCycle_results]
    simp only [alLoop]
    split_ifs with hg hb
    · simp only [hr]
      exact ⟨h1, h2⟩
    · obtain ⟨_, c2, _⟩ := alCycle_consts K problem st
      obtain ⟨i1, i2⟩ := ih (alCycle K problem st).2 (hs ++ [st])
      rw [c2, hr] at i2
      rw [hr] at i1
      refine ⟨le_trans h1 i1, le_trans i2 ?_⟩
      rw [max_def] at h2 ⊢
      rw [max_def]
      split_ifs at h2 ⊢ <;> omega
    · simp

/-- Value of `rho_` at the exit of the loop: one factor per increment of `al_iter`. -/
theorem alLoop_rho (fuel : ℕ) (st : ALState S) (hs : List (ALState S)) :
    (alLoop K problem fuel st hs).state.solver.rho_ =
      st.solver.rho_ * st.solver.bcl_params.rho_update_factor ^
        ((alLoop K problem fuel st hs).state.al_iter - st.al_iter) := by
  induction fuel generalizing st hs with
  | zero => simp [alLoop]
  | succ n ih =>
    simp only [alLoop]
    split_ifs with hg hb
    · have hc := alCycle_break K problem st hb
      simp [hc.1, hc.2.1]
    · obtain ⟨_, _, _, c4, _⟩ := alCycle_consts K problem st
      have hc := alCycle_continue K problem st (by simpa using hb)
      have hge := (alLoop_heads_length K problem n (alCycle K problem st).2 (hs ++ [st])).2.1
      rw [hc.1] at hge
      rw [ih, hc.2.1, c4, hc.1, mul_assoc, ← pow_succ']
      congr 2
      omega
    · simp

/-- Without a `break`, `results.conv` at the exit is the value it had at the loop entry. -/
theorem alLoop_conv (fuel : ℕ) (st : ALState S) (hs : List (ALState S)) :
    ((alLoop K problem fuel st hs).declared = false →
      (alLoop K problem fuel st hs).state.results.conv = st.results.conv) ∧
    ((alLoop K problem fuel st hs).declared = true →
      (alLoop K problem fuel st hs).state.results.conv = true ∧
      (alLoop K problem fuel st hs).state.results.primal_infeasibility ≤
        st.solver.target_tolerance ∧
      (alLoop K problem fuel st hs).state.results.dual_infeasibility ≤
        st.solver.target_tolerance) := by
  induction fuel generalizing st hs with
  | zero => simp [alLoop]
  | succ n ih =>
    simp only [alLoop]
    split_ifs with hg hb
    · have hc := alCycle_break K problem st hb
      simp only [Bool.true_eq_false, false_implies, true_implies, true_and]
      exact hc.2.2
    · obtain ⟨_, _, c3, _⟩ := alCycle_consts K problem st
      obtain ⟨i1, i2⟩ := ih (alCycle K problem st).2 (hs ++ [st])
      rw [c3] at i2
      refine ⟨fun hd => ?_, i2⟩
      rw [i1 hd, alCycle_results]
      simp only [Bool.not_eq_true] at hb
      simp [hb, afterInner_conv]
    · simp

/-- Every loop head satisfies the clamping of lines 320-321 and 372-373. -/
theorem alLoop_heads_clamped (T : ℚ) (fuel : ℕ) (st : ALState S) (hs : List (ALState S))
    (hhs : ∀ h ∈ hs, h.solver.target_tolerance = T ∧ T ≤ h.solver.prim_tol_ ∧
      T ≤ h.solver.inner_tol_)
    (hst : st.solver.target_tolerance = T ∧ T ≤ st.solver.prim_tol_ ∧ T ≤ st.solver.inner_tol_) :
    ∀ h ∈ (alLoop K problem fuel st hs).heads,
      h.solver.target_tolerance = T ∧ T ≤ h.solver.prim_tol_ ∧ T ≤ h.solver.inner_tol_ := by
  have happ : ∀ (l : List (ALState S)) (s : ALState S),
      (∀ h ∈ l, h.solver.target_tolerance = T ∧ T ≤ h.solver.prim_tol_ ∧
        T ≤ h.solver.inner_tol_) →
      (s.solver.target_tolerance = T ∧ T ≤ s.solver.prim_tol_ ∧ T ≤ s.solver.inner_tol_) →
      ∀ h ∈ l ++ [s], h.solver.target_tolerance = T ∧ T ≤ h.solver.prim_tol_ ∧
        T ≤ h.solver.inner_tol_ := by
    intro l s hl hs0 h hm
    rcases List.mem_append.1 hm with hm | hm
    · exact hl h hm
    · rw [List.mem_singleton.1 hm]; exact hs0
  induction fuel generalizing st hs with
  | zero => simpa [alLoop] using hhs
  | succ n ih =>
    simp only [alLoop]
    split_ifs with hg hb
    · exact happ hs st hhs hst
    · obtain ⟨_, _, c3, _⟩ := alCycle_consts K problem st
      have hc := alCycle_continue K problem st (by simpa using hb)
      have hnew : (alCycle K problem st).2.solver.target_tolerance = T ∧
          T ≤ (alCycle K problem st).2.solver.prim_tol_ ∧
          T ≤ (alCycle K problem st).2.solver.inner_tol_ := by
        refine ⟨c3.trans hst.1, ?_, ?_⟩
        · rw [← hst.1]; exact hc.2.2.1
        · rw [← hst.1]; exact hc.2.2.2
      exact ih _ _ (happ hs st hhs hst) hnew
    · exact hhs

end ALLoop

/-! ## Lemmas on `run` -/

section Run

variable {S : Type} (K : Kernel S) (problem : TrajOptProblem)

theorem seedXs_error (n i : ℕ) (xs : List VectorXs) (e : RunError)
    (h : seedXs problem n i xs = .error e) : ∃ j, e = .stageIndexOutOfRange j := by
  induction n generalizing i xs with
  | zero => simp [seedXs] at h
  | succ n ih =>
    simp only [seedXs] at h
    split at h
    · exact ⟨i, by cases h; rfl⟩
    · exact ih _ _ h

theorem seedUs_error (n i : ℕ) (us : List VectorXs) (e : RunError)
    (h : seedUs problem n i us = .error e) : ∃ j, e = .stageIndexOutOfRange j := by
  induction n generalizing i us with
  | zero => simp [seedUs] at h
  | succ n ih =>
    simp only [seedUs] at h
    split at h
    · exact ⟨i, by cases h; rfl⟩
    · exact ih _ _ h

theorem seedUs_ok (n i : ℕ) (us : List VectorXs) (h : i + n ≤ problem.stages_.length) :
    ∃ r, seedUs problem n i us = .ok r := by
  induction n generalizing i us with
  | zero => exact ⟨us, rfl⟩
  | succ n ih =>
    simp only [seedUs]
    have hi : i < problem.stages_.length := by omega
    rw [List.getElem?_eq_getElem hi]
    exact ih _ _ (by omega)

theorem initXs_error (xs_init : List VectorXs) (rs : Results) (e : RunError)
    (h : initXs problem xs_init rs = .error e) :
    (xs_init = [] ∧ ∃ j, e = .stageIndexOutOfRange j) ∨
    (xs_init ≠ [] ∧ xs_init.length ≠ problem.numSteps + 1 ∧ e = .xsWrongSize) := by
  simp only [initXs] at h
  split_ifs at h with h0 h1
  · left
    refine ⟨List.length_eq_zero.1 h0, ?_⟩
    split at h
    · next e2 he => cases h; exact seedXs_error problem _ _ _ _ he
    · cases h
  · right
    refine ⟨fun hx => h0 (by simp [hx]), h1, ?_⟩
    cases h; rfl

theorem initUs_error (us_init : List VectorXs) (rs : Results) (e : RunError)
    (h : initUs problem us_init rs = .error e) :
    (us_init = [] ∧ ∃ j, e = .stageIndexOutOfRange j) ∨
    (us_init ≠ [] ∧ us_init.length ≠ problem.numSteps ∧ e = .usWrongSize) := by
  simp only [initUs] at h
  split_ifs at h with h0 h1
  · left
    refine ⟨List.length_eq_zero.1 h0, ?_⟩
    split at h
    · next e2 he => cases h; exact seedUs_error problem _ _ _ _ he
    · cases h
  · right
    refine ⟨fun hx => h0 (by simp [hx]), h1, ?_⟩
    cases h; rfl

theorem initXs_ok (xs_init : List VectorXs) (rs r : Results)
    (h : initXs problem xs_init rs = .ok r) :
    r.num_iters = rs.num_iters ∧ r.conv = rs.conv ∧ r.lams_ = rs.lams_ := by
  simp only [initXs] at h
  split_ifs at h with h0 h1
  · split at h
    · cases h
    · cases h; exact ⟨rfl, rfl, rfl⟩
  · cases h; exact ⟨rfl, rfl, rfl⟩

theorem initUs_ok (us_init : List VectorXs) (rs r : Results)
    (h : initUs problem us_init rs = .ok r) :
    r.num_iters = rs.num_iters ∧ r.conv = rs.conv ∧ r.lams_ = rs.lams_ := by
  simp only [initUs] at h
  split_ifs at h with h0 h1
  · split at h
    · cases h
    · cases h; exact ⟨rfl, rfl, rfl⟩
  · cases h; exact ⟨rfl, rfl, rfl⟩

theorem initXs_warm (xs_init : List VectorXs) (rs : Results)
    (h : xs_init.length = problem.numSteps + 1) :
    initXs problem xs_init rs = .ok { rs with xs_ := xs_init } := by
  simp [initXs, h]

theorem initUs_succeeds (us_init : List VectorXs) (rs : Results)
    (h : us_init = [] ∨ us_init.length = problem.numSteps) :
    ∃ r, initUs problem us_init rs = .ok r := by
  simp only [initUs]
  split_ifs with h0 h1
  · obtain ⟨r, hr⟩ := seedUs_ok problem problem.numSteps 0 rs.us_
      (by simp [TrajOptProblem.numSteps])
    rw [hr]
    exact ⟨_, rfl⟩
  · rcases h with h | h
    · exact absurd (by simp [h]) h0
    · exact absurd h h1
  · exact ⟨_, rfl⟩

/-- Decomposition of a successful call of `run`. -/
theorem run_eq_ok (sv : SolverProxDDP S) (xs_init us_init : List VectorXs) (out : RunOutcome S)
    (h : run K sv problem xs_init us_init = .ok out) :
    ∃ ws rs r, sv.workspace_ = some ws ∧ sv.results_ = some rs ∧
      r.num_iters = rs.num_iters ∧ r.conv = rs.conv ∧ out = runLoop K problem sv ws r := by
  unfold run at h
  split at h
  · next ws rs hw hr =>
    split at h
    · cases h
    · next r1 h1 =>
      split at h
      · cases h
      · next r2 h2 =>
        obtain ⟨a1, a2, _⟩ := initXs_ok problem _ _ _ h1
        obtain ⟨b1, b2, _⟩ := initUs_ok problem _ _ _ h2
        refine ⟨ws, rs, r2, hw, hr, b1.trans a1, b2.trans a2, ?_⟩
        cases h; rfl
  · cases h

/-- Decomposition of a failing call of `run`. -/
theorem run_eq_error (sv : SolverProxDDP S) (xs_init us_init : List VectorXs) (e : RunError)
    (h : run K sv problem xs_init us_init = .error e) :
    ((sv.workspace_ = none ∨ sv.results_ = none) ∧ e = .notAllocated) ∨
    (∃ rs, sv.results_ = some rs ∧ initXs problem xs_init rs = .error e) ∨
    (∃ rs r1, sv.results_ = some rs ∧ initXs problem xs_init rs = .ok r1 ∧
      initUs problem us_init r1 = .error e) := by
  unfold run at h
  split at h
  · next ws rs hw hr =>
    split at h
    · next e1 h1 => cases h; exact Or.inr (Or.inl ⟨rs, hr, h1⟩)
    · next r1 h1 =>
      split at h
      · next e2 h2 => cases h; exact Or.inr (Or.inr ⟨rs, r1, hr, h1, h2⟩)
      · cases h
  · next hno =>
    cases h
    left
    refine ⟨?_, rfl⟩
    cases hw : sv.workspace_ with
    | none => exact Or.inl rfl
    | some ws =>
      cases hr : sv.results_ with
      | none => exact Or.inr rfl
      | some rs => exact absurd hr (hno ws rs hw)

theorem runInit_solver (sv : SolverProxDDP S) (ws : Workspace S) (rs : Results) :
    (runInit K sv ws rs).solver.MAX_AL_ITERS = sv.MAX_AL_ITERS ∧
    (runInit K sv ws rs).solver.MAX_ITERS = sv.MAX_ITERS ∧
    (runInit K sv ws rs).solver.target_tolerance = sv.target_tolerance ∧
    (runInit K sv ws rs).solver.bcl_params = sv.bcl_params ∧
    (runInit K sv ws rs).solver.rho_ = sv.rho_ ∧
    sv.target_tolerance ≤ (runInit K sv ws rs).solver.prim_tol_ ∧
    sv.target_tolerance ≤ (runInit K sv ws rs).solver.inner_tol_ ∧
    (runInit K sv ws rs).al_iter = 0 ∧
    (runInit K sv ws rs).results = rs := by
  simp [runInit, SolverProxDDP.setSchedule]

end Run

/-! ## Evaluation on the one-stage problem -/

theorem innerLoop_stop {S : Type} (K : Kernel S) (sv : SolverProxDDP S)
    (problem : TrajOptProblem) (ws : Workspace S) (rs : Results)
    (hk : rs.num_iters < sv.MAX_ITERS)
    (hc : (innerAssess K sv problem ws rs).1.1.inner_criterion < sv.inner_tol_) :
    innerLoop K sv problem ws rs = (innerAssess K sv problem ws rs).1 := by
  unfold innerLoop
  obtain ⟨n, hn⟩ : ∃ n, sv.MAX_ITERS - rs.num_iters = n + 1 :=
    ⟨sv.MAX_ITERS - rs.num_iters - 1, by omega⟩
  rw [hn]
  simp only [innerLoopAux, hk, hc, if_true]

theorem alLoop_break {S : Type} (K : Kernel S) (problem : TrajOptProblem) (fuel : ℕ)
    (st : ALState S) (hs : List (ALState S))
    (h1 : st.al_iter < st.solver.MAX_AL_ITERS) (h2 : st.results.num_iters < st.solver.MAX_ITERS)
    (hb : (alCycle K problem st).1 = true) :
    alLoop K problem (fuel + 1) st hs =
      { state := (alCycle K problem st).2, declared := true, heads := hs ++ [st] } := by
  simp only [alLoop, h1, h2, hb, and_self, if_true]

theorem scalarHead_tols : scalarHead.solver.inner_tol_ = 1 ∧ scalarHead.solver.prim_tol_ = 1 ∧
    scalarHead.solver.target_tolerance = 1 / 100 ∧ scalarHead.solver.rho_ = 1 := by
  norm_num [scalarHead, runInit, stationaryKernel, freshSolver, SolverProxDDP.setSchedule]

theorem scalar_afterInner :
    (afterInner stationaryKernel scalarProblem scalarHead).2.primal_infeasibility = 0 ∧
    (afterInner stationaryKernel scalarProblem scalarHead).2.dual_infeasibility = 0 ∧
    (afterInner stationaryKernel scalarProblem scalarHead).1.problem_data.term_cstr_data =
      some { value_ := [1] } := by
  unfold afterInner
  rw [innerLoop_stop _ _ _ _ _ (by decide)
    (by rw [scalarHead_tols.1]; norm_num [innerAssess, stationaryKernel, computeInfeasibilities])]
  simp [innerAssess, stationaryKernel, computeInfeasibilities, computeInfeasLoop, stageInfeas,
    scalarProblem, scalarStage, scalarData, equalitySet, infty_norm, scalarHead, runInit,
    freshWorkspace]

theorem scalar_alCycle_break : (alCycle stationaryKernel scalarProblem scalarHead).1 = true := by
  simp only [alCycle, scalar_afterInner.1, scalar_afterInner.2.1, scalarHead_tols.2.1]
  norm_num [SolverProxDDP.setSchedule, scalarHead_tols.2.2.1]

theorem scalar_run :
    run stationaryKernel freshSolver scalarProblem [[0], [0]] [[0]] =
      .ok (runLoop stationaryKernel scalarProblem freshSolver freshWorkspace freshResults) ∧
    alLoop stationaryKernel scalarProblem 10 scalarHead [] =
      { state := (alCycle stationaryKernel scalarProblem scalarHead).2, declared := true,
        heads := [scalarHead] } :=
  ⟨rfl, alLoop_break stationaryKernel scalarProblem 9 scalarHead [] (by decide) (by decide)
    scalar_alCycle_break⟩

/-! ## Structure of the list of loop heads -/

theorem alLoop_heads_structure {S : Type} (K : Kernel S) (problem : TrajOptProblem) (fuel : ℕ)
    (st : ALState S) (hs : List (ALState S)) :
    ∃ l, (alLoop K problem fuel st hs).heads = hs ++ l ∧
      ((alLoop K problem fuel st hs).declared = true →
        ∃ init h, l = init ++ [h] ∧ (∀ g ∈ init, (alCycle K problem g).1 = false) ∧
          (alCycle K problem h).1 = true) ∧
      ((alLoop K problem fuel st hs).declared = false →
        ∀ g ∈ l, (alCycle K problem g).1 = false) := by
  induction fuel generalizing st hs with
  | zero => exact ⟨[], by simp [alLoop]⟩
  | succ n ih =>
    simp only [alLoop]
    split_ifs with hg hb
    · exact ⟨[st], rfl, fun _ => ⟨[], st, rfl, by simp, hb⟩, by simp⟩
    · obtain ⟨l, h1, h2, h3⟩ := ih (alCycle K problem st).2 (hs ++ [st])
      have hb2 : (alCycle K problem st).1 = false := by simpa using hb
      refine ⟨st :: l, by rw [h1]; simp, fun hd => ?_, fun hd g hm => ?_⟩
      · obtain ⟨init, h, e1, e2, e3⟩ := h2 hd
        refine ⟨st :: init, h, by rw [e1]; rfl, fun g hm => ?_, e3⟩
        rcases List.mem_cons.1 hm with hm | hm
        · rw [hm]; exact hb2
        · exact e2 g hm
      · rcases List.mem_cons.1 hm with hm | hm
        · rw [hm]; exact hb2
        · exact h3 hd g hm
    · exact ⟨[], by simp⟩

/-- In a cycle entered with `target_tolerance ≤ prim_tol_`, the `break` is taken exactly
when the combined infeasibility is at most `target_tolerance`. -/
theorem alCycle_declared_iff {S : Type} (K : Kernel S) (problem : TrajOptProblem)
    (st : ALState S) (hclamp : st.solver.target_tolerance ≤ st.solver.prim_tol_) :
    (alCycle K problem st).1 = true ↔
      max (afterInner K problem st).2.primal_infeasibility
        (afterInner K problem st).2.dual_infeasibility ≤ st.solver.target_tolerance := by
  simp only [alCycle]
  split_ifs with h1 h2
  · simpa [SolverProxDDP.setSchedule] using h2
  · simpa [SolverProxDDP.setSchedule] using h2
  · simp only [Bool.false_eq_true, false_iff, not_le]
    refine lt_of_lt_of_le ?_ (le_max_left _ _)
    exact lt_of_le_of_lt hclamp (not_le.1 h1)

/-- Facts on the outcome of lines 312-387, in terms of the solver at entry. -/
theorem runLoop_facts {S : Type} (K : Kernel S) (problem : TrajOptProblem)
    (sv : SolverProxDDP S) (ws : Workspace S) (r : Results) :
    (runLoop K problem sv ws r).cycles =
      (runLoop K problem sv ws r).al_iter + (runLoop K problem sv ws r).declared.toNat ∧
    (runLoop K problem sv ws r).al_iter ≤ sv.MAX_AL_ITERS ∧
    ((runLoop K problem sv ws r).declared = true →
      (runLoop K problem sv ws r).al_iter < sv.MAX_AL_ITERS) ∧
    r.num_iters ≤ (runLoop K problem sv ws r).results.num_iters ∧
    (runLoop K problem sv ws r).results.num_iters ≤ max sv.MAX_ITERS r.num_iters ∧
    ((runLoop K problem sv ws r).declared = true ∨
      sv.MAX_AL_ITERS ≤ (runLoop K problem sv ws r).al_iter ∨
      sv.MAX_ITERS ≤ (runLoop K problem sv ws r).results.num_iters) ∧
    (runLoop K problem sv ws r).solver.rho_ =
      sv.rho_ * sv.bcl_params.rho_update_factor ^ (runLoop K problem sv ws r).al_iter := by
  have hlen := alLoop_heads_length K problem sv.MAX_AL_ITERS (runInit K sv ws r) []
  have hnum := alLoop_num_iters K problem sv.MAX_AL_ITERS (runInit K sv ws r) []
  have hexit := alLoop_exit K problem sv.MAX_AL_ITERS (runInit K sv ws r) []
    (Nat.sub_le _ _)
  have hrho := alLoop_rho K problem sv.MAX_AL_ITERS (runInit K sv ws r) []
  obtain ⟨l1, -, l3, l4⟩ := hlen
  refine ⟨?_, ?_, l4, hnum.1, hnum.2, hexit, ?_⟩
  · simpa using l1
  · have l3b : (alLoop K problem sv.MAX_AL_ITERS (runInit K sv ws r) []).state.al_iter ≤
        max sv.MAX_AL_ITERS 0 := l3
    simpa using l3b
  · simpa using hrho

/-! ## Claims on `run` -/

/-- C1 (failing input): a second call of `run` on a solver whose results were left by a
converged call (`conv = true`, `num_iters = 1 = MAX_ITERS`) leaves the AL loop at once on the
cap `num_iters ≥ MAX_ITERS`, declares no convergence, and returns `true` with
`results.conv = true`, whatever the routines do. -/
theorem run_returns_stale_conv (K : Kernel Unit) :
    ∃ out, run K reusedSolver scalarProblem [[0], [0]] [[0]] = .ok out ∧
      out.cycles = 0 ∧ out.declared = false ∧
      reusedSolver.MAX_ITERS ≤ out.results.num_iters ∧
      out.ret = true ∧ out.results.conv = true :=
  ⟨_, rfl, rfl, rfl, Nat.le_of_eq rfl, rfl, rfl⟩

/-- C2: in every AL cycle executed by a call of `run`, the cycle declares convergence
(sets `conv` and leaves the loop) if and only if the combined infeasibility measured after the
inner solve and `computeInfeasibilities` is at most `target_tolerance`; the loop is left through
a declaration exactly when some cycle declared; and then the returned results have both
infeasibilities at most `target_tolerance`. -/
theorem run_declares_convergence_iff {S : Type} (K : Kernel S) (sv : SolverProxDDP S)
    (problem : TrajOptProblem) (xs_init us_init : List VectorXs) (out : RunOutcome S)
    (h : run K sv problem xs_init us_init = .ok out) :
    (∀ st ∈ out.heads,
      st.solver.target_tolerance = sv.target_tolerance ∧
      ((alCycle K problem st).1 = true ↔
        max (afterInner K problem st).2.primal_infeasibility
          (afterInner K problem st).2.dual_infeasibility ≤ sv.target_tolerance) ∧
      ((alCycle K problem st).1 = true → (alCycle K problem st).2.results.conv = true)) ∧
    ((∃ st ∈ out.heads, (alCycle K problem st).1 = true) ↔ out.declared = true) ∧
    (out.declared = true →
      out.ret = true ∧ out.results.conv = true ∧
      out.results.primal_infeasibility ≤ sv.target_tolerance ∧
      out.results.dual_infeasibility ≤ sv.target_tolerance) := by
  obtain ⟨ws, rs, r, -, -, -, -, rfl⟩ := run_eq_ok K problem sv xs_init us_init out h
  obtain ⟨-, -, i3, -, -, i6, i7, -, -⟩ := runInit_solver K sv ws r
  refine ⟨fun st hst => ?_, ?_, fun hd => ?_⟩
  · have hcl := alLoop_heads_clamped K problem sv.target_tolerance
      (runInit K sv ws r).solver.MAX_AL_ITERS (runInit K sv ws r) [] (by simp) ⟨i3, i6, i7⟩ st hst
    refine ⟨hcl.1, ?_, fun hb => (alCycle_break K problem st hb).2.2.1⟩
    rw [← hcl.1]
    exact alCycle_declared_iff K problem st (by rw [hcl.1]; exact hcl.2.1)
  · obtain ⟨l, h1, h2, h3⟩ := alLoop_heads_structure K problem
      (runInit K sv ws r).solver.MAX_AL_ITERS (runInit K sv ws r) []
    simp only [List.nil_append] at h1
    constructor
    · rintro ⟨st, hst, hb⟩
      by_contra hd
      have hf := h3 (by simpa using hd) st (by rw [← h1]; exact hst)
      rw [hb] at hf
      exact absurd hf (by decide)
    · intro hd
      obtain ⟨init, g, e1, -, e3⟩ := h2 hd
      exact ⟨g, by show g ∈ (alLoop _ _ _ _ _).heads; rw [h1, e1]; simp, e3⟩
  · have hc := (alLoop_conv K problem (runInit K sv ws r).solver.MAX_AL_ITERS
      (runInit K sv ws r) []).2 hd
    rw [i3] at hc
    exact ⟨hc.1, hc.1, hc.2.1, hc.2.2⟩

/-- C2 (witness): the call on the fresh solver for `scalarProblem`. -/
theorem run_declares_convergence_iff_witness :
    ∃ out, run stationaryKernel freshSolver scalarProblem [[0], [0]] [[0]] = .ok out ∧
      (∀ st ∈ out.heads,
        st.solver.target_tolerance = freshSolver.target_tolerance ∧
        ((alCycle stationaryKernel scalarProblem st).1 = true ↔
          max (afterInner stationaryKernel scalarProblem st).2.primal_infeasibility
            (afterInner stationaryKernel scalarProblem st).2.dual_infeasibility ≤
              freshSolver.target_tolerance) ∧
        ((alCycle stationaryKernel scalarProblem st).1 = true →
          (alCycle stationaryKernel scalarProblem st).2.results.conv = true)) ∧
      ((∃ st ∈ out.heads, (alCycle stationaryKernel scalarProblem st).1 = true) ↔
        out.declared = true) ∧
      (out.declared = true →
        out.ret = true ∧ out.results.conv = true ∧
        out.results.primal_infeasibility ≤ freshSolver.target_tolerance ∧
        out.results.dual_infeasibility ≤ freshSolver.target_tolerance) :=
  ⟨_, rfl, run_declares_convergence_iff stationaryKernel freshSolver scalarProblem
    [[0], [0]] [[0]] _ rfl⟩

theorem seedXs_past_end (problem : TrajOptProblem) (n i : ℕ) (xs : List VectorXs)
    (hi : i ≤ problem.stages_.length) (hn : problem.stages_.length < i + n) :
    seedXs problem n i xs = .error (.stageIndexOutOfRange problem.stages_.length) := by
  induction n generalizing i xs with
  | zero => omega
  | succ n ih =>
    simp only [seedXs]
    rcases Nat.lt_or_ge i problem.stages_.length with hlt | hge
    · rw [List.getElem?_eq_getElem hlt]
      exact ih (i + 1) _ (by omega) (by omega)
    · have heq : i = problem.stages_.length := by omega
      rw [List.getElem?_eq_none (by omega), heq]

/-- C3 (failing input): the call `run(scalarProblem, {}, {0, 0})` on the fresh solver
(`N = 1`, `us_init` non-empty of length `2 ≠ N`) does not reach the size test of line 306:
with an empty `xs_init` the seeding loop of lines 289-292 reads `problem.stages_[N]` first,
on every allocated solver, every problem and every `us_init`.  The other cases are as
claimed: the error of line 282 when the workspace or the results are not allocated, the
error of line 295 when `xs_init` is non-empty of length other than `N + 1`, the error of
line 307 when `xs_init` has length `N + 1` and `us_init` is non-empty of length other than
`N`, and entry into the AL loop when `xs_init` has length `N + 1` and `us_init` is empty or
of length `N`. -/
theorem run_us_size_test_preempted_by_seeding :
    (∀ K : Kernel Unit,
      run K freshSolver scalarProblem [] [[0], [0]] = .error (.stageIndexOutOfRange 1)) ∧
    (([[0], [0]] : List VectorXs) ≠ [] ∧
      ([[0], [0]] : List VectorXs).length ≠ scalarProblem.numSteps ∧
      freshSolver.workspace_ ≠ none ∧ freshSolver.results_ ≠ none) ∧
    (∀ (S : Type) (K : Kernel S) (sv : SolverProxDDP S) (problem : TrajOptProblem)
      (us_init : List VectorXs), sv.workspace_ ≠ none → sv.results_ ≠ none →
      run K sv problem [] us_init = .error (.stageIndexOutOfRange problem.numSteps)) ∧
    (∀ (S : Type) (K : Kernel S) (sv : SolverProxDDP S) (problem : TrajOptProblem)
      (xs_init us_init : List VectorXs), (sv.workspace_ = none ∨ sv.results_ = none) →
      run K sv problem xs_init us_init = .error .notAllocated) ∧
    (∀ (S : Type) (K : Kernel S) (sv : SolverProxDDP S) (problem : TrajOptProblem)
      (xs_init us_init : List VectorXs), sv.workspace_ ≠ none → sv.results_ ≠ none →
      xs_init ≠ [] → xs_init.length ≠ problem.numSteps + 1 →
      run K sv problem xs_init us_init = .error .xsWrongSize) ∧
    (∀ (S : Type) (K : Kernel S) (sv : SolverProxDDP S) (problem : TrajOptProblem)
      (xs_init us_init : List VectorXs), sv.workspace_ ≠ none → sv.results_ ≠ none →
      xs_init.length = problem.numSteps + 1 →
      us_init ≠ [] → us_init.length ≠ problem.numSteps →
      run K sv problem xs_init us_init = .error .usWrongSize) ∧
    (∀ (S : Type) (K : Kernel S) (sv : SolverProxDDP S) (problem : TrajOptProblem)
      (xs_init us_init : List VectorXs), sv.workspace_ ≠ none → sv.results_ ≠ none →
      xs_init.length = problem.numSteps + 1 →
      (us_init = [] ∨ us_init.length = problem.numSteps) →
      ∃ out, run K sv problem xs_init us_init = .ok out) ∧
    (∀ (S : Type) (K : Kernel S) (sv : SolverProxDDP S) (problem : TrajOptProblem)
      (xs_init us_init : List VectorXs), sv.workspace_ ≠ none → sv.results_ ≠ none →
      (xs_init = [] ∨ xs_init.length = problem.numSteps + 1) →
      (us_init = [] ∨ us_init.length = problem.numSteps) →
      run K sv problem xs_init us_init ≠ .error .notAllocated ∧
      run K sv problem xs_init us_init ≠ .error .xsWrongSize ∧
      run K sv problem xs_init us_init ≠ .error .usWrongSize) := by
  refine ⟨fun K => rfl, ⟨by decide, by decide, by simp [freshSolver], by simp [freshSolver]⟩,
    fun S K sv problem us_init hw hr => ?_, fun S K sv problem xs_init us_init h => ?_,
    fun S K sv problem xs_init us_init hw hr hx hl => ?_,
    fun S K sv problem xs_init us_init hw hr hxl hu hl => ?_,
    fun S K sv problem xs_init us_init hw hr hxl hu => ?_,
    fun S K sv problem xs_init us_init hw hr hx hu => ?_⟩
  · obtain ⟨ws, hws⟩ := Option.ne_none_iff_exists'.1 hw
    obtain ⟨rs, hrs⟩ := Option.ne_none_iff_exists'.1 hr
    have hseed := seedXs_past_end problem (problem.numSteps + 1) 0 rs.xs_ (Nat.zero_le _)
      (by simp [TrajOptProblem.numSteps])
    have hN : problem.stages_.length = problem.numSteps := rfl
    rw [hN] at hseed
    simp [run, hws, hrs, initXs, hseed]
  · unfold run
    rcases h with h | h
    · rw [h]
    · rw [h]; cases sv.workspace_ <;> rfl
  · obtain ⟨ws, hws⟩ := Option.ne_none_iff_exists'.1 hw
    obtain ⟨rs, hrs⟩ := Option.ne_none_iff_exists'.1 hr
    have hx0 : ¬ xs_init.length = 0 := fun h0 => hx (List.length_eq_zero.1 h0)
    simp [run, hws, hrs, initXs, hx0, hl]
  · obtain ⟨ws, hws⟩ := Option.ne_none_iff_exists'.1 hw
    obtain ⟨rs, hrs⟩ := Option.ne_none_iff_exists'.1 hr
    have hu0 : ¬ us_init.length = 0 := fun h0 => hu (List.length_eq_zero.1 h0)
    simp [run, hws, hrs, initXs_warm problem xs_init rs hxl, initUs, hu0, hl]
  · obtain ⟨ws, hws⟩ := Option.ne_none_iff_exists'.1 hw
    obtain ⟨rs, hrs⟩ := Option.ne_none_iff_exists'.1 hr
    obtain ⟨r2, hr2⟩ := initUs_succeeds problem us_init { rs with xs_ := xs_init } hu
    refine ⟨runLoop K problem sv ws r2, ?_⟩
    simp [run, hws, hrs, initXs_warm problem xs_init rs hxl, hr2]
  · obtain ⟨ws, hws⟩ := Option.ne_none_iff_exists'.1 hw
    obtain ⟨rs, hrs⟩ := Option.ne_none_iff_exists'.1 hr
    have key : ∀ e, run K sv problem xs_init us_init = .error e →
        ∃ j, e = .stageIndexOutOfRange j := by
      intro e he
      rcases run_eq_error K problem sv xs_init us_init e he with ⟨hn, -⟩ | ⟨rs1, -, h1⟩ |
        ⟨rs1, r1, -, -, h1⟩
      · rcases hn with hn | hn
        · exact absurd hn hw
        · exact absurd hn hr
      · rcases initXs_error problem _ _ _ h1 with ⟨_, hj⟩ | ⟨hne, hlen, _⟩
        · exact hj
        · rcases hx with hx | hx
          · exact absurd hx hne
          · exact absurd hx hlen
      · rcases initUs_error problem _ _ _ h1 with ⟨_, hj⟩ | ⟨hne, hlen, _⟩
        · exact hj
        · rcases hu with hu | hu
          · exact absurd hu hne
          · exact absurd hu hlen
    refine ⟨fun he => ?_, fun he => ?_, fun he => ?_⟩ <;>
    · obtain ⟨j, hj⟩ := key _ he
      cases hj

/-- C4 (failing input): on `scalarProblem`, whose terminal constraint has the constant
residual `1`, the call `run(scalarProblem, {0, 0}, {0})` with `target_tolerance = 1/100`
declares convergence in its first AL cycle and returns `true`, while the terminal constraint
violation `‖normalConeProjection(c_term(x_N))‖_∞` held in the problem data equals `1`. -/
theorem run_converges_with_violated_terminal_constraint :
    ∃ out, run stationaryKernel freshSolver scalarProblem [[0], [0]] [[0]] = .ok out ∧
      out.cycles = 1 ∧ out.declared = true ∧ out.ret = true ∧ out.results.conv = true ∧
      out.results.primal_infeasibility = 0 ∧
      out.workspace.problem_data.term_cstr_data = some { value_ := [1] } ∧
      infty_norm (equalitySet.normalConeProjection [1]) = 1 ∧
      ¬ infty_norm (equalitySet.normalConeProjection [1]) ≤ freshSolver.target_tolerance := by
  have hb := scalar_alCycle_break
  have hc := alCycle_break _ _ _ hb
  have ha := scalar_afterInner
  have hres := alCycle_results stationaryKernel scalarProblem scalarHead
  refine ⟨_, scalar_run.1, ?_, ?_, ?_, ?_, ?_, ?_, ?_, ?_⟩
  · show (alLoop stationaryKernel scalarProblem 10 scalarHead []).heads.length = 1
    rw [scalar_run.2]; rfl
  · show (alLoop stationaryKernel scalarProblem 10 scalarHead []).declared = true
    rw [scalar_run.2]
  · show (alLoop stationaryKernel scalarProblem 10 scalarHead []).state.results.conv = true
    rw [scalar_run.2]; exact hc.2.2.1
  · show (alLoop stationaryKernel scalarProblem 10 scalarHead []).state.results.conv = true
    rw [scalar_run.2]; exact hc.2.2.1
  · show (alLoop stationaryKernel scalarProblem 10 scalarHead []).state.results.primal_infeasibility
      = 0
    rw [scalar_run.2]
    simp only [hres, ha.1]
  · show (alLoop stationaryKernel scalarProblem 10
      scalarHead []).state.workspace.problem_data.term_cstr_data = _
    rw [scalar_run.2]
    have hw : (alCycle stationaryKernel scalarProblem scalarHead).2.workspace.problem_data =
        (afterInner stationaryKernel scalarProblem scalarHead).1.problem_data := by
      simp only [alCycle]
      split_ifs <;> simp only [alCycleEnd, updateMultipliers] <;> split <;> rfl
    simp only [hw, ha.2.2]
  · norm_num [infty_norm, equalitySet]
  · norm_num [infty_norm, equalitySet, freshSolver]

/-- C5: `run` returns on every well-formed input, and every returned call executed at most
`MAX_AL_ITERS` AL cycles, never decreased `results.num_iters`, left it at most
`max(MAX_ITERS, num_iters at entry)`, and left the AL loop on a declared convergence, on
`al_iter ≥ MAX_AL_ITERS` or on `num_iters ≥ MAX_ITERS`; every call of `innerLoop` accepts at
most `MAX_ITERS - num_iters` steps and never decreases `num_iters`; and neither loop is ever
stopped by the bound on the number of loop bodies used in the embedding. -/
theorem run_terminates_within_caps {S : Type} (K : Kernel S) (sv : SolverProxDDP S)
    (problem : TrajOptProblem) (xs_init us_init : List VectorXs) :
    (sv.workspace_ ≠ none → sv.results_ ≠ none →
      xs_init.length = problem.numSteps + 1 →
      (us_init = [] ∨ us_init.length = problem.numSteps) →
      ∃ out, run K sv problem xs_init us_init = .ok out) ∧
    (∀ out rs, sv.results_ = some rs → run K sv problem xs_init us_init = .ok out →
      out.cycles ≤ sv.MAX_AL_ITERS ∧
      rs.num_iters ≤ out.results.num_iters ∧
      out.results.num_iters ≤ max sv.MAX_ITERS rs.num_iters ∧
      (out.declared = true ∨ sv.MAX_AL_ITERS ≤ out.al_iter ∨
        sv.MAX_ITERS ≤ out.results.num_iters) ∧
      (∀ st ∈ out.heads,
        st.results.num_iters ≤ (alCycle K problem st).2.results.num_iters)) ∧
    (∀ (ws : Workspace S) (rs : Results) (extra : ℕ),
      alLoop K problem ((runInit K sv ws rs).solver.MAX_AL_ITERS + extra) (runInit K sv ws rs) []
        = alLoop K problem (runInit K sv ws rs).solver.MAX_AL_ITERS (runInit K sv ws rs) []) ∧
    (∀ (sv1 : SolverProxDDP S) (ws : Workspace S) (rs : Results),
      rs.num_iters ≤ (innerLoop K sv1 problem ws rs).2.num_iters ∧
      (innerLoop K sv1 problem ws rs).2.num_iters - rs.num_iters ≤
        sv1.MAX_ITERS - rs.num_iters ∧
      ∀ extra, innerLoopAux K sv1 problem (sv1.MAX_ITERS - rs.num_iters + extra) ws rs =
        innerLoop K sv1 problem ws rs) := by
  refine ⟨fun hw hr hx hu => ?_, fun out rs hrs h => ?_, fun ws rs extra => ?_,
    fun sv1 ws rs => ?_⟩
  · obtain ⟨ws, hws⟩ := Option.ne_none_iff_exists'.1 hw
    obtain ⟨rs, hrs⟩ := Option.ne_none_iff_exists'.1 hr
    obtain ⟨r2, h2⟩ := initUs_succeeds problem us_init { rs with xs_ := xs_init } hu
    refine ⟨runLoop K problem sv ws r2, ?_⟩
    simp [run, hws, hrs, initXs_warm problem xs_init rs hx, h2]
  · obtain ⟨ws, rs1, r, -, hr1, hn, -, rfl⟩ := run_eq_ok K problem sv xs_init us_init out h
    rw [hrs] at hr1
    cases hr1
    obtain ⟨f1, f2, f3, f4, f5, f6, -⟩ := runLoop_facts K problem sv ws r
    rw [hn] at f4 f5
    refine ⟨?_, f4, f5, f6, fun st _ => ?_⟩
    · rw [f1]
      cases hd : (runLoop K problem sv ws r).declared with
      | true =>
        have := f3 hd
        simp only [Bool.toNat_true]
        omega
      | false => simpa using f2
    · rw [alCycle_results]
      exact afterInner_num_iters_ge K problem st
  · have := alLoop_fuel K problem extra (runInit K sv ws rs).solver.MAX_AL_ITERS
      (runInit K sv ws rs) [] (by omega)
    exact this
  · have h1 := innerLoopAux_num_iters_ge K sv1 problem (sv1.MAX_ITERS - rs.num_iters) ws rs
    have h2 := innerLoopAux_num_iters_le K sv1 problem (sv1.MAX_ITERS - rs.num_iters) ws rs
    refine ⟨h1, ?_, fun extra => innerLoopAux_fuel K sv1 problem extra _ ws rs (le_refl _)⟩
    unfold innerLoop
    rw [max_def] at h2
    split_ifs at h2 <;> omega

/-- C6 (counterexample): the call on the fresh solver executes one AL cycle (the one in
which convergence is declared) and leaves `rho_ = 1`, not `1 * 2 ^ 1`. -/
theorem run_rho_not_updated_on_convergence :
    ∃ out, run stationaryKernel freshSolver scalarProblem [[0], [0]] [[0]] = .ok out ∧
      1 ≤ out.cycles ∧
      out.solver.rho_ ≠
        freshSolver.rho_ * freshSolver.bcl_params.rho_update_factor ^ out.cycles := by
  refine ⟨_, scalar_run.1, ?_, ?_⟩
  · show 1 ≤ (alLoop stationaryKernel scalarProblem 10 scalarHead []).heads.length
    rw [scalar_run.2]; exact le_refl _
  · show (alLoop stationaryKernel scalarProblem 10 scalarHead []).state.solver.rho_ ≠
      freshSolver.rho_ * freshSolver.bcl_params.rho_update_factor ^
        (alLoop stationaryKernel scalarProblem 10 scalarHead []).heads.length
    rw [scalar_run.2]
    simp only [(alCycle_break _ _ _ scalar_alCycle_break).2.1, scalarHead_tols.2.2.2]
    norm_num [freshSolver]

/-- C6 (amended): `rho_` is multiplied by `rho_update_factor` at the end of every AL cycle
that does not declare convergence and is left unchanged by the cycle that declares it; after
a call that executed `n` cycles, `rho_` is its value at entry times `rho_update_factor ^ n`
when no convergence was declared and times `rho_update_factor ^ (n - 1)` when it was. -/
theorem run_rho_update {S : Type} (K : Kernel S) (sv : SolverProxDDP S)
    (problem : TrajOptProblem) (xs_init us_init : List VectorXs) (out : RunOutcome S)
    (h : run K sv problem xs_init us_init = .ok out) :
    (∀ st : ALState S, (alCycle K problem st).1 = false →
      (alCycle K problem st).2.solver.rho_ =
        st.solver.rho_ * st.solver.bcl_params.rho_update_factor) ∧
    (∀ st : ALState S, (alCycle K problem st).1 = true →
      (alCycle K problem st).2.solver.rho_ = st.solver.rho_) ∧
    (out.declared = false →
      out.solver.rho_ = sv.rho_ * sv.bcl_params.rho_update_factor ^ out.cycles) ∧
    (out.declared = true →
      1 ≤ out.cycles ∧
      out.solver.rho_ = sv.rho_ * sv.bcl_params.rho_update_factor ^ (out.cycles - 1)) := by
  obtain ⟨ws, rs, r, -, -, -, -, rfl⟩ := run_eq_ok K problem sv xs_init us_init out h
  obtain ⟨f1, -, -, -, -, -, f7⟩ := runLoop_facts K problem sv ws r
  refine ⟨fun st hb => (alCycle_continue K problem st hb).2.1,
    fun st hb => (alCycle_break K problem st hb).2.1, fun hd => ?_, fun hd => ?_⟩
  · rw [f7, f1, hd]
    simp
  · rw [f7, f1, hd]
    simp

/-- C6 (witness): the call on the fresh solver for `scalarProblem`. -/
theorem run_rho_update_witness :
    ∃ out, run stationaryKernel freshSolver scalarProblem [[0], [0]] [[0]] = .ok out ∧
      (out.declared = true →
        1 ≤ out.cycles ∧
        out.solver.rho_ =
          freshSolver.rho_ * freshSolver.bcl_params.rho_update_factor ^ (out.cycles - 1)) :=
  ⟨_, rfl, (run_rho_update stationaryKernel freshSolver scalarProblem [[0], [0]] [[0]] _
    rfl).2.2.2⟩

/-- C7: after every AL cycle, `prev_xs_` and `prev_us_` are the states and controls returned
by the inner solve; `prev_lams_` is `lams_` (NEWTON), `lams_plus_` (PRIMAL) or `lams_pdal_`
(PRIMAL_DUAL) when `primal_infeasibility ≤ prim_tol_`, and is what it was before the cycle
otherwise. -/
theorem alCycle_proximal_centres {S : Type} (K : Kernel S) (problem : TrajOptProblem)
    (st : ALState S) :
    (alCycle K problem st).2.results.xs_ = (afterInner K problem st).2.xs_ ∧
    (alCycle K problem st).2.results.us_ = (afterInner K problem st).2.us_ ∧
    (alCycle K problem st).2.results.lams_ = (afterInner K problem st).2.lams_ ∧
    (alCycle K problem st).2.workspace.lams_plus_ = (afterInner K problem st).1.lams_plus_ ∧
    (alCycle K problem st).2.workspace.lams_pdal_ = (afterInner K problem st).1.lams_pdal_ ∧
    (alCycle K problem st).2.workspace.prev_xs_ = (alCycle K problem st).2.results.xs_ ∧
    (alCycle K problem st).2.workspace.prev_us_ = (alCycle K problem st).2.results.us_ ∧
    ((afterInner K problem st).2.primal_infeasibility ≤ st.solver.prim_tol_ →
      (alCycle K problem st).2.workspace.prev_lams_ =
        match st.solver.mul_update_mode with
        | .NEWTON => (alCycle K problem st).2.results.lams_
        | .PRIMAL => (alCycle K problem st).2.workspace.lams_plus_
        | .PRIMAL_DUAL => (alCycle K problem st).2.workspace.lams_pdal_) ∧
    (¬ (afterInner K problem st).2.primal_infeasibility ≤ st.solver.prim_tol_ →
      (alCycle K problem st).2.workspace.prev_lams_ = st.workspace.prev_lams_) := by
  have hp := afterInner_prev_lams K problem st
  simp only [alCycle]
  split_ifs with h1 h2
  · simp only [h1, not_true_eq_false, false_implies, true_implies, and_true,
      SolverProxDDP.setSchedule, updateMultipliers]
    cases st.solver.mul_update_mode <;> simp
  · simp only [h1, not_true_eq_false, false_implies, true_implies, and_true,
      SolverProxDDP.setSchedule, updateMultipliers, alCycleEnd]
    cases st.solver.mul_update_mode <;> simp
  · simp only [h1, not_false_eq_true, false_implies, true_implies, true_and, alCycleEnd]
    exact hp

/-! ## `computeInfeasibilities` -/

theorem foldl_max_ge_init (g : ℚ → ℚ) (l : List ℚ) (acc : ℚ) :
    acc ≤ l.foldl (fun m a => max m (g a)) acc := by
  induction l generalizing acc with
  | nil => exact le_refl _
  | cons a l ih => exact le_trans (le_max_left _ _) (ih _)

theorem foldl_max_ge_mem (g : ℚ → ℚ) (l : List ℚ) (acc : ℚ) :
    ∀ v ∈ l, g v ≤ l.foldl (fun m a => max m (g a)) acc := by
  induction l generalizing acc with
  | nil => simp
  | cons a l ih =>
    intro v hv
    rcases List.mem_cons.1 hv with hv | hv
    · rw [hv]
      exact le_trans (le_max_right _ _) (foldl_max_ge_init g l _)
    · exact ih _ v hv

theorem foldl_max_mem (g : ℚ → ℚ) (l : List ℚ) (acc : ℚ) :
    l.foldl (fun m a => max m (g a)) acc = acc ∨
      ∃ v ∈ l, l.foldl (fun m a => max m (g a)) acc = g v := by
  induction l generalizing acc with
  | nil => exact Or.inl rfl
  | cons a l ih =>
    rcases ih (max acc (g a)) with h | ⟨v, hv, h⟩
    · rcases max_choice acc (g a) with hm | hm
      · left; rw [List.foldl_cons, h]; exact hm
      · right; exact ⟨a, List.mem_cons_self _ _, by rw [List.foldl_cons, h]; exact hm⟩
    · right; exact ⟨v, List.mem_cons_of_mem _ hv, h⟩

theorem infty_norm_nonneg (v : VectorXs) : 0 ≤ infty_norm v :=
  foldl_max_ge_init (fun a => |a|) v 0

theorem stageInfeas_snd (cs : List ConstraintSetBase) (ds : List FunctionData) (acc : ℚ) :
    (stageInfeas cs ds acc).2 =
      (List.zipWith (fun c d => infty_norm (c.normalConeProjection d.value_)) cs ds).foldl
        (fun m a => max m (id a)) acc := by
  induction cs generalizing ds acc with
  | nil => cases ds <;> rfl
  | cons c cs ih =>
    cases ds with
    | nil => rfl
    | cons d ds => simp only [stageInfeas, List.zipWith_cons_cons, List.foldl_cons, id, ih]

/-- The value written for a stage is the maximum of the violations of its constraints, and
`0` when it has none. -/
theorem stageInfeas_max (stage : StageModel) (sd : StageData) :
    (∀ v ∈ constraintViolations stage sd,
      v ≤ (stageInfeas stage.constraints_ sd.constraint_data 0).2) ∧
    (constraintViolations stage sd = [] →
      (stageInfeas stage.constraints_ sd.constraint_data 0).2 = 0) ∧
    (constraintViolations stage sd ≠ [] →
      (stageInfeas stage.constraints_ sd.constraint_data 0).2 ∈
        constraintViolations stage sd) := by
  rw [stageInfeas_snd]
  refine ⟨fun v hv => foldl_max_ge_mem id _ 0 v hv, fun h => ?_, fun h => ?_⟩
  · unfold constraintViolations at h
    rw [h]; rfl
  · have hnn : ∀ v ∈ constraintViolations stage sd, 0 ≤ v := by
      intro v hv
      unfold constraintViolations at hv
      obtain ⟨i, hi, rfl⟩ := List.getElem_of_mem hv
      rw [List.getElem_zipWith]
      exact infty_norm_nonneg _
    rcases foldl_max_mem id (constraintViolations stage sd) 0 with h0 | ⟨v, hv, h0⟩
    · obtain ⟨w, hw⟩ := List.exists_mem_of_ne_nil _ h
      have h1 := foldl_max_ge_mem id (constraintViolations stage sd) 0 w hw
      have h2 := hnn w hw
      unfold constraintViolations at h0 h1 hw ⊢
      rw [h0] at h1 ⊢
      have : w = 0 := le_antisymm h1 h2
      rw [← this]
      exact hw
    · unfold constraintViolations at h0 hv ⊢
      rw [h0]
      exact hv

theorem computeInfeasLoop_length (sts : List StageModel) (sds : List StageData) (step : ℕ)
    (pis : VectorXs) : (computeInfeasLoop sts sds step pis).2.length = pis.length := by
  induction sts generalizing sds step pis with
  | nil => cases sds <;> rfl
  | cons st sts ih =>
    cases sds with
    | nil => rfl
    | cons sd sds => simp only [computeInfeasLoop, ih, List.length_set]

theorem computeInfeasLoop_below (sts : List StageModel) (sds : List StageData) (step : ℕ)
    (pis : VectorXs) (k : ℕ) (hk : k < step) :
    (computeInfeasLoop sts sds step pis).2[k]? = pis[k]? := by
  induction sts generalizing sds step pis with
  | nil => cases sds <;> rfl
  | cons st sts ih =>
    cases sds with
    | nil => rfl
    | cons sd sds =>
      simp only [computeInfeasLoop]
      rw [ih _ _ _ (by omega), List.getElem?_set_ne (by omega)]

theorem computeInfeasLoop_entry (sts : List StageModel) (sds : List StageData) (step : ℕ)
    (pis : VectorXs) (i : ℕ) (st : StageModel) (sd : StageData)
    (hst : sts[i]? = some st) (hsd : sds[i]? = some sd) (hlen : step + i < pis.length) :
    (computeInfeasLoop sts sds step pis).2[step + i]? =
      some (stageInfeas st.constraints_ sd.constraint_data 0).2 := by
  induction sts generalizing sds step pis i with
  | nil => simp at hst
  | cons s sts ih =>
    cases sds with
    | nil => simp at hsd
    | cons d sds =>
      simp only [computeInfeasLoop]
      cases i with
      | zero =>
        simp only [List.getElem?_cons_zero, Option.some.injEq] at hst hsd
        rw [computeInfeasLoop_below _ _ _ _ _ (by omega), Nat.add_zero,
          List.getElem?_set_eq_of_lt _ (by omega), hst, hsd]
      | succ j =>
        simp only [List.getElem?_cons_succ] at hst hsd
        have := ih sds (step + 1) (pis.set step (stageInfeas s.constraints_ d.constraint_data 0).2)
          j hst hsd (by rw [List.length_set]; omega)
        rw [← this]
        congr 1
        omega

/-- C10: `computeInfeasibilities` writes, for every stage `k < N`, the maximum over the
constraints `j` of the stage of `‖normalConeProjection(c_kj)‖_∞` (`0` without constraints)
into `primal_infeas_by_stage[k]`, with `c_kj` the values held in the problem data at the
call, and sets `results.primal_infeasibility` to the infinity norm of that vector, which is
non-negative. -/
theorem computeInfeasibilities_spec {S : Type} (problem : TrajOptProblem) (ws : Workspace S)
    (rs : Results) (hvec : problem.numSteps ≤ ws.primal_infeas_by_stage.length) :
    (∀ (k : ℕ) (st : StageModel) (sd : StageData),
      problem.stages_[k]? = some st → ws.problem_data.stage_data[k]? = some sd →
      ∃ m : ℚ, (computeInfeasibilities problem ws rs).1.primal_infeas_by_stage[k]? = some m ∧
        (∀ v ∈ constraintViolations st sd, v ≤ m) ∧
        (constraintViolations st sd = [] → m = 0) ∧
        (constraintViolations st sd ≠ [] → m ∈ constraintViolations st sd)) ∧
    (computeInfeasibilities problem ws rs).2.primal_infeasibility =
      infty_norm (computeInfeasibilities problem ws rs).1.primal_infeas_by_stage ∧
    0 ≤ (computeInfeasibilities problem ws rs).2.primal_infeasibility := by
  refine ⟨fun k st sd hst hsd => ?_, rfl, infty_norm_nonneg _⟩
  have hk : k < problem.stages_.length := by
    by_contra hn
    rw [List.getElem?_eq_none (by omega)] at hst
    cases hst
  have h := computeInfeasLoop_entry problem.stages_ ws.problem_data.stage_data 0
    ws.primal_infeas_by_stage k st sd hst hsd
    (by unfold TrajOptProblem.numSteps at hvec; omega)
  rw [Nat.zero_add] at h
  exact ⟨_, h, stageInfeas_max st sd⟩

/-- C10 (witness): the workspace allocated for `scalarProblem`. -/
theorem computeInfeasibilities_spec_witness :
    scalarProblem.numSteps ≤ freshWorkspace.primal_infeas_by_stage.length ∧
    (∃ m : ℚ,
      (computeInfeasibilities scalarProblem freshWorkspace
        freshResults).1.primal_infeas_by_stage[0]? = some m ∧
      (∀ v ∈ constraintViolations scalarStage { constraint_data := [{ value_ := [0] }] },
        v ≤ m) ∧
      (constraintViolations scalarStage { constraint_data := [{ value_ := [0] }] } = [] →
        m = 0) ∧
      (constraintViolations scalarStage { constraint_data := [{ value_ := [0] }] } ≠ [] →
        m ∈ constraintViolations scalarStage { constraint_data := [{ value_ := [0] }] })) ∧
    0 ≤ (computeInfeasibilities scalarProblem freshWorkspace freshResults).2.primal_infeasibility :=
  ⟨by decide,
    (computeInfeasibilities_spec scalarProblem freshWorkspace freshResults (by decide)).1 0
      scalarStage { constraint_data := [{ value_ := [0] }] } rfl rfl,
    (computeInfeasibilities_spec scalarProblem freshWorkspace freshResults (by decide)).2.2⟩

/-! ## Symmetry and invertibility in the backward pass -/

theorem selfadjointLower_transpose {ι : Type} [EigenIndex ι] (A : Matrix ι ι ℚ) :
    (selfadjointLower A).transpose = selfadjointLower A := by
  ext i j
  simp only [Matrix.transpose_apply, selfadjointLower]
  split_ifs with h1 h2 h2
  · have : i = j := EigenIndex.pos_inj (le_antisymm h1 h2)
    rw [this]
  · rfl
  · rfl
  · omega

theorem cramerLdlt_exact : cramerLdlt.Exact := by
  intro n m _ _ K B hK
  have hdet : K.det ≠ 0 := hK.ne_zero
  simp only [cramerLdlt]
  rw [Matrix.mul_smul, ← Matrix.mul_assoc, Matrix.mul_adjugate, Matrix.smul_mul, smul_smul,
    inv_mul_cancel₀ hdet, one_smul, Matrix.one_mul]

/-- With an exact solver and an invertible symmetric matrix, `rhsᵀ * solve K (-rhs)` is
symmetric. -/
theorem schur_term_symm (ldlt : LdltSolver) (hl : ldlt.Exact) {n m : Type} [Fintype n]
    [DecidableEq n] (K : Matrix n n ℚ) (rhs : Matrix n m ℚ) (hK : K.transpose = K)
    (hinv : IsUnit K.det) :
    (rhs.transpose * ldlt.solve K (-rhs)).transpose = rhs.transpose * ldlt.solve K (-rhs) := by
  have hsol := hl n m K (-rhs) hinv
  have hG : ldlt.solve K (-rhs) = K⁻¹ * (-rhs) := by
    rw [← hsol, ← Matrix.mul_assoc, Matrix.nonsing_inv_mul _ hinv, Matrix.one_mul, hsol]
  rw [hG, Matrix.transpose_mul, Matrix.transpose_mul, Matrix.transpose_transpose,
    Matrix.transpose_neg, Matrix.transpose_nonsing_inv, hK]
  simp [Matrix.mul_assoc]

theorem computeGains_symm (ldlt : LdltSolver) (hl : ldlt.Exact) (xreg mu : ℚ)
    {ndx1 nu ndx2 ndual : ℕ} (b : GainsBuffers ndx1 nu ndx2 ndual)
    (hinv : IsUnit (kktView xreg mu b).det) :
    (computeGains ldlt xreg mu b).vcurr.transpose = (computeGains ldlt xreg mu b).vcurr ∧
    (computeGains ldlt xreg mu b).qstorage.transpose = (computeGains ldlt xreg mu b).qstorage := by
  refine ⟨?_, selfadjointLower_transpose _⟩
  simp only [computeGains]
  rw [Matrix.transpose_add, schur_term_symm ldlt hl (kktView xreg mu b) (kktRhsFinal mu b)
      (selfadjointLower_transpose _) hinv,
    Matrix.transpose_submatrix, selfadjointLower_transpose]

/-- C9: after the backward pass, with an exact solver and every factorised KKT matrix
invertible, the value storage of every node `0..N` (terminal node included) and the Q storage
of every stage `0..N-1` are symmetric. -/
theorem backwardPass_stores_symmetric (ldlt : LdltSolver) (hl : ldlt.Exact) (xreg mu : ℚ) {ndx : ℕ}
    (h : Horizon ndx) (hinv : KktInvertible ldlt xreg mu h) :
    (backwardPass ldlt xreg mu h).value_params.length = h.numSteps + 1 ∧
    (backwardPass ldlt xreg mu h).q_params.length = h.numSteps ∧
    (∀ V ∈ (backwardPass ldlt xreg mu h).value_params, V.IsSymm) ∧
    (∀ Q ∈ (backwardPass ldlt xreg mu h).q_params, Q.IsSymm) := by
  induction h with
  | terminal storage =>
    refine ⟨rfl, rfl, fun V hV => ?_, fun Q hQ => by simp [backwardPass] at hQ⟩
    simp only [backwardPass, List.mem_singleton] at hV
    rw [hV]
    exact selfadjointLower_transpose _
  | stage nu ndx2 ndual fill rest ih =>
    obtain ⟨l1, l2, v, q⟩ := ih hinv.2
    have hg := computeGains_symm ldlt hl xreg mu (fill (backwardPass ldlt xreg mu rest).head)
      hinv.1
    refine ⟨by simp [backwardPass, Horizon.numSteps, l1], by simp [backwardPass, Horizon.numSteps, l2],
      fun V hV => ?_, fun Q hQ => ?_⟩
    · simp only [backwardPass, List.mem_cons] at hV
      rcases hV with hV | hV
      · rw [hV]; exact hg.1
      · exact v V hV
    · simp only [backwardPass, List.mem_cons] at hQ
      rcases hQ with hQ | hQ
      · rw [hQ]; exact hg.2
      · exact q Q hQ

theorem stageHess_symm {ndx1 nu ndx2 ndual : ℕ} (b : GainsBuffers ndx1 nu ndx2 ndual) :
    (stageHess b).transpose = stageHess b := by
  ext i j
  have h := congrFun (congrFun (selfadjointLower_transpose b.qstorage)
    (Sum.inr (Sum.inr i))) (Sum.inr (Sum.inr j))
  simpa [stageHess, Matrix.toBlocks₂₂] using h

theorem selfadjointLower_of_symm {ι : Type} [EigenIndex ι] (A : Matrix ι ι ℚ)
    (h : A.transpose = A) : selfadjointLower A = A := by
  ext i j
  simp only [selfadjointLower]
  split_ifs
  · rfl
  · exact congrFun (congrFun h i) j

/-- The lower self-adjoint view of a matrix whose rows and columns are split in two blocks. -/
theorem selfadjointLower_fromBlocks {α β : Type} [EigenIndex α] [EigenIndex β]
    (A : Matrix α α ℚ) (B : Matrix α β ℚ) (C : Matrix β α ℚ) (D : Matrix β β ℚ) :
    selfadjointLower (Matrix.fromBlocks A B C D) =
      Matrix.fromBlocks (selfadjointLower A) C.transpose C (selfadjointLower D) := by
  ext i j
  rcases i with i | i <;> rcases j with j | j
  · simp only [selfadjointLower, Matrix.fromBlocks_apply₁₁, EigenIndex.pos, Sum.elim_inl]
  · have hlt : ¬ EigenIndex.size α + EigenIndex.pos j ≤ EigenIndex.pos i := by
      have := EigenIndex.pos_lt i
      omega
    simp only [selfadjointLower, EigenIndex.pos, Sum.elim_inl, Sum.elim_inr, hlt, if_false,
      Matrix.fromBlocks_apply₂₁, Matrix.fromBlocks_apply₁₂, Matrix.transpose_apply]
  · have hle : EigenIndex.pos j ≤ EigenIndex.size α + EigenIndex.pos i := by
      have := EigenIndex.pos_lt j
      omega
    simp only [selfadjointLower, EigenIndex.pos, Sum.elim_inl, Sum.elim_inr, hle, if_true,
      Matrix.fromBlocks_apply₂₁]
  · simp only [selfadjointLower, Matrix.fromBlocks_apply₂₂, EigenIndex.pos, Sum.elim_inr,
      add_le_add_iff_left]

/-- When the dual block of the KKT buffer holds no stale entry below its diagonal, the
factorised matrix is `[[H + xreg*I, Jᵀ], [J, -mu*I]]`. -/
theorem kktView_blocks {ndx1 nu ndx2 ndual : ℕ} (xreg mu : ℚ)
    (b : GainsBuffers ndx1 nu ndx2 ndual)
    (hclean : ∀ i j : Fin ndual, j < i → b.kkt_mat (Sum.inr i) (Sum.inr j) = 0) :
    kktView xreg mu b =
      Matrix.fromBlocks (stageHess b + xreg • (1 : Matrix _ _ ℚ)) (stageJac b).transpose
        (stageJac b) (-mu • (1 : Matrix _ _ ℚ)) := by
  have hTL : selfadjointLower (stageHess b + xreg • (1 : Matrix (PrimalIdx nu ndx2) _ ℚ)) =
      stageHess b + xreg • (1 : Matrix _ _ ℚ) := by
    apply selfadjointLower_of_symm
    rw [Matrix.transpose_add, stageHess_symm, Matrix.transpose_smul, Matrix.transpose_one]
  have hBR : selfadjointLower
      (fun i j : Fin ndual => if i = j then -mu else b.kkt_mat.toBlocks₂₂ i j) =
      -mu • (1 : Matrix (Fin ndual) (Fin ndual) ℚ) := by
    ext i j
    simp only [selfadjointLower, EigenIndex.pos, Fin.val_fin_le, Matrix.toBlocks₂₂,
      Matrix.of_apply, Matrix.smul_apply, Matrix.one_apply, smul_eq_mul]
    by_cases hij : i = j
    · simp [hij]
    · have hji : ¬ j = i := fun h => hij h.symm
      simp only [hij, hji, if_false, mul_zero]
      split_ifs with h
      · exact hclean i j (lt_of_le_of_ne h hji)
      · exact hclean j i (lt_of_le_of_ne (le_of_not_le h) hij)
  unfold kktView kktMatFinal
  simp only []
  rw [selfadjointLower_fromBlocks, hBR]
  unfold stageHess at hTL
  rw [hTL]
  rfl

/-- Determinant of the saddle-point matrix through its Schur complement. -/
theorem det_saddle {p d : Type} [Fintype p] [DecidableEq p] [Fintype d] [DecidableEq d]
    (A : Matrix p p ℚ) (J : Matrix d p ℚ) (mu : ℚ) (hmu : mu ≠ 0) :
    (Matrix.fromBlocks A J.transpose J (-mu • (1 : Matrix d d ℚ))).det =
      (-mu) ^ Fintype.card d * (A + mu⁻¹ • (J.transpose * J)).det := by
  letI : Invertible (-mu • (1 : Matrix d d ℚ)) :=
    ⟨(-mu)⁻¹ • 1,
      by rw [Matrix.smul_mul, Matrix.one_mul, smul_smul,
        inv_mul_cancel₀ (neg_ne_zero.2 hmu), one_smul],
      by rw [Matrix.smul_mul, Matrix.one_mul, smul_smul,
        mul_inv_cancel₀ (neg_ne_zero.2 hmu), one_smul]⟩
  rw [Matrix.det_fromBlocks₂₂]
  have h1 : (⅟ (-mu • (1 : Matrix d d ℚ))) = (-mu)⁻¹ • 1 := rfl
  have h2 : A - J.transpose * ⅟ (-mu • (1 : Matrix d d ℚ)) * J =
      A + mu⁻¹ • (J.transpose * J) := by
    rw [h1, Matrix.mul_smul, Matrix.mul_one, Matrix.smul_mul, inv_neg, neg_smul, sub_neg_eq_add]
  rw [h2, Matrix.det_smul, Matrix.det_one, mul_one]

theorem isUnit_det_saddle_iff {p d : Type} [Fintype p] [DecidableEq p] [Fintype d]
    [DecidableEq d] (A : Matrix p p ℚ) (J : Matrix d p ℚ) (mu : ℚ) (hmu : mu ≠ 0) :
    IsUnit (Matrix.fromBlocks A J.transpose J (-mu • (1 : Matrix d d ℚ))).det ↔
      IsUnit (A + mu⁻¹ • (J.transpose * J)).det := by
  rw [det_saddle A J mu hmu, isUnit_iff_ne_zero, isUnit_iff_ne_zero]
  have : (-mu) ^ Fintype.card d ≠ 0 := pow_ne_zero _ (neg_ne_zero.2 hmu)
  constructor
  · intro h hz
    exact h (by rw [hz, mul_zero])
  · intro h
    exact mul_ne_zero this h

/-- A positive definite primal block and a positive penalty make the Schur complement
invertible. -/
theorem isUnit_det_schur_of_posDef {p d : Type} [Fintype p] [DecidableEq p] [Fintype d]
    (A : Matrix p p ℚ) (J : Matrix d p ℚ) (mu : ℚ) (hmu : 0 < mu)
    (hA : ∀ v : p → ℚ, v ≠ 0 → 0 < Matrix.dotProduct v (A.mulVec v)) :
    IsUnit (A + mu⁻¹ • (J.transpose * J)).det := by
  rw [isUnit_iff_ne_zero]
  intro hdet
  obtain ⟨v, hv, hz⟩ := Matrix.exists_mulVec_eq_zero_iff.2 hdet
  have h1 : Matrix.dotProduct v ((A + mu⁻¹ • (J.transpose * J)).mulVec v) = 0 := by
    rw [hz, Matrix.dotProduct_zero]
  have h2 : Matrix.dotProduct v ((J.transpose * J).mulVec v) =
      Matrix.dotProduct (J.mulVec v) (J.mulVec v) := by
    rw [← Matrix.mulVec_mulVec, Matrix.dotProduct_mulVec, Matrix.vecMul_transpose]
  have h3 : 0 ≤ Matrix.dotProduct (J.mulVec v) (J.mulVec v) :=
    Finset.sum_nonneg (fun i _ => mul_self_nonneg _)
  rw [Matrix.add_mulVec, Matrix.dotProduct_add, Matrix.smul_mulVec_assoc,
    Matrix.dotProduct_smul, h2, smul_eq_mul] at h1
  have h4 := hA v hv
  have h5 : 0 ≤ mu⁻¹ * Matrix.dotProduct (J.mulVec v) (J.mulVec v) :=
    mul_nonneg (le_of_lt (inv_pos.2 hmu)) h3
  linarith

theorem zeroCostStage_clean :
    ∀ i j : Fin 1, j < i → zeroCostStage.kkt_mat (Sum.inr i) (Sum.inr j) = 0 := by
  intro i j _
  rfl

theorem zeroCostStage_hess : stageHess zeroCostStage = 0 := by
  ext i j
  simp [stageHess, zeroCostStage, selfadjointLower, Matrix.toBlocks₂₂]

theorem zeroCostStage_singular : ¬ IsUnit (kktView 0 1 zeroCostStage).det := by
  rw [isUnit_iff_ne_zero, not_not, kktView_blocks 0 1 zeroCostStage zeroCostStage_clean,
    zeroCostStage_hess]
  apply Matrix.exists_mulVec_eq_zero_iff.1
  refine ⟨Sum.elim (fun _ => 1) (fun _ => 0), ?_, ?_⟩
  · intro h
    have := congrFun h (Sum.inl (Sum.inl 0))
    simp at this
  · ext i
    rcases i with (i | i) | i <;>
      simp [Matrix.fromBlocks_mulVec, Matrix.mulVec, Matrix.dotProduct, stageJac, zeroCostStage,
        Fintype.sum_sum_type]

/-- Invertibility of the factorised matrix from a positive penalty and a positive definite
primal block. -/
theorem kktView_isUnit_of_posDef {ndx1 nu ndx2 ndual : ℕ} (xreg mu : ℚ) (hmu : 0 < mu)
    (b : GainsBuffers ndx1 nu ndx2 ndual)
    (hclean : ∀ i j : Fin ndual, j < i → b.kkt_mat (Sum.inr i) (Sum.inr j) = 0)
    (hpd : ∀ v : PrimalIdx nu ndx2 → ℚ, v ≠ 0 →
      0 < Matrix.dotProduct v ((stageHess b + xreg • (1 : Matrix _ _ ℚ)).mulVec v)) :
    IsUnit (kktView xreg mu b).det := by
  rw [kktView_blocks xreg mu b hclean, isUnit_det_saddle_iff _ _ mu (ne_of_gt hmu)]
  exact isUnit_det_schur_of_posDef _ _ mu hmu hpd

theorem regularStage_clean :
    ∀ i j : Fin 1, j < i → regularStage.kkt_mat (Sum.inr i) (Sum.inr j) = 0 := by
  intro i j _
  rfl

theorem regularStage_hess : stageHess regularStage = 1 := by
  have h1 : selfadjointLower regularStage.qstorage = 1 :=
    selfadjointLower_of_symm _ Matrix.transpose_one
  unfold stageHess
  rw [h1]
  ext i j
  simp [Matrix.toBlocks₂₂, Matrix.one_apply]

theorem regularStage_posDef (v : PrimalIdx 1 1 → ℚ) (hv : v ≠ 0) :
    0 < Matrix.dotProduct v
      ((stageHess regularStage + (0 : ℚ) • (1 : Matrix _ _ ℚ)).mulVec v) := by
  rw [regularStage_hess, zero_smul, add_zero, Matrix.one_mulVec]
  have h0 : 0 ≤ Matrix.dotProduct v v := Finset.sum_nonneg (fun i _ => mul_self_nonneg _)
  rcases lt_or_eq_of_le h0 with h | h
  · exact h
  · exact absurd (Matrix.dotProduct_self_eq_zero.1 h.symm) hv

theorem regularHorizon_invertible : KktInvertible cramerLdlt 0 1 regularHorizon :=
  ⟨kktView_isUnit_of_posDef 0 1 one_pos regularStage regularStage_clean regularStage_posDef,
    trivial⟩

/-- C8 (counterexample): with `mu = 1`, `xreg = 0`, zero cost Hessian `H = 0` and the
dynamics Jacobian `J = [1, -1]`, the factorised matrix is `[[H, Jᵀ], [J, -I]]` and is
singular. -/
theorem kkt_singular_for_zero_cost :
    (1 : ℚ) ≠ 0 ∧
    (stageHess zeroCostStage).transpose = stageHess zeroCostStage ∧
    kktView 0 1 zeroCostStage =
      Matrix.fromBlocks (stageHess zeroCostStage + (0 : ℚ) • (1 : Matrix _ _ ℚ))
        (stageJac zeroCostStage).transpose (stageJac zeroCostStage)
        (-(1 : ℚ) • (1 : Matrix _ _ ℚ)) ∧
    ¬ IsUnit (kktView 0 1 zeroCostStage).det :=
  ⟨one_ne_zero, stageHess_symm _, kktView_blocks 0 1 zeroCostStage zeroCostStage_clean,
    zeroCostStage_singular⟩

/-- C8 (amended): for every nonzero `mu`, every `xreg` and all stage data (with no stale
entry in the dual block of the KKT buffer), the factorised matrix is
`K = [[H + xreg*I, Jᵀ], [J, -mu*I]]` with `H` symmetric, and `K` is invertible if and only if
the Schur complement `H + xreg*I + (1/mu)*Jᵀ*J` is; this is the case when `mu > 0` and
`H + xreg*I` is positive definite.  When `K` is invertible the gains solving
`K * G = -RHS` are unique. -/
theorem kkt_invertible_iff_schur {ndx1 nu ndx2 ndual : ℕ} (xreg mu : ℚ) (hmu : mu ≠ 0)
    (b : GainsBuffers ndx1 nu ndx2 ndual)
    (hclean : ∀ i j : Fin ndual, j < i → b.kkt_mat (Sum.inr i) (Sum.inr j) = 0) :
    (stageHess b).transpose = stageHess b ∧
    kktView xreg mu b =
      Matrix.fromBlocks (stageHess b + xreg • (1 : Matrix _ _ ℚ)) (stageJac b).transpose
        (stageJac b) (-mu • (1 : Matrix _ _ ℚ)) ∧
    (IsUnit (kktView xreg mu b).det ↔
      IsUnit (stageHess b + xreg • (1 : Matrix _ _ ℚ) +
        mu⁻¹ • ((stageJac b).transpose * stageJac b)).det) ∧
    (0 < mu →
      (∀ v : PrimalIdx nu ndx2 → ℚ, v ≠ 0 →
        0 < Matrix.dotProduct v ((stageHess b + xreg • (1 : Matrix _ _ ℚ)).mulVec v)) →
      IsUnit (kktView xreg mu b).det) ∧
    (IsUnit (kktView xreg mu b).det →
      ∀ G G2 : Matrix (KktIdx nu ndx2 ndual) (ValueIdx ndx1) ℚ,
        kktView xreg mu b * G = -kktRhsFinal mu b →
        kktView xreg mu b * G2 = -kktRhsFinal mu b → G = G2) := by
  refine ⟨stageHess_symm b, kktView_blocks xreg mu b hclean, ?_,
    fun hpos hpd => kktView_isUnit_of_posDef xreg mu hpos b hclean hpd, fun hinv G G2 h1 h2 => ?_⟩
  · rw [kktView_blocks xreg mu b hclean]
    exact isUnit_det_saddle_iff _ _ mu hmu
  · have e1 : G = (kktView xreg mu b)⁻¹ * (-kktRhsFinal mu b) := by
      rw [← h1, ← Matrix.mul_assoc, Matrix.nonsing_inv_mul _ hinv, Matrix.one_mul]
    have e2 : G2 = (kktView xreg mu b)⁻¹ * (-kktRhsFinal mu b) := by
      rw [← h2, ← Matrix.mul_assoc, Matrix.nonsing_inv_mul _ hinv, Matrix.one_mul]
    rw [e1, e2]

/-- C8 (witness): the stage with identity cost Hessian, `mu = 1`, `xreg = 0`. -/
theorem kkt_invertible_iff_schur_witness :
    (1 : ℚ) ≠ 0 ∧
    (∀ i j : Fin 1, j < i → regularStage.kkt_mat (Sum.inr i) (Sum.inr j) = 0) ∧
    IsUnit (kktView 0 1 regularStage).det :=
  ⟨one_ne_zero, regularStage_clean,
    (kkt_invertible_iff_schur 0 1 one_ne_zero regularStage regularStage_clean).2.2.2.1 one_pos
      regularStage_posDef⟩

/-- C9 (witness): Cramer's rule on the one-stage horizon `regularHorizon`. -/
theorem backwardPass_stores_symmetric_witness :
    cramerLdlt.Exact ∧ KktInvertible cramerLdlt 0 1 regularHorizon ∧
    (backwardPass cramerLdlt 0 1 regularHorizon).value_params.length = 2 ∧
    (backwardPass cramerLdlt 0 1 regularHorizon).q_params.length = 1 ∧
    (∀ V ∈ (backwardPass cramerLdlt 0 1 regularHorizon).value_params, V.IsSymm) ∧
    (∀ Q ∈ (backwardPass cramerLdlt 0 1 regularHorizon).q_params, Q.IsSymm) :=
  ⟨cramerLdlt_exact, regularHorizon_invertible,
    backwardPass_stores_symmetric cramerLdlt cramerLdlt_exact 0 1 regularHorizon
      regularHorizon_invertible⟩

/-! ## Claims on the tolerances and on the default seeding -/

/-- C15: at the head of every AL cycle of a call of `run`, hence at every call of `innerLoop`,
`inner_tol_ ≥ target_tolerance` and `prim_tol_ ≥ target_tolerance`, whatever the schedule
hooks return; consequently, in every inner iteration of such a call, the second exit test
(`inner_criterion < target_tolerance` and `primal_infeasibility < target_tolerance`) fails
whenever the first (`inner_criterion < inner_tol_`) fails. -/
theorem run_inner_tolerances_clamped {S : Type} (K : Kernel S) (sv : SolverProxDDP S)
    (problem : TrajOptProblem) (xs_init us_init : List VectorXs) (out : RunOutcome S)
    (h : run K sv problem xs_init us_init = .ok out) :
    (∀ st ∈ out.heads,
      st.solver.target_tolerance = sv.target_tolerance ∧
      sv.target_tolerance ≤ st.solver.inner_tol_ ∧
      sv.target_tolerance ≤ st.solver.prim_tol_) ∧
    (∀ st ∈ out.heads, ∀ (ws : Workspace S) (rs : Results),
      ¬ (innerAssess K st.solver problem ws rs).1.1.inner_criterion < st.solver.inner_tol_ →
      ¬ ((innerAssess K st.solver problem ws rs).1.1.inner_criterion <
            st.solver.target_tolerance ∧
          (innerAssess K st.solver problem ws rs).1.2.primal_infeasibility <
            st.solver.target_tolerance)) := by
  obtain ⟨ws, rs, r, -, -, -, -, rfl⟩ := run_eq_ok K problem sv xs_init us_init out h
  obtain ⟨-, -, i3, -, -, i6, i7, -, -⟩ := runInit_solver K sv ws r
  have hcl := alLoop_heads_clamped K problem sv.target_tolerance
    (runInit K sv ws r).solver.MAX_AL_ITERS (runInit K sv ws r) [] (by simp) ⟨i3, i6, i7⟩
  refine ⟨fun st hst => ⟨(hcl st hst).1, (hcl st hst).2.2, (hcl st hst).2.1⟩,
    fun st hst ws1 rs1 h1 h2 => ?_⟩
  obtain ⟨c1, -, c3⟩ := hcl st hst
  exact h1 (lt_of_lt_of_le h2.1 (by rw [c1]; exact c3))

/-- C15 (witness): the call on the fresh solver for `scalarProblem`. -/
theorem run_inner_tolerances_clamped_witness :
    ∃ out, run stationaryKernel freshSolver scalarProblem [[0], [0]] [[0]] = .ok out ∧
      (∀ st ∈ out.heads,
        st.solver.target_tolerance = freshSolver.target_tolerance ∧
        freshSolver.target_tolerance ≤ st.solver.inner_tol_ ∧
        freshSolver.target_tolerance ≤ st.solver.prim_tol_) :=
  ⟨_, rfl, (run_inner_tolerances_clamped stationaryKernel freshSolver scalarProblem
    [[0], [0]] [[0]] _ rfl).1⟩

theorem seedUs_entries (problem : TrajOptProblem) (n i : ℕ) (us r : List VectorXs)
    (h : seedUs problem n i us = .ok r) :
    r.length = us.length ∧
    (∀ k, k < i → r[k]? = us[k]?) ∧
    (∀ k st, i ≤ k → k < i + n → k < us.length → problem.stages_[k]? = some st →
      r[k]? = some st.uspace_neutral) := by
  induction n generalizing i us with
  | zero =>
    simp only [seedUs, Except.ok.injEq] at h
    subst h
    exact ⟨rfl, fun _ _ => rfl, fun k st h1 h2 => by omega⟩
  | succ n ih =>
    simp only [seedUs] at h
    split at h
    · cases h
    · next sm hsm =>
      obtain ⟨l1, l2, l3⟩ := ih (i + 1) _ h
      rw [List.length_set] at l1
      refine ⟨l1, fun k hk => ?_, fun k st h1 h2 h3 h4 => ?_⟩
      · rw [l2 k (by omega), List.getElem?_set_ne (by omega)]
      · rcases Nat.eq_or_lt_of_le h1 with heq | hlt
        · subst heq
          rw [l2 i (by omega), List.getElem?_set_eq_of_lt _ h3]
          rw [hsm] at h4
          cases h4
          rfl
        · exact l3 k st (by omega) (by omega) (by rw [List.length_set]; exact h3) h4

/-- C16 (failing input): with an empty `xs_init` the seeding loop of lines 289-292 runs
`i = 0..N` and reads `problem.stages_[N]`, one past the last stage: on every problem the
loop faults at index `N = numSteps`, and so does the call `run(scalarProblem, {}, {0})`
on the fresh solver (`N = 1`), whatever the routines do.  The loop for the controls reads the
indices `0..N-1` only and sets every `us[i]` to the neutral element of stage `i`. -/
theorem run_default_seeding_reads_past_last_stage :
    (∀ K : Kernel Unit,
      run K freshSolver scalarProblem [] [[0]] = .error (.stageIndexOutOfRange 1)) ∧
    (∀ (problem : TrajOptProblem) (xs : List VectorXs),
      seedXs problem (problem.numSteps + 1) 0 xs =
        .error (.stageIndexOutOfRange problem.numSteps)) ∧
    (∀ (problem : TrajOptProblem) (us : List VectorXs),
      ∃ r, seedUs problem problem.numSteps 0 us = .ok r ∧ r.length = us.length ∧
        ∀ (k : ℕ) (st : StageModel), k < us.length → problem.stages_[k]? = some st →
          r[k]? = some st.uspace_neutral) := by
  refine ⟨fun K => rfl, fun problem xs => ?_, fun problem us => ?_⟩
  · exact seedXs_past_end problem _ 0 xs (Nat.zero_le _) (by simp [TrajOptProblem.numSteps])
  · obtain ⟨r, hr⟩ := seedUs_ok problem problem.numSteps 0 us (by simp [TrajOptProblem.numSteps])
    obtain ⟨l1, -, l3⟩ := seedUs_entries problem _ 0 us r hr
    refine ⟨r, hr, l1, fun k st hk hst => ?_⟩
    have hkN : k < problem.stages_.length := by
      by_contra hn
      rw [List.getElem?_eq_none (by omega)] at hst
      cases hst
    exact l3 k st (Nat.zero_le _) (by simpa [TrajOptProblem.numSteps] using hkN) hk hst

/-! ## `tryStep` -/

theorem tryStepLams_entries (lams dlams : List VectorXs) (alpha : ℚ) (n i : ℕ)
    (tl r : List VectorXs) (h : tryStepLams lams dlams alpha n i tl = some r) :
    r.length = tl.length ∧
    (∀ k, k < i → r[k]? = tl[k]?) ∧
    (∀ k, i + n ≤ k → r[k]? = tl[k]?) ∧
    (∀ (k : ℕ) (l d : VectorXs), i ≤ k → k < i + n → k < tl.length →
      lams[k]? = some l → dlams[k]? = some d →
      r[k]? = some (vecAdd l (vecScale alpha d))) := by
  induction n generalizing i tl with
  | zero =>
    simp only [tryStepLams, Option.some.injEq] at h
    subst h
    exact ⟨rfl, fun _ _ => rfl, fun _ _ => rfl, fun k l d h1 h2 => by omega⟩
  | succ n ih =>
    simp only [tryStepLams] at h
    split at h
    · next l0 d0 hl hd =>
      obtain ⟨l1, l2, l3, l4⟩ := ih (i + 1) _ h
      rw [List.length_set] at l1
      refine ⟨l1, fun k hk => ?_, fun k hk => ?_, fun k l d h1 h2 h3 h4 h5 => ?_⟩
      · rw [l2 k (by omega), List.getElem?_set_ne (by omega)]
      · rw [l3 k (by omega), List.getElem?_set_ne (by omega)]
      · rcases Nat.eq_or_lt_of_le h1 with heq | hlt
        · subst heq
          rw [l2 i (by omega), List.getElem?_set_eq_of_lt _ h3]
          rw [hl] at h4
          rw [hd] at h5
          cases h4
          cases h5
          rfl
        · exact l4 k l d (by omega) (by omega) (by rw [List.length_set]; exact h3) h4 h5
    · cases h

/-- C11 (failing input): on `scalarProblem` (`N = 1`, with a terminal constraint, so that the
multiplier lists have `N + 2 = 3` entries), with `lams = {0, 0, 0}`, `dlams = {0, 0, 1}`,
`alpha = 1` and trial buffers as allocated, `tryStep` leaves `trial_lams[N + 1] = 0`, not
`lams[N + 1] + alpha * dlams[N + 1] = 1`.  On every input the loop of lines 75-76 writes the
entries `0..N` as `lams[k] + alpha * dlams[k]` and leaves every entry `k > N` of `trial_lams`
as it was. -/
theorem tryStep_skips_terminal_multiplier :
    (∃ out, tryStep scalarProblem freshResults [[0], [0]] [[0]] [[0], [0], [1]]
        { trial_xs_ := [[0], [0]], trial_us_ := [[0]], trial_lams_ := [[0], [0], [0]] } 1
        = some out ∧
      out.trial_lams_[2]? = some [0] ∧
      freshResults.lams_[2]? = some [0] ∧
      vecAdd [0] (vecScale 1 [1]) = [1]) ∧
    (∀ (problem : TrajOptProblem) (results : Results) (dxs dus dlams : List VectorXs)
      (trial out : TrialBuffers) (alpha : ℚ),
      tryStep problem results dxs dus dlams trial alpha = some out →
      (∀ (k : ℕ) (l d : VectorXs), k ≤ problem.numSteps → k < trial.trial_lams_.length →
        results.lams_[k]? = some l → dlams[k]? = some d →
        out.trial_lams_[k]? = some (vecAdd l (vecScale alpha d))) ∧
      (∀ k : ℕ, problem.numSteps < k → out.trial_lams_[k]? = trial.trial_lams_[k]?)) := by
  refine ⟨⟨_, rfl, rfl, rfl, ?_⟩, ?_⟩
  · norm_num [vecAdd, vecScale]
  · intro problem results dxs dus dlams trial out alpha h
    unfold tryStep at h
    simp only [] at h
    split at h
    · cases h
    · next tl htl =>
      split at h
      · cases h
      · next txs tus hst =>
        split at h
        · next stage x dx _ _ _ =>
          cases h
          obtain ⟨-, -, l3, l4⟩ := tryStepLams_entries _ _ _ _ _ _ _ htl
          refine ⟨fun k l d hk hlen hl hd => ?_, fun k hk => ?_⟩
          · exact l4 k l d (Nat.zero_le _) (by omega) hlen hl hd
          · exact l3 k (by omega)
        · cases h

/-! ## `computeTerminalValue` -/

/-- C13: with `mu_inverse = 1/mu`, `z = prev_lam + c/mu`, `lam+ = normalConeProjection(z)`
and `Jc` the constraint Jacobian after `applyNormalConeProjectionJacobian(z, .)`,
`computeTerminalValue` stores the gain `G_N = [lam+ - lam | (1/mu) * Jc]`, the gradient
`Vx = L_x + rho * P_x + Jcᵀ * lam+` and the Hessian `Vxx`, lower-symmetrisation of
`L_xx + rho * P_xx + c.Hxx + (1/mu) * Jcᵀ * Jc`; without a terminal constraint it stores
`Vx = L_x + rho * P_x` and the lower-symmetrisation of `L_xx + rho * P_xx`. -/
theorem computeTerminalValue_spec {ndx nr : ℕ} (rho mu mu_inverse : ℚ)
    (hmu : mu_inverse = mu⁻¹) (cost prox : TerminalCostData ndx)
    (prior : TerminalStores ndx nr) :
    (∀ c : TerminalConstraint ndx nr,
      (computeTerminalValueFull rho mu_inverse cost prox (some c) prior).lamplus =
        c.set_.normalConeProjection (c.lamprev + mu⁻¹ • c.value_) ∧
      (computeTerminalValueFull rho mu_inverse cost prox (some c) prior).Jx_ =
        c.set_.applyNormalConeProjectionJacobian (c.lamprev + mu⁻¹ • c.value_) c.Jx_ ∧
      (∀ i, (computeTerminalValueFull rho mu_inverse cost prox (some c) prior).gains i
          (Sum.inl ()) =
        (computeTerminalValueFull rho mu_inverse cost prox (some c) prior).lamplus i -
          c.lamin i) ∧
      (∀ i j, (computeTerminalValueFull rho mu_inverse cost prox (some c) prior).gains i
          (Sum.inr j) =
        mu⁻¹ * (computeTerminalValueFull rho mu_inverse cost prox (some c) prior).Jx_ i j) ∧
      (∀ i, (computeTerminalValueFull rho mu_inverse cost prox (some c) prior).storage
          (Sum.inr i) (Sum.inl ()) =
        (cost.Lx_ + rho • prox.Lx_ +
          (computeTerminalValueFull rho mu_inverse cost prox (some c) prior).Jx_.transpose.mulVec
            (computeTerminalValueFull rho mu_inverse cost prox (some c) prior).lamplus) i) ∧
      (computeTerminalValueFull rho mu_inverse cost prox (some c) prior).storage.toBlocks₂₂ =
        selfadjointLower (cost.Lxx_ + rho • prox.Lxx_ + c.Hxx_ +
          mu⁻¹ •
            ((computeTerminalValueFull rho mu_inverse cost prox (some c) prior).Jx_.transpose *
              (computeTerminalValueFull rho mu_inverse cost prox (some c) prior).Jx_))) ∧
    (∀ i, (computeTerminalValueFull rho mu_inverse cost prox none prior).storage
        (Sum.inr i) (Sum.inl ()) = (cost.Lx_ + rho • prox.Lx_) i) ∧
    (computeTerminalValueFull rho mu_inverse cost prox none prior).storage.toBlocks₂₂ =
      selfadjointLower (cost.Lxx_ + rho • prox.Lxx_) := by
  subst hmu
  have hcol : ∀ (M : Matrix (ValueIdx ndx) (ValueIdx ndx) ℚ) (i : Fin ndx),
      selfadjointLower M (Sum.inr i) (Sum.inl ()) = M (Sum.inr i) (Sum.inl ()) := by
    intro M i
    simp [selfadjointLower, EigenIndex.pos]
  have hblk : ∀ (v2 : ℚ) (Vx : Fin ndx → ℚ) (Vxx : Matrix (Fin ndx) (Fin ndx) ℚ)
      (P : Matrix (ValueIdx ndx) (ValueIdx ndx) ℚ),
      (selfadjointLower (valueStorage v2 Vx Vxx P)).toBlocks₂₂ = selfadjointLower Vxx := by
    intro v2 Vx Vxx P
    unfold valueStorage
    rw [selfadjointLower_fromBlocks, Matrix.toBlocks_fromBlocks₂₂]
  refine ⟨fun c => ⟨rfl, rfl, fun i => rfl, fun i j => rfl, fun i => ?_, ?_⟩, fun i => ?_, ?_⟩
  · simp only [computeTerminalValueFull, computeTerminalValue, terminalValueFill, hcol,
      valueStorage, Matrix.fromBlocks_apply₂₁]
    rw [add_assoc, ← Matrix.mulVec_add, add_sub_cancel]
  · simp only [computeTerminalValueFull, computeTerminalValue, terminalValueFill, hblk]
    rw [Matrix.mul_smul]
  · simp only [computeTerminalValueFull, computeTerminalValue, terminalValueFill, hcol,
      valueStorage, Matrix.fromBlocks_apply₂₁]
  · simp only [computeTerminalValueFull, computeTerminalValue, terminalValueFill, hblk]

/-- C13 (witness): the terminal equality constraint `x = 1` on the real line, `mu = 2`. -/
theorem computeTerminalValue_spec_witness :
    (1 / 2 : ℚ) = (2 : ℚ)⁻¹ ∧
    (∀ i, (computeTerminalValueFull 0 (1 / 2) scalarTerminalCost zeroTerminalCost
        (some scalarTerminalConstraint) zeroTerminalStores).gains i (Sum.inl ()) =
      (computeTerminalValueFull 0 (1 / 2) scalarTerminalCost zeroTerminalCost
        (some scalarTerminalConstraint) zeroTerminalStores).lamplus i -
        scalarTerminalConstraint.lamin i) :=
  ⟨by norm_num,
    ((computeTerminalValue_spec 0 2 (1 / 2) (by norm_num) scalarTerminalCost zeroTerminalCost
      zeroTerminalStores).1 scalarTerminalConstraint).2.2.1⟩

/-! ## `computeDirection`, node 0 -/

/-- The matrix factorised at node 0 is `[[sym(Vxx + rho*Lxx), Jxᵀ], [Jx, -mu*I]]`. -/
theorem initialKkt_blocks {n : ℕ} (rho mu : ℚ) (d : InitialNode n) :
    selfadjointLower (initialKktMat rho mu d) =
      Matrix.fromBlocks (selfadjointLower (d.Vxx_ + rho • d.prox_Lxx_)) d.Jx_.transpose d.Jx_
        (-mu • (1 : Matrix (Fin n) (Fin n) ℚ)) := by
  unfold initialKktMat
  rw [selfadjointLower_fromBlocks, selfadjointLower_of_symm (-mu • (1 : Matrix _ _ ℚ))]
  rw [Matrix.transpose_smul, Matrix.transpose_one]

/-- With an exact solver and an invertible matrix, the step of node 0 solves the system with
the right-hand side assembled by lines 38-40. -/
theorem computeDirectionInit_solves {n : ℕ} (ldlt : LdltSolver) (hl : ldlt.Exact)
    (rho mu mu_inverse : ℚ) (d : InitialNode n)
    (hinv : IsUnit (selfadjointLower (initialKktMat rho mu d)).det) :
    (selfadjointLower (initialKktMat rho mu d)).mulVec
        (computeDirectionInit ldlt rho mu mu_inverse d).pd_step_0 =
      -(computeDirectionInit ldlt rho mu mu_inverse d).kkt_rhs_0 := by
  have h := hl _ Unit (selfadjointLower (initialKktMat rho mu d))
    (fun i (_ : Unit) => -initialKktRhs rho mu mu_inverse d i) hinv
  funext i
  have hi := congrFun (congrFun h i) ()
  simp only [Matrix.mul_apply] at hi
  simp only [computeDirectionInit, Matrix.mulVec, Matrix.dotProduct, Pi.neg_apply]
  exact hi

theorem skewInitialNode_invertible :
    IsUnit (selfadjointLower (initialKktMat 0 1 skewInitialNode)).det := by
  rw [initialKkt_blocks, isUnit_det_saddle_iff _ _ 1 one_ne_zero]
  apply isUnit_det_schur_of_posDef _ _ 1 one_pos
  intro v hv
  have h1 : selfadjointLower (skewInitialNode.Vxx_ + (0 : ℚ) • skewInitialNode.prox_Lxx_) = 1 := by
    rw [zero_smul, add_zero]
    exact selfadjointLower_of_symm _ Matrix.transpose_one
  rw [h1, Matrix.one_mulVec]
  have h0 : 0 ≤ Matrix.dotProduct v v := Finset.sum_nonneg (fun i _ => mul_self_nonneg _)
  rcases lt_or_eq_of_le h0 with h | h
  · exact h
  · exact absurd (Matrix.dotProduct_self_eq_zero.1 h.symm) hv

/-- C18 (failing input): at `skewInitialNode` (`Jx = [[1, 1], [0, 1]]`, `lam0 = (1, 0)`),
with `mu = mu_inverse = 1`, `rho = 0` and an exact solver, the factorised matrix is
`[[V0.Vxx, Jxᵀ], [Jx, -I]]` and the step `pd_step[0]` solves the system whose right-hand
side has the primal part `Jx * lam0 = (1, 0)` assembled by line 39; the right-hand side
with the transposed Jacobian has the primal part `Jxᵀ * lam0 = (1, 1)`, and `pd_step[0]`
does not solve that system. -/
theorem computeDirection_initial_rhs_not_transposed :
    selfadjointLower (initialKktMat 0 1 skewInitialNode) =
      Matrix.fromBlocks (skewInitialNode.Vxx_ + (0 : ℚ) • skewInitialNode.prox_Lxx_)
        skewInitialNode.Jx_.transpose skewInitialNode.Jx_
        (-(1 : ℚ) • (1 : Matrix (Fin 2) (Fin 2) ℚ)) ∧
    (selfadjointLower (initialKktMat 0 1 skewInitialNode)).mulVec
        (computeDirectionInit cramerLdlt 0 1 1 skewInitialNode).pd_step_0 =
      -(computeDirectionInit cramerLdlt 0 1 1 skewInitialNode).kkt_rhs_0 ∧
    (computeDirectionInit cramerLdlt 0 1 1 skewInitialNode).kkt_rhs_0 (Sum.inl 1) = 0 ∧
    transposedInitialRhs 0 1 skewInitialNode (Sum.inl 1) = 1 ∧
    (selfadjointLower (initialKktMat 0 1 skewInitialNode)).mulVec
        (computeDirectionInit cramerLdlt 0 1 1 skewInitialNode).pd_step_0 ≠
      -transposedInitialRhs 0 1 skewInitialNode := by
  have hsolve := computeDirectionInit_solves cramerLdlt cramerLdlt_exact 0 1 1 skewInitialNode
    skewInitialNode_invertible
  have hcode : (computeDirectionInit cramerLdlt 0 1 1 skewInitialNode).kkt_rhs_0 (Sum.inl 1)
      = 0 := by
    simp [computeDirectionInit, initialKktRhs, skewInitialNode, Matrix.mulVec,
      Matrix.dotProduct, Fin.sum_univ_two]
  have hclaim : transposedInitialRhs 0 1 skewInitialNode (Sum.inl 1) = 1 := by
    simp [transposedInitialRhs, skewInitialNode, Matrix.mulVec, Matrix.dotProduct,
      Fin.sum_univ_two]
  refine ⟨?_, hsolve, hcode, hclaim, fun hne => ?_⟩
  · rw [initialKkt_blocks, selfadjointLower_of_symm
      (skewInitialNode.Vxx_ + (0 : ℚ) • skewInitialNode.prox_Lxx_)]
    simp [skewInitialNode]
  · rw [hsolve] at hne
    have h1 := congrFun hne (Sum.inl 1)
    simp only [Pi.neg_apply, hcode, hclaim] at h1
    norm_num at h1

/-! ## `computeDirection`, stages and terminal multiplier -/

theorem computeDirectionLoop_entries (problem : TrajOptProblem) (gains : List MatrixXs)
    (views : List StateView) (n i : ℕ) (pd r : List VectorXs)
    (h : computeDirectionLoop problem gains views n i pd = some r) :
    r.length = pd.length ∧
    (∀ k, k ≤ i → r[k]? = pd[k]?) ∧
    (∀ (k : ℕ) (stage : StageModel) (G : MatrixXs) (v : StateView) (p : VectorXs),
      i ≤ k → k < i + n → k + 1 < pd.length →
      problem.stages_[k]? = some stage → gains[k]? = some G → views[k]? = some v →
      r[k]? = some p → r[k + 1]? = some (gainApply G stage.ndx1 (v.read p))) := by
  induction n generalizing i pd with
  | zero =>
    simp only [computeDirectionLoop, Option.some.injEq] at h
    subst h
    exact ⟨rfl, fun _ _ => rfl, fun k _ _ _ _ h1 h2 => by omega⟩
  | succ n ih =>
    simp only [computeDirectionLoop] at h
    split at h
    · next stage0 G0 v0 p0 hs hG hv hp =>
      obtain ⟨l1, l2, l3⟩ := ih (i + 1) _ h
      rw [List.length_set] at l1
      refine ⟨l1, fun k hk => ?_, fun k stage G v p h1 h2 h3 h4 h5 h6 h7 => ?_⟩
      · rw [l2 k (by omega), List.getElem?_set_ne (by omega)]
      · rcases Nat.eq_or_lt_of_le h1 with heq | hlt
        · subst heq
          rw [l2 i (by omega), List.getElem?_set_ne (by omega), hp] at h7
          rw [hs] at h4
          rw [hG] at h5
          rw [hv] at h6
          cases h4
          cases h5
          cases h6
          cases h7
          rw [l2 (i + 1) (le_refl _), List.getElem?_set_eq_of_lt _ h3]
        · exact l3 k stage G v p (by omega) (by omega) (by rw [List.length_set]; exact h3)
            h4 h5 h6 h7
    · cases h

theorem computeDirectionLoop_some (problem : TrajOptProblem) (gains : List MatrixXs)
    (views : List StateView) (n i : ℕ) (pd : List VectorXs)
    (h1 : i + n ≤ problem.stages_.length) (h2 : i + n ≤ gains.length)
    (h3 : i + n ≤ views.length) (h4 : i + n ≤ pd.length) :
    ∃ r, computeDirectionLoop problem gains views n i pd = some r := by
  induction n generalizing i pd with
  | zero => exact ⟨pd, rfl⟩
  | succ n ih =>
    simp only [computeDirectionLoop]
    rw [List.getElem?_eq_getElem (show i < problem.stages_.length by omega),
      List.getElem?_eq_getElem (show i < gains.length by omega),
      List.getElem?_eq_getElem (show i < views.length by omega),
      List.getElem?_eq_getElem (show i < pd.length by omega)]
    exact ih (i + 1) _ (by omega) (by omega) (by omega) (by rw [List.length_set]; omega)

theorem gainApply_entry (G : MatrixXs) (ndx : ℕ) (dx : VectorXs) (r : ℕ) (hr : r < G.rows)
    (hc : G.cols = ndx + 1) :
    (gainApply G ndx dx)[r]? =
      some (G.coeff r 0 + ((List.range ndx).map fun j => G.coeff r (1 + j) * dx.getD j 0).sum) := by
  unfold gainApply
  rw [List.getElem?_map, List.getElem?_range hr]
  simp only [Option.map_some', hc, Nat.add_sub_cancel_left]

/-- C14: lines 49-64 of `computeDirection` run to their end when there is a gain and a view
for every stage, a step vector for every node and, if the problem has a terminal constraint,
also a gain and a view for the terminal node.  Then the step of node 0 is untouched; for
every stage `k < N`, `pd_step[k + 1] = G_k[:, 0] + F_k * dx_k` with `F_k` the last `ndx1_k`
columns of `G_k = gains[k]` (the columns `1..ndx1_k` when `G_k` has `ndx1_k + 1` columns)
and `dx_k` the view `dxs_[k]` of the final `pd_step[k]`; with a terminal constraint,
`dlams[N + 1] = G_N[:, 0] + F_N * dx_N`, and without one no terminal step is written. -/
theorem computeDirection_steps (problem : TrajOptProblem) (gains : List MatrixXs)
    (views : List StateView) (pd_step : List VectorXs)
    (hg : problem.numSteps ≤ gains.length) (hv : problem.numSteps ≤ views.length)
    (hp : problem.numSteps + 1 ≤ pd_step.length)
    (hterm : problem.term_constraint_ ≠ none →
      problem.numSteps + 1 ≤ gains.length ∧ problem.numSteps + 1 ≤ views.length) :
    ∃ out, computeDirectionSteps problem gains views pd_step = some out ∧
      out.pd_step_[0]? = pd_step[0]? ∧
      (∀ (k : ℕ) (stage : StageModel) (G : MatrixXs) (v : StateView) (p : VectorXs),
        k < problem.numSteps →
        problem.stages_[k]? = some stage → gains[k]? = some G → views[k]? = some v →
        out.pd_step_[k]? = some p →
        out.pd_step_[k + 1]? = some (gainApply G stage.ndx1 (v.read p))) ∧
      (problem.term_constraint_ ≠ none →
        ∀ (G : MatrixXs) (v : StateView) (p : VectorXs),
          gains[problem.numSteps]? = some G → views[problem.numSteps]? = some v →
          out.pd_step_[problem.numSteps]? = some p →
          out.dlam_term = some (gainApply G problem.term_ndx1 (v.read p))) ∧
      (problem.term_constraint_ = none → out.dlam_term = none) ∧
      (∀ (G : MatrixXs) (ndx : ℕ) (dx : VectorXs) (r : ℕ), r < G.rows → G.cols = ndx + 1 →
        (gainApply G ndx dx)[r]? =
          some (G.coeff r 0 +
            ((List.range ndx).map fun j => G.coeff r (1 + j) * dx.getD j 0).sum)) := by
  obtain ⟨r, hr⟩ := computeDirectionLoop_some problem gains views problem.numSteps 0 pd_step
    (by simp [TrajOptProblem.numSteps]) (by omega) (by omega) (by omega)
  obtain ⟨l1, l2, l3⟩ := computeDirectionLoop_entries problem gains views _ 0 pd_step r hr
  have hentries : ∀ (k : ℕ) (stage : StageModel) (G : MatrixXs) (v : StateView)
      (p : VectorXs), k < problem.numSteps →
      problem.stages_[k]? = some stage → gains[k]? = some G → views[k]? = some v →
      r[k]? = some p → r[k + 1]? = some (gainApply G stage.ndx1 (v.read p)) :=
    fun k stage G v p hk => l3 k stage G v p (Nat.zero_le _) (by omega) (by omega)
  have hgain := fun (G : MatrixXs) (ndx : ℕ) (dx : VectorXs) (r : ℕ) (h1 : r < G.rows)
      (h2 : G.cols = ndx + 1) => gainApply_entry G ndx dx r h1 h2
  unfold computeDirectionSteps
  simp only [hr]
  cases ht : problem.term_constraint_ with
  | none =>
    exact ⟨_, rfl, l2 0 (le_refl _), hentries, fun hne => absurd rfl hne, fun _ => rfl, hgain⟩
  | some c =>
    simp only []
    obtain ⟨hg1, hv1⟩ := hterm (by rw [ht]; exact Option.some_ne_none c)
    have e1 := List.getElem?_eq_getElem (show problem.numSteps < gains.length by omega)
    have e2 := List.getElem?_eq_getElem (show problem.numSteps < views.length by omega)
    have e3 := List.getElem?_eq_getElem (show problem.numSteps < r.length by omega)
    rw [e1, e2, e3]
    refine ⟨_, rfl, l2 0 (le_refl _), hentries, fun _ G v p h1 h2 h3 => ?_,
      fun hn => Option.noConfusion hn, hgain⟩
    have h3b : r[problem.numSteps]? = some p := h3
    rw [e3] at h3b
    cases h1
    cases h2
    cases h3b
    rfl

/-- C14 (witness): `chainProblem` (two stages, no terminal constraint, two gains) and
`scalarProblem` (one stage, terminal constraint, two gains), each with the step
`(dx_0, dlam_0) = (1, 0)` at node 0. -/
theorem computeDirection_steps_witness :
    (chainProblem.numSteps ≤ chainGains.length ∧
      chainProblem.numSteps ≤ chainViews.length ∧
      chainProblem.numSteps + 1 ≤ ([[1, 0], [0, 0, 0], [0, 0, 0]] : List VectorXs).length ∧
      chainProblem.term_constraint_ = none ∧
      chainGains.length = chainProblem.numSteps ∧
      computeDirectionSteps chainProblem chainGains chainViews
          [[1, 0], [0, 0, 0], [0, 0, 0]] =
        some { pd_step_ := [[1, 0], [1, 2, 3], [1, 3, 5]], dlam_term := none } ∧
      ∃ out, computeDirectionSteps chainProblem chainGains chainViews
          [[1, 0], [0, 0, 0], [0, 0, 0]] = some out ∧
        out.pd_step_[0]? = ([[1, 0], [0, 0, 0], [0, 0, 0]] : List VectorXs)[0]? ∧
        out.dlam_term = none) ∧
    (scalarProblem.numSteps ≤ scalarGains.length ∧
      scalarProblem.numSteps ≤ scalarViews.length ∧
      scalarProblem.numSteps + 1 ≤ ([[1, 0], [0, 0, 0]] : List VectorXs).length ∧
      scalarProblem.numSteps + 1 ≤ scalarGains.length ∧
      scalarProblem.numSteps + 1 ≤ scalarViews.length ∧
      ∃ out, computeDirectionSteps scalarProblem scalarGains scalarViews [[1, 0], [0, 0, 0]]
          = some out ∧
        out.pd_step_[0]? = ([[1, 0], [0, 0, 0]] : List VectorXs)[0]?) :=
  ⟨⟨by decide, by decide, by decide, rfl, rfl,
      by norm_num [computeDirectionSteps, computeDirectionLoop, chainProblem, chainGains,
        chainViews, TrajOptProblem.numSteps, gainApply, StateView.read, scalarStage,
        List.range, List.range.loop],
      (computeDirection_steps chainProblem chainGains chainViews
        [[1, 0], [0, 0, 0], [0, 0, 0]] (by decide) (by decide) (by decide)
        (fun h => absurd rfl h)).imp fun _ h => ⟨h.1, h.2.1, h.2.2.2.2.1 rfl⟩⟩,
    ⟨by decide, by decide, by decide, by decide, by decide,
      (computeDirection_steps scalarProblem scalarGains scalarViews [[1, 0], [0, 0, 0]]
        (by decide) (by decide) (by decide)
        (fun _ => ⟨by decide, by decide⟩)).imp fun _ h => ⟨h.1, h.2.1⟩⟩⟩

/-! ## Stale entries of the KKT buffer -/

/-- C12 (failing input): backward pass on a two-stage problem whose last stage has
`nprim = 3`, `ndual = 1` and whose first stage has `nprim = 2`, `ndual = 2`, from a
zero-initialised KKT buffer, `xreg = 0`, `mu = 1`.  `computeGains` on the last stage writes
its Jacobian row `(1, 1, -1)` on row 3 of the buffer; on the first stage the dual block of
the view lies on rows and columns 2-3, only its diagonal is written, and the matrix that is
factorised has the entry `-1` off the diagonal of its dual block, where `-mu * I` has `0`. -/
theorem computeGains_keeps_stale_dual_block :
    kktBufferAfterGains (fun _ _ => 0) 0 1 wideStage 3 2 = -1 ∧
    kktView 0 1 narrowStage (Sum.inr 1) (Sum.inr 0) = -1 ∧
    kktView 0 1 narrowStage (Sum.inr 0) (Sum.inr 1) = -1 ∧
    (-(1 : ℚ) • (1 : Matrix (Fin 2) (Fin 2) ℚ)) 1 0 = 0 ∧
    kktView 0 1 narrowStage ≠
      Matrix.fromBlocks (stageHess narrowStage + (0 : ℚ) • (1 : Matrix _ _ ℚ))
        (stageJac narrowStage).transpose (stageJac narrowStage)
        (-(1 : ℚ) • (1 : Matrix _ _ ℚ)) := by
  have h0 : kktBufferAfterGains (fun _ _ => 0) 0 1 wideStage 3 2 = -1 := by
    simp [kktBufferAfterGains, putKktView, kktIdxOf, kktMatFinal, wideStage, gainsBuffersFrom,
      loadKktJacobian]
  have h1 : kktView 0 1 narrowStage (Sum.inr 1) (Sum.inr 0) = -1 := by
    have hpos : EigenIndex.pos (Sum.inr 0 : KktIdx 1 1 2) ≤
        EigenIndex.pos (Sum.inr 1 : KktIdx 1 1 2) := by
      simp [EigenIndex.pos]
    simp only [kktView, selfadjointLower, hpos, if_true]
    simp only [kktMatFinal, Matrix.fromBlocks_apply₂₂]
    rw [if_neg (by decide)]
    simp only [narrowStage, gainsBuffersFrom, loadKktJacobian, Matrix.toBlocks_fromBlocks₂₂]
    simp only [Matrix.toBlocks₂₂, Matrix.of_apply, getKktView]
    have e1 : EigenIndex.pos (Sum.inr 1 : KktIdx 1 1 2) = 3 := rfl
    have e2 : EigenIndex.pos (Sum.inr 0 : KktIdx 1 1 2) = 2 := rfl
    rw [e1, e2, h0]
  have h2 : kktView 0 1 narrowStage (Sum.inr 0) (Sum.inr 1) = -1 := by
    have hsym := congrFun (congrFun (selfadjointLower_transpose (kktMatFinal 0 1 narrowStage))
      (Sum.inr 0)) (Sum.inr 1)
    rw [Matrix.transpose_apply] at hsym
    unfold kktView at h1 ⊢
    rw [← hsym, h1]
  refine ⟨h0, h1, h2, by simp, fun heq => ?_⟩
  have := congrFun (congrFun heq (Sum.inr 1)) (Sum.inr 0)
  rw [h1] at this
  simp at this


/-! ## The scoreboard entry of node 0 at the convergence test -/

theorem backwardGainsLoop_entry_zero {S : Type} (R : ScoredRoutines S)
    (sv : SolverProxDDP (Scoreboards S)) (problem : TrajOptProblem) (n : ℕ)
    (st : Workspace (Scoreboards S) × Results) :
    (backwardGainsLoop R sv problem n st).1.scratch.inner_criterion_by_stage[0]? =
        st.1.scratch.inner_criterion_by_stage[0]? ∧
      (backwardGainsLoop R sv problem n st).1.scratch.dual_infeas_by_stage[0]? =
        st.1.scratch.dual_infeas_by_stage[0]? := by
  induction n generalizing st with
  | zero => exact ⟨rfl, rfl⟩
  | succ n ih =>
    simp only [backwardGainsLoop]
    rw [(ih _).1, (ih _).2]
    simp [applyComputeGains]

theorem backwardGainsLoop_direction_free {S : Type} (R : ScoredRoutines S)
    (d : SolverProxDDP S → TrajOptProblem → Workspace S → Results → NodeZeroOut S)
    (sv : SolverProxDDP (Scoreboards S)) (problem : TrajOptProblem) (n : ℕ)
    (st : Workspace (Scoreboards S) × Results) :
    backwardGainsLoop { R with computeDirection := d } sv problem n st =
      backwardGainsLoop R sv problem n st := by
  induction n generalizing st with
  | zero => rfl
  | succ n ih =>
    simp only [backwardGainsLoop]
    rw [ih]
    rfl

theorem offsetHead_tols : offsetHead.solver.inner_tol_ = 1 ∧
    offsetHead.results.num_iters = 0 ∧ offsetHead.solver.MAX_ITERS = 100 := by
  norm_num [offsetHead, runInit, scoredKernel, offsetRoutines, offsetSolver, offsetResults,
    SolverProxDDP.setSchedule, SolverProxDDP.forget]

theorem offset_assess_criterion :
    (innerAssess (scoredKernel offsetRoutines) offsetHead.solver freeProblem
      offsetHead.workspace offsetHead.results).1.1.inner_criterion = 0 := by
  simp [innerAssess, scoredKernel, backwardPassScored, backwardGainsLoop, applyComputeGains,
    offsetRoutines, computeInfeasibilities, freeProblem, TrajOptProblem.numSteps, offsetHead,
    runInit, offsetWorkspace, infty_norm]

theorem offsetExit_eq :
    offsetExit = (innerAssess (scoredKernel offsetRoutines) offsetHead.solver freeProblem
      offsetHead.workspace offsetHead.results).1 :=
  innerLoop_stop _ _ _ _ _ (by rw [offsetHead_tols.2.1, offsetHead_tols.2.2]; decide)
    (by rw [offset_assess_criterion, offsetHead_tols.1]; decide)

theorem offset_afterInner :
    (afterInner (scoredKernel offsetRoutines) freeProblem offsetHead).2.primal_infeasibility
        = 0 ∧
    (afterInner (scoredKernel offsetRoutines) freeProblem offsetHead).2.dual_infeasibility
        = 0 ∧
    (afterInner (scoredKernel offsetRoutines) freeProblem offsetHead).2.xs_ = [[2], [2]] := by
  unfold afterInner
  rw [innerLoop_stop _ _ _ _ _ (by rw [offsetHead_tols.2.1, offsetHead_tols.2.2]; decide)
    (by rw [offset_assess_criterion, offsetHead_tols.1]; decide)]
  simp [innerAssess, scoredKernel, backwardPassScored, backwardGainsLoop, applyComputeGains,
    offsetRoutines, computeInfeasibilities, computeInfeasLoop, stageInfeas, freeProblem,
    freeData, scalarStage, equalitySet, TrajOptProblem.numSteps, offsetHead, runInit,
    offsetWorkspace, offsetResults, infty_norm]

theorem offset_alCycle :
    (alCycle (scoredKernel offsetRoutines) freeProblem offsetHead).1 = true ∧
    (alCycle (scoredKernel offsetRoutines) freeProblem offsetHead).2.results.conv = true ∧
    (alCycle (scoredKernel offsetRoutines) freeProblem offsetHead).2.results.xs_ =
      [[2], [2]] := by
  have ht : offsetHead.solver.prim_tol_ = 1 ∧ offsetHead.solver.target_tolerance = 1 / 100 := by
    norm_num [offsetHead, runInit, scoredKernel, offsetRoutines, offsetSolver,
      SolverProxDDP.setSchedule, SolverProxDDP.forget]
  simp only [alCycle, offset_afterInner.1, offset_afterInner.2.1, ht.1]
  norm_num [SolverProxDDP.setSchedule, ht.2, offset_afterInner.2.2]

/-- C17 (code bug): in the run `run(freeProblem, {2, 2}, {0})` the first inner iteration
leaves `innerLoop` through the test `inner_criterion < inner_tol_` with
`inner_criterion = 0` and `inner_tol_ = 1`, at the iterate `xs = (2, 2)` and with no step
taken, although the right-hand side of node 0 at that iterate has infinity norm `2`; the
run then returns `true` with `xs = (2, 2)` while the initial state of the problem is `0`.
In general `backwardPass` leaves the entries `0` of both scoreboards as they were, and the
outcome of lines 410-419 does not depend on the routine `computeDirection`, which is the
only writer of these entries. -/
theorem innerLoop_test_ignores_current_node_zero :
    run (scoredKernel offsetRoutines) offsetSolver freeProblem [[2], [2]] [[0]] =
        .ok (runLoop (scoredKernel offsetRoutines) freeProblem offsetSolver offsetWorkspace
          { offsetResults with xs_ := [[2], [2]] }) ∧
      (runLoop (scoredKernel offsetRoutines) freeProblem offsetSolver offsetWorkspace
        { offsetResults with xs_ := [[2], [2]] }).ret = true ∧
      (runLoop (scoredKernel offsetRoutines) freeProblem offsetSolver offsetWorkspace
        { offsetResults with xs_ := [[2], [2]] }).results.xs_ = [[2], [2]] ∧
      offsetExit = (innerAssess (scoredKernel offsetRoutines) offsetHead.solver freeProblem
        offsetHead.workspace offsetHead.results).1 ∧
      offsetExit.1.inner_criterion = 0 ∧ offsetHead.solver.inner_tol_ = 1 ∧
      offsetExit.2.num_iters = 0 ∧ offsetExit.2.xs_ = [[2], [2]] ∧
      offsetExit.2.us_ = [[0]] ∧ offsetExit.2.lams_ = [[0], [0]] ∧
      offsetExit.1.scratch.inner_criterion_by_stage = [0, 0] ∧
      (offsetRoutines.computeDirection offsetHead.solver.forget freeProblem
        offsetExit.1.forget offsetExit.2).inner_criterion_entry = 2 ∧
      ¬ (offsetRoutines.computeDirection offsetHead.solver.forget freeProblem
        offsetExit.1.forget offsetExit.2).inner_criterion_entry <
          offsetHead.solver.inner_tol_ ∧
      (∀ (S : Type) (R : ScoredRoutines S) (sv : SolverProxDDP (Scoreboards S))
        (problem : TrajOptProblem) (ws : Workspace (Scoreboards S)) (rs : Results),
        (backwardPassScored R sv problem ws rs).scratch.inner_criterion_by_stage[0]? =
            ws.scratch.inner_criterion_by_stage[0]? ∧
          (backwardPassScored R sv problem ws rs).scratch.dual_infeas_by_stage[0]? =
            ws.scratch.dual_infeas_by_stage[0]?) ∧
      (∀ (S : Type) (R : ScoredRoutines S)
        (d : SolverProxDDP S → TrajOptProblem → Workspace S → Results → NodeZeroOut S)
        (sv : SolverProxDDP (Scoreboards S)) (problem : TrajOptProblem)
        (ws : Workspace (Scoreboards S)) (rs : Results),
        innerAssess (scoredKernel { R with computeDirection := d }) sv problem ws rs =
          innerAssess (scoredKernel R) sv problem ws rs) := by
  have hx : offsetExit.1.inner_criterion = 0 := by
    rw [offsetExit_eq]; exact offset_assess_criterion
  have hd : (offsetRoutines.computeDirection offsetHead.solver.forget freeProblem
      offsetExit.1.forget offsetExit.2).inner_criterion_entry = 2 := rfl
  have hl : alLoop (scoredKernel offsetRoutines) freeProblem 10 offsetHead [] =
      { state := (alCycle (scoredKernel offsetRoutines) freeProblem offsetHead).2,
        declared := true, heads := [offsetHead] } :=
    alLoop_break _ freeProblem 9 offsetHead [] (by decide) (by decide) offset_alCycle.1
  have hr : (runLoop (scoredKernel offsetRoutines) freeProblem offsetSolver offsetWorkspace
      { offsetResults with xs_ := [[2], [2]] }).results =
      (alLoop (scoredKernel offsetRoutines) freeProblem 10 offsetHead []).state.results := rfl
  have hret : (runLoop (scoredKernel offsetRoutines) freeProblem offsetSolver offsetWorkspace
      { offsetResults with xs_ := [[2], [2]] }).ret =
      (alLoop (scoredKernel offsetRoutines) freeProblem 10 offsetHead []).state.results.conv :=
    rfl
  refine ⟨rfl, ?_, ?_, offsetExit_eq, hx, offsetHead_tols.1, ?_, ?_, ?_, ?_, ?_, hd, ?_, ?_,
    ?_⟩
  · rw [hret, hl]; exact offset_alCycle.2.1
  · rw [hr, hl]; exact offset_alCycle.2.2
  · rw [offsetExit_eq]; rfl
  · rw [offsetExit_eq]; rfl
  · rw [offsetExit_eq]; rfl
  · rw [offsetExit_eq]; rfl
  · rw [offsetExit_eq]
    simp [innerAssess, scoredKernel, backwardPassScored, backwardGainsLoop, applyComputeGains,
      offsetRoutines, computeInfeasibilities, freeProblem, TrajOptProblem.numSteps, offsetHead,
      runInit, offsetWorkspace]
  · rw [hd, offsetHead_tols.1]; norm_num
  · intro S R sv problem ws rs
    exact backwardGainsLoop_entry_zero R sv problem problem.numSteps _
  · intro S R d sv problem ws rs
    simp only [innerAssess, scoredKernel, backwardPassScored, backwardGainsLoop_direction_free]

end ProxDDP
